import Mathlib

/-!
Incident Commander: the game engine of `internal/game/game.go`.

A shallow embedding of the Go package `game` and the properties of its
tick-based state machine.

Modelling conventions
* Go `int` is `Int`. Coordinates, counters and the score stay far below
  `2^63` in any run of feasible length, so no wrap-around is modelled.
  Statements that give the exact result of score arithmetic for arbitrary
  games assume that the results fit Go's `int` (`FitsInt`).
  Go's `/` on `int` truncates toward zero: `Int.tdiv`.
* A slice is a `List`; `append(s, x)` is `s ++ [x]`.
* `time.Time` is a number of nanoseconds on the process clock, a
  `time.Duration` is a difference of two of them. Every call of
  `time.Now` or `time.Since` takes the next reading of `World.clock`.
* `math/rand` is the stream `World.rand` of raw draws; `rand.Intn n`
  reduces the next draw modulo `n` and has no result (it panics) for `n ≤ 0`.
* A method with receiver `g *Game` is a function from the game (and the
  world, when it reads the clock or draws random numbers) to the new game.
  The result is an `Option`: `none` stands for a run that yields no state,
  either because `rand.Intn` panicked or because the sampling loop of
  `spawnAlerts` was still running after `fuel` samples.
-/

namespace IncidentGame

/-! ## Data model -/

/-- Go `type Direction int`: any integer is a value of the type. -/
abbrev Direction := Int

/-- Constant `Up` (iota 0). -/
def Up : Direction := 0
/-- Constant `Down` (iota 1). -/
def Down : Direction := 1
/-- Constant `Left` (iota 2). -/
def Left : Direction := 2
/-- Constant `Right` (iota 3). -/
def Right : Direction := 3

/-- Go `type Position struct { X, Y int }`. -/
structure Position where
  X : Int
  Y : Int
deriving DecidableEq, Repr

/-- Go `type GameState int` with its four constants, the only values the
package ever stores in `Game.State`. -/
inductive GameState where
  | Playing
  | Paused
  | GameOver
  | LevelComplete
deriving DecidableEq, Repr

/-- Go `type Game struct`. The three `time.Time` fields are clock readings in
nanoseconds. -/
structure Game where
  Width : Int
  Height : Int
  Commander : Position
  Trail : List Position
  Alerts : List Position
  Obstacles : List Position
  Direction : Direction
  State : GameState
  Score : Int
  Level : Int
  AlertsCollected : Int
  AlertsNeeded : Int
  StartTime : Int
  LastUpdate : Int
  LevelCompleteTime : Int
deriving DecidableEq, Repr

/-- The environment of a run: the successive readings of the clock and the
successive raw draws of the global random source, each with a cursor. -/
structure World where
  clock : Nat → Int
  reads : Nat
  rand : Nat → Nat
  drawn : Nat

/-- Reading of `time.Now()`: the next clock reading. -/
def timeNow (w : World) : Int × World :=
  (w.clock w.reads, { w with reads := w.reads + 1 })

/-- Duration of `time.Since(t)`: the next clock reading minus `t`. -/
def timeSince (t : Int) (w : World) : Int × World :=
  ((timeNow w).1 - t, (timeNow w).2)

/-- Constant `time.Second` in nanoseconds. -/
def Second : Int := 1000000000

/-- Value of `int(d.Seconds())` for a duration `d ≥ 0`: the whole seconds of
the duration. `Seconds` returns `float64(d / Second) + float64(d % Second) / 1e9`;
for `0 ≤ d < 2^23` seconds the sum is below its integer successor by more than
half a unit in the last place, so the conversion to `int` yields exactly the
whole seconds; for `d ≥ 2^23` seconds both that value and this one exceed 60,
the only threshold the package compares it with, so `max(0, 60 - s)` is the
same. For `d < 0` (a start time ahead of the clock, which `time.Since` never
yields for a start time read from the same clock) the rounding of the sum can
differ from the truncation by one below `-2^23` seconds; the statements about
the time bonus assume `d ≥ 0`. -/
def seconds (d : Int) : Int := d.tdiv Second

/-- Result of `rand.Intn(n)`: a value in `[0, n)`, no result for `n ≤ 0`. -/
def randIntn (n : Int) (w : World) : Option (Int × World) :=
  if n ≤ 0 then none
  else some ((w.rand w.drawn : Int) % n, { w with drawn := w.drawn + 1 })

/-- Go `func max(a, b int) int`. -/
def max (a b : Int) : Int := if a > b then a else b

/-- Go `func abs(x int) int`. -/
def abs (x : Int) : Int := if x < 0 then -x else x

/-- The values a loop `for x := lo; x < hi; x += step` runs through, in order;
the first argument bounds the number of iterations. -/
def loopFrom (hi step : Int) : Nat → Int → List Int
  | 0, _ => []
  | n + 1, x => if x < hi then x :: loopFrom hi step n (x + step) else []

/-- Iteration values of `for x := lo; x < hi; x += step` (for `step ≥ 1`). -/
def forRange (lo hi step : Int) : List Int :=
  loopFrom hi step (hi - lo).toNat lo

/-- Slice expression `append(s[:i], s[i+1:]...)`. -/
def removeAt (s : List Position) (i : Nat) : List Position :=
  s.take i ++ s.drop (i + 1)

/-! ## The engine -/

/-- Go `isPositionOccupied`: commander, trail or obstacle on `pos`. -/
def isPositionOccupied (g : Game) (pos : Position) : Bool :=
  if g.Commander.X = pos.X ∧ g.Commander.Y = pos.Y then true
  else if g.Trail.any (fun segment => segment.X = pos.X ∧ segment.Y = pos.Y) then true
  else if g.Obstacles.any (fun obstacle => obstacle.X = pos.X ∧ obstacle.Y = pos.Y) then true
  else false

/-- Go `spawnAlerts`: while fewer than 3 alerts, sample cells until a free one
is found. One unit of fuel pays for one sampled cell. -/
def spawnAlerts : Nat → Game → World → Option (Game × World)
  | 0, g, w => if g.Alerts.length < 3 then none else some (g, w)
  | fuel + 1, g, w =>
    if g.Alerts.length < 3 then
      match randIntn g.Width w with
      | none => none
      | some (x, w1) =>
        match randIntn g.Height w1 with
        | none => none
        | some (y, w2) =>
          if !isPositionOccupied g ⟨x, y⟩ then
            spawnAlerts fuel { g with Alerts := g.Alerts ++ [⟨x, y⟩] } w2
          else spawnAlerts fuel g w2
    else some (g, w)

/-- Go `addStaticBarriers`: the cross pattern, 4 cells from the centre. -/
def addStaticBarriers (g : Game) : Game :=
  let centerX := g.Width.tdiv 2
  let centerY := g.Height.tdiv 2
  let g1 := (forRange 2 (g.Width - 2) 1).foldl (fun (g : Game) (x : Int) =>
    if abs (x - centerX) > 2 then
      let ga := if centerY - 4 ≥ 0 then
        { g with Obstacles := g.Obstacles ++ [⟨x, centerY - 4⟩] } else g
      if centerY + 4 < ga.Height then
        { ga with Obstacles := ga.Obstacles ++ [⟨x, centerY + 4⟩] } else ga
    else g) g
  (forRange 2 (g1.Height - 2) 1).foldl (fun (g : Game) (y : Int) =>
    if abs (y - centerY) > 2 then
      let ga := if centerX - 4 ≥ 0 then
        { g with Obstacles := g.Obstacles ++ [⟨centerX - 4, y⟩] } else g
      if centerX + 4 < ga.Width then
        { ga with Obstacles := ga.Obstacles ++ [⟨centerX + 4, y⟩] } else ga
    else g) g1

/-- Inner loop of `addRandomObstacles`: up to `attempts` sampled cells for one
obstacle, placed on the first cell outside the safe zone that is free. -/
def placeRandomObstacle : Nat → Game → World → Option (Game × World)
  | 0, g, w => some (g, w)
  | attempts + 1, g, w =>
    match randIntn g.Width w with
    | none => none
    | some (x, w1) =>
      match randIntn g.Height w1 with
      | none => none
      | some (y, w2) =>
        if abs (x - g.Width.tdiv 2) ≤ 2 ∧ abs (y - g.Height.tdiv 2) ≤ 2 then
          placeRandomObstacle attempts g w2
        else if !isPositionOccupied g ⟨x, y⟩ then
          some ({ g with Obstacles := g.Obstacles ++ [⟨x, y⟩] }, w2)
        else placeRandomObstacle attempts g w2

/-- Outer loop of `addRandomObstacles`, `n` iterations left. -/
def addRandomObstaclesLoop : Nat → Game → World → Option (Game × World)
  | 0, g, w => some (g, w)
  | n + 1, g, w =>
    match placeRandomObstacle 50 g w with
    | none => none
    | some (g1, w1) => addRandomObstaclesLoop n g1 w1

/-- Go `addRandomObstacles(count)`. -/
def addRandomObstacles (count : Int) (g : Game) (w : World) : Option (Game × World) :=
  addRandomObstaclesLoop count.toNat g w

/-- Body of the inner loop of `addMazeLayout` at lattice point `(x, y)`. -/
def mazeCell (x y : Int) (g : Game) (w : World) : Option (Game × World) :=
  let centerX := g.Width.tdiv 2
  let centerY := g.Height.tdiv 2
  if abs (x - centerX) ≤ 2 ∧ abs (y - centerY) ≤ 2 then some (g, w)
  else if !isPositionOccupied g ⟨x, y⟩ then
    let g1 := { g with Obstacles := g.Obstacles ++ [⟨x, y⟩] }
    match randIntn 2 w with
    | none => none
    | some (r, w1) =>
      let nextPos : Position := if r = 0 then ⟨x + 1, y⟩ else ⟨x, y + 1⟩
      if nextPos.X < g1.Width ∧ nextPos.Y < g1.Height ∧
          !isPositionOccupied g1 nextPos ∧
          ¬(abs (nextPos.X - centerX) ≤ 2 ∧ abs (nextPos.Y - centerY) ≤ 2) then
        some ({ g1 with Obstacles := g1.Obstacles ++ [nextPos] }, w1)
      else some (g1, w1)
  else some (g, w)

/-- Sequential run of a loop body over the iteration values. -/
def forEach (body : Int → Game → World → Option (Game × World)) :
    List Int → Game → World → Option (Game × World)
  | [], g, w => some (g, w)
  | x :: xs, g, w =>
    match body x g w with
    | none => none
    | some (g1, w1) => forEach body xs g1 w1

/-- Go `addMazeLayout`: obstacles on a lattice of pitch 4 starting at 2. -/
def addMazeLayout (g : Game) (w : World) : Option (Game × World) :=
  forEach (fun x g1 w1 =>
    forEach (fun y g2 w2 => mazeCell x y g2 w2) (forRange 2 (g1.Height - 2) 4) g1 w1)
    (forRange 2 (g.Width - 2) 4) g w

/-- Go `setupLevel`: the obstacle layout of the current level. -/
def setupLevel (g : Game) (w : World) : Option (Game × World) :=
  if g.Level = 3 ∨ g.Level = 4 then some (addStaticBarriers g, w)
  else if g.Level = 5 ∨ g.Level = 6 then addRandomObstacles 2 (addStaticBarriers g) w
  else if g.Level = 7 ∨ g.Level = 8 then addRandomObstacles 4 g w
  else if g.Level = 9 ∨ g.Level = 10 then addMazeLayout g w
  else some (g, w)

/-- Go `New(width, height)`. Three clock readings are taken: the seed of the
random source, `StartTime` and `LastUpdate`. -/
def New (fuel : Nat) (width height : Int) (w : World) : Option (Game × World) :=
  let w1 := (timeNow w).2
  let w2 := (timeNow w1).2
  let w3 := (timeNow w2).2
  let g : Game :=
    { Width := width
      Height := height
      Commander := ⟨width.tdiv 2, height.tdiv 2⟩
      Trail := []
      Alerts := []
      Obstacles := []
      Direction := Right
      State := .Playing
      Score := 0
      Level := 1
      AlertsCollected := 0
      AlertsNeeded := 5
      StartTime := (timeNow w1).1
      LastUpdate := (timeNow w2).1
      LevelCompleteTime := 0 }
  match spawnAlerts fuel g w3 with
  | none => none
  | some (g1, w4) => setupLevel g1 w4

/-- Go `moveCommander`: push the current cell on the trail, then step. A
direction outside the four constants moves nothing. -/
def moveCommander (g : Game) : Game :=
  let g1 := { g with Trail := g.Trail ++ [g.Commander] }
  if g1.Direction = Up then
    { g1 with Commander := { g1.Commander with Y := g1.Commander.Y - 1 } }
  else if g1.Direction = Down then
    { g1 with Commander := { g1.Commander with Y := g1.Commander.Y + 1 } }
  else if g1.Direction = Left then
    { g1 with Commander := { g1.Commander with X := g1.Commander.X - 1 } }
  else if g1.Direction = Right then
    { g1 with Commander := { g1.Commander with X := g1.Commander.X + 1 } }
  else g1

/-- Go `collectAlert(index)`. The slice expression panics for an index outside
the list. -/
def collectAlert (fuel : Nat) (g : Game) (index : Nat) (w : World) :
    Option (Game × World) :=
  if g.Alerts.length ≤ index then none
  else
    let g1 := { g with Alerts := removeAt g.Alerts index }
    let basePoints : Int := 10
    let comboMultiplier := g1.AlertsCollected + 1
    let g2 := { g1 with Score := g1.Score + basePoints * comboMultiplier }
    let g3 := { g2 with AlertsCollected := g2.AlertsCollected + 1 }
    spawnAlerts fuel g3 w

/-- Index of the first alert on cell `c`, as found by the last loop of
`checkCollisions`. -/
def findAlert (c : Position) : List Position → Option Nat
  | [] => none
  | alert :: rest =>
    if c.X = alert.X ∧ c.Y = alert.Y then some 0
    else (findAlert c rest).map (· + 1)

/-- Go `checkCollisions`: wall, trail, obstacle, then alert. -/
def checkCollisions (fuel : Nat) (g : Game) (w : World) : Option (Game × World) :=
  if g.Commander.X < 0 ∨ g.Commander.X ≥ g.Width ∨
      g.Commander.Y < 0 ∨ g.Commander.Y ≥ g.Height then
    some ({ g with State := .GameOver }, w)
  else if g.Trail.any (fun segment =>
      g.Commander.X = segment.X ∧ g.Commander.Y = segment.Y) then
    some ({ g with State := .GameOver }, w)
  else if g.Obstacles.any (fun obstacle =>
      g.Commander.X = obstacle.X ∧ g.Commander.Y = obstacle.Y) then
    some ({ g with State := .GameOver }, w)
  else
    match findAlert g.Commander g.Alerts with
    | some i => collectAlert fuel g i w
    | none => some (g, w)

/-- The safety loop of `nextLevel`: for `i` from `n - 1` down to `0`, remove
`obstacles[i]` when it lies on `c`. -/
def clearSpawn (c : Position) : Nat → List Position → List Position
  | 0, obstacles => obstacles
  | i + 1, obstacles =>
    match obstacles[i]? with
    | some o =>
      if o.X = c.X ∧ o.Y = c.Y then clearSpawn c i (removeAt obstacles i)
      else clearSpawn c i obstacles
    | none => clearSpawn c i obstacles

/-- Go `nextLevel`. -/
def nextLevel (fuel : Nat) (g : Game) (w : World) : Option (Game × World) :=
  if g.Level ≥ 10 then some (g, w)
  else
    let g1 := { g with Level := g.Level + 1 }
    let g2 := { g1 with AlertsCollected := 0 }
    let g3 := { g2 with AlertsNeeded := 5 + (g2.Level - 1) }
    let g4 := { g3 with StartTime := (timeNow w).1 }
    let w1 := (timeNow w).2
    let g5 := { g4 with State := .Playing }
    let g6 := { g5 with Commander := ⟨g5.Width.tdiv 2, g5.Height.tdiv 2⟩ }
    let g7 := { g6 with Trail := [] }
    let g8 := { g7 with Alerts := [] }
    let g9 := { g8 with Obstacles := [] }
    match setupLevel g9 w1 with
    | none => none
    | some (g10, w2) =>
      let commanderPos := g10.Commander
      let g11 := { g10 with
        Obstacles := clearSpawn commanderPos g10.Obstacles.length g10.Obstacles }
      spawnAlerts fuel g11 w2

/-- Go `checkLevelComplete`. -/
def checkLevelComplete (fuel : Nat) (g : Game) (w : World) : Option (Game × World) :=
  if g.AlertsCollected ≥ g.AlertsNeeded then
    if g.State ≠ .LevelComplete then
      let g1 := { g with State := .LevelComplete }
      let timeBonus := max 0 (60 - seconds (timeSince g1.StartTime w).1)
      let w1 := (timeSince g1.StartTime w).2
      let g2 := { g1 with Score := g1.Score + ((100 * g1.Level) + timeBonus) }
      some ({ g2 with LevelCompleteTime := (timeNow w1).1 }, (timeNow w1).2)
    else
      if (timeSince g.LevelCompleteTime w).1 ≥ 1 * Second then
        nextLevel fuel g (timeSince g.LevelCompleteTime w).2
      else some (g, (timeSince g.LevelCompleteTime w).2)
  else some (g, w)

/-- Go `Update`: one tick. -/
def Update (fuel : Nat) (g : Game) (w : World) : Option (Game × World) :=
  let g1 := { g with LastUpdate := (timeNow w).1 }
  match checkLevelComplete fuel g1 (timeNow w).2 with
  | none => none
  | some (g2, w2) =>
    if g2.State ≠ .Playing then some (g2, w2)
    else checkCollisions fuel (moveCommander g2) w2

/-- The map literal of `SetDirection`, read at `dir`; a key that is not in the
map reads as the zero value `Up`. -/
def opposite (dir : Direction) : Direction :=
  if dir = Up then Down
  else if dir = Down then Up
  else if dir = Left then Right
  else if dir = Right then Left
  else 0

/-- Go `SetDirection(dir)`. -/
def SetDirection (g : Game) (dir : Direction) : Game :=
  if g.Direction ≠ opposite dir then { g with Direction := dir } else g

/-- Go `Pause`. -/
def Pause (g : Game) : Game :=
  if g.State = .Playing then { g with State := .Paused }
  else if g.State = .Paused then { g with State := .Playing }
  else g

/-- Go `Restart`: the game is overwritten by a new one of the same size. -/
def Restart (fuel : Nat) (g : Game) (w : World) : Option (Game × World) :=
  New fuel g.Width g.Height w

/-! ## Notions used by the statements -/

/-- The cell the commander occupies after `moveCommander`: one step from the
current cell in the current direction. -/
def nextCell (g : Game) : Position := (moveCommander g).Commander

/-- Cell `c` lies outside `[0, Width) × [0, Height)`. -/
def OutOfBounds (g : Game) (c : Position) : Prop :=
  c.X < 0 ∨ c.X ≥ g.Width ∨ c.Y < 0 ∨ c.Y ≥ g.Height

instance (g : Game) (c : Position) : Decidable (OutOfBounds g c) :=
  inferInstanceAs (Decidable (c.X < 0 ∨ c.X ≥ g.Width ∨ c.Y < 0 ∨ c.Y ≥ g.Height))

/-- The next cell is outside the grid, on the trail (the cell just left
included) or on an obstacle. -/
def Collides (g : Game) : Prop :=
  OutOfBounds g (nextCell g) ∨ nextCell g ∈ g.Trail ++ [g.Commander] ∨
    nextCell g ∈ g.Obstacles

instance (g : Game) : Decidable (Collides g) :=
  inferInstanceAs (Decidable (OutOfBounds g (nextCell g) ∨
    nextCell g ∈ g.Trail ++ [g.Commander] ∨ nextCell g ∈ g.Obstacles))

/-- The `k`-th cell that a sampling loop started in world `w` draws. -/
def sampleCell (g : Game) (w : World) (k : Nat) : Position :=
  ⟨(w.rand (w.drawn + 2 * k) : Int) % g.Width, (w.rand (w.drawn + 2 * k + 1) : Int) % g.Height⟩

/-- Number of free cells among the first `n` cells sampled from `w`. -/
def freeSamples (g : Game) (w : World) (n : Nat) : Nat :=
  ((List.range n).filter (fun k => !isPositionOccupied g (sampleCell g w k))).length

/-- The world after a sampling loop has drawn one cell (two raw draws). -/
def afterSample (w : World) : World :=
  { { w with drawn := w.drawn + 1 } with drawn := w.drawn + 1 + 1 }

/-- Every cell the random source is going to yield in world `w` is free in `g`. -/
def AllFree (g : Game) (w : World) : Prop :=
  ∀ k, isPositionOccupied g (sampleCell g w k) = false

/-- Game `g'` differs from `g` at most in its obstacle list. -/
def ObstaclesOnly (g g' : Game) : Prop := g' = { g with Obstacles := g'.Obstacles }

/-- The game as `nextLevel` hands it to `setupLevel`: counters, state and
positions reset, the lists emptied; `t` is the new `StartTime`. -/
def levelStart (g : Game) (t : Int) : Game :=
  { g with Level := g.Level + 1, AlertsCollected := 0,
           AlertsNeeded := 5 + (g.Level + 1 - 1), StartTime := t, State := .Playing,
           Commander := ⟨g.Width.tdiv 2, g.Height.tdiv 2⟩, Trail := [], Alerts := [],
           Obstacles := [] }

/-- The grid centre, where `New` and `nextLevel` put the commander. -/
def centre (g : Game) : Position := ⟨g.Width.tdiv 2, g.Height.tdiv 2⟩

/-- A run of `n` ticks with no input in between. -/
def ticks (fuel : Nat) : Nat → Game → World → Option (Game × World)
  | 0, g, w => some (g, w)
  | n + 1, g, w =>
    match Update fuel g w with
    | none => none
    | some (g1, w1) => ticks fuel n g1 w1

/-- A game built by `New` and run for `n` ticks with no input. -/
def play (fuel n : Nat) (width height : Int) (w : World) : Option (Game × World) :=
  match New fuel width height w with
  | none => none
  | some (g, w1) => ticks fuel n g w1

/-- The games a player can reach: built by `New`, then any sequence of ticks,
direction changes, pauses and restarts, each in an arbitrary world. -/
inductive Reachable : Game → Prop
  | new (fuel : Nat) (width height : Int) (w : World) (g : Game) (w' : World) :
      New fuel width height w = some (g, w') → Reachable g
  | update (fuel : Nat) (g : Game) (w : World) (g' : Game) (w' : World) :
      Reachable g → Update fuel g w = some (g', w') → Reachable g'
  | setDirection (g : Game) (dir : Direction) : Reachable g → Reachable (SetDirection g dir)
  | pause (g : Game) : Reachable g → Reachable (Pause g)
  | restart (fuel : Nat) (g : Game) (w : World) (g' : Game) (w' : World) :
      Reachable g → Restart fuel g w = some (g', w') → Reachable g'

/-- The random source never yields a cell of row 10 on a grid of height 20,
from the cursor of `w` on. -/
def AvoidsRow10 (w : World) : Prop :=
  ∀ k, (w.rand (w.drawn + 2 * k + 1) : Int) % 20 ≠ 10

/-- A running level-1 game on the open 20×20 grid, heading right along row 10
with the commander in column `x` and the whole trail behind it. -/
def OnRow (g : Game) (x : Int) : Prop :=
  g.State = .Playing ∧ g.Width = 20 ∧ g.Height = 20 ∧ g.Direction = Right ∧
    g.Obstacles = [] ∧ g.Commander = ⟨x, 10⟩ ∧ (∀ p ∈ g.Trail, p.Y = 10 ∧ p.X < x) ∧
    g.AlertsNeeded = 5 ∧ g.AlertsCollected ≤ x - 10

/-! ## Concrete worlds and games -/

/-- A world whose clock advances one second per reading and whose random
source yields the cells `(11,10), (12,10), (13,10), …`. -/
def tickWorld : World :=
  ⟨fun n => 1000000000 * (n : Int), 0, fun n => if n % 2 = 0 then 11 + n / 2 else 10, 0⟩

/-- A level-1 game on the 20×20 grid, the commander on the right edge. -/
def wallGame : Game :=
  { Width := 20, Height := 20, Commander := ⟨19, 10⟩, Trail := [⟨18, 10⟩],
    Alerts := [⟨1, 1⟩, ⟨2, 2⟩, ⟨3, 3⟩], Obstacles := [], Direction := Right,
    State := .Playing, Score := 0, Level := 1, AlertsCollected := 0, AlertsNeeded := 5,
    StartTime := 0, LastUpdate := 0, LevelCompleteTime := 0 }

/-- A game whose next cell `(11,10)` holds both an obstacle and an alert. -/
def hiddenAlertGame : Game :=
  { Width := 20, Height := 20, Commander := ⟨10, 10⟩, Trail := [],
    Alerts := [⟨11, 10⟩, ⟨2, 2⟩, ⟨3, 3⟩], Obstacles := [⟨11, 10⟩], Direction := Right,
    State := .Playing, Score := 70, Level := 3, AlertsCollected := 2, AlertsNeeded := 7,
    StartTime := 0, LastUpdate := 0, LevelCompleteTime := 0 }

/-- A world in which every sampled cell is `(5,5)`. -/
def fiveWorld : World := ⟨fun n => 1000000000 * (n : Int), 0, fun _ => 5, 0⟩

/-- A fresh level-1 game on the 20×20 grid with three alerts. -/
def freshGame : Game :=
  { Width := 20, Height := 20, Commander := ⟨10, 10⟩, Trail := [],
    Alerts := [⟨1, 1⟩, ⟨2, 2⟩, ⟨3, 3⟩], Obstacles := [], Direction := Right,
    State := .Playing, Score := 0, Level := 1, AlertsCollected := 0, AlertsNeeded := 5,
    StartTime := 0, LastUpdate := 0, LevelCompleteTime := 0 }

/-- A world whose clock advances one second per reading and whose random source
yields the cells `(11,10), (12,10), …, (18,10)` and then again
`(11,10), (12,10), …`. -/
def lineWorld : World :=
  ⟨fun n => 1000000000 * (n : Int), 0,
    fun n => if n % 2 = 1 then 10 else if n < 16 then 11 + n / 2 else 11 + (n - 16) / 2, 0⟩

/-- A level-10 game whose quota is met, waiting in `LevelComplete`. -/
def finalGame : Game :=
  { Width := 20, Height := 20, Commander := ⟨3, 3⟩, Trail := [⟨2, 3⟩],
    Alerts := [⟨1, 1⟩, ⟨2, 2⟩, ⟨5, 5⟩], Obstacles := [⟨2, 2⟩], Direction := Right,
    State := .LevelComplete, Score := 5000, Level := 10, AlertsCollected := 14,
    AlertsNeeded := 14, StartTime := 0, LastUpdate := 0, LevelCompleteTime := 0 }

/-- A level-1 game whose quota has just been met, still `Playing`: the game
built by `New 20 20` in `lineWorld` after five ticks. -/
def quotaGame : Game :=
  { Width := 20, Height := 20, Commander := ⟨15, 10⟩,
    Trail := [⟨10, 10⟩, ⟨11, 10⟩, ⟨12, 10⟩, ⟨13, 10⟩, ⟨14, 10⟩],
    Alerts := [⟨16, 10⟩, ⟨17, 10⟩, ⟨18, 10⟩], Obstacles := [], Direction := Right,
    State := .Playing, Score := 150, Level := 1, AlertsCollected := 5, AlertsNeeded := 5,
    StartTime := 1000000000, LastUpdate := 7000000000, LevelCompleteTime := 0 }

/-- The same game one tick later, frozen in `LevelComplete` at time 0. -/
def frozenGame : Game :=
  { quotaGame with State := .LevelComplete, Score := 309 }

/-- The game `New 20 20` builds in `lineWorld`. -/
def startGame : Game :=
  { Width := 20, Height := 20, Commander := ⟨10, 10⟩, Trail := [],
    Alerts := [⟨11, 10⟩, ⟨12, 10⟩, ⟨13, 10⟩], Obstacles := [], Direction := Right,
    State := .Playing, Score := 0, Level := 1, AlertsCollected := 0, AlertsNeeded := 5,
    StartTime := 1000000000, LastUpdate := 2000000000, LevelCompleteTime := 0 }

/-- The same game after its first tick: one step right, the alert on `(11,10)`
collected and replaced by one on `(14,10)`. -/
def steppedGame : Game :=
  { startGame with
    Commander := ⟨11, 10⟩, Trail := [⟨10, 10⟩],
    Alerts := [⟨12, 10⟩, ⟨13, 10⟩, ⟨14, 10⟩], Score := 10, AlertsCollected := 1,
    LastUpdate := 3000000000 }

/-- Direction `d` is one of the four constants `Up`, `Down`, `Left`, `Right`. -/
def IsDirection (d : Direction) : Prop := d = Up ∨ d = Down ∨ d = Left ∨ d = Right

instance (d : Direction) : Decidable (IsDirection d) :=
  inferInstanceAs (Decidable (d = Up ∨ d = Down ∨ d = Left ∨ d = Right))

/-- The game `New 20 20` builds in `fiveWorld`: all three alerts on `(5,5)`. -/
def overlapGame : Game :=
  { Width := 20, Height := 20, Commander := ⟨10, 10⟩, Trail := [],
    Alerts := [⟨5, 5⟩, ⟨5, 5⟩, ⟨5, 5⟩], Obstacles := [], Direction := Right,
    State := .Playing, Score := 0, Level := 1, AlertsCollected := 0, AlertsNeeded := 5,
    StartTime := 1000000000, LastUpdate := 2000000000, LevelCompleteTime := 0 }

/-- The facts about counters and alerts that hold in every reachable game. -/
def Sound (g : Game) : Prop :=
  1 ≤ g.Level ∧ g.Level ≤ 10 ∧ g.AlertsNeeded = 5 + (g.Level - 1) ∧
    0 ≤ g.AlertsCollected ∧ 0 ≤ g.Score ∧ g.Alerts.length = 3 ∧
    (g.State = .GameOver → g.AlertsCollected < g.AlertsNeeded)

/-- The game `New 20 20` builds in `fiveWorld` after ten ticks with no input:
the commander has run into the right wall. -/
def crashedGame : Game :=
  { overlapGame with
    Commander := ⟨20, 10⟩,
    Trail := [⟨10, 10⟩, ⟨11, 10⟩, ⟨12, 10⟩, ⟨13, 10⟩, ⟨14, 10⟩, ⟨15, 10⟩, ⟨16, 10⟩,
      ⟨17, 10⟩, ⟨18, 10⟩, ⟨19, 10⟩],
    State := .GameOver, LastUpdate := 12000000000 }

/-- Cell `p` lies in the safe zone: within 2 cells of the grid centre on both
axes, as tested by `addRandomObstacles` and `addMazeLayout`. -/
def InSafeZone (g : Game) (p : Position) : Prop :=
  abs (p.X - g.Width.tdiv 2) ≤ 2 ∧ abs (p.Y - g.Height.tdiv 2) ≤ 2

instance (g : Game) (p : Position) : Decidable (InSafeZone g p) :=
  inferInstanceAs (Decidable (abs (p.X - g.Width.tdiv 2) ≤ 2 ∧ abs (p.Y - g.Height.tdiv 2) ≤ 2))

/-- Game `g'` is `g` with obstacles appended, all of them outside the safe
zone. -/
def SafeAdds (g g' : Game) : Prop :=
  ∃ added, g' = { g with Obstacles := g.Obstacles ++ added } ∧ ∀ p ∈ added, ¬ InSafeZone g p

/-- No obstacle of the game lies in the safe zone. -/
def Safe (g : Game) : Prop := ∀ p ∈ g.Obstacles, ¬ InSafeZone g p

/-- A level-4 game on the 20×20 grid, waiting in `LevelComplete`. -/
def crossGame : Game :=
  { Width := 20, Height := 20, Commander := ⟨3, 3⟩, Trail := [⟨2, 3⟩],
    Alerts := [⟨1, 1⟩, ⟨2, 2⟩, ⟨5, 5⟩], Obstacles := [], Direction := Right,
    State := .LevelComplete, Score := 900, Level := 4, AlertsCollected := 8,
    AlertsNeeded := 8, StartTime := 0, LastUpdate := 0, LevelCompleteTime := 0 }

/-- Cell `p` may receive a random obstacle of game `g`: it lies in the grid,
outside the safe zone, and off the commander, the trail and the obstacles. -/
def Placeable (g : Game) (p : Position) : Prop :=
  (0 ≤ p.X ∧ p.X < g.Width ∧ 0 ≤ p.Y ∧ p.Y < g.Height) ∧ ¬ InSafeZone g p ∧
    p ≠ g.Commander ∧ p ∉ g.Trail ∧ p ∉ g.Obstacles

instance (g : Game) (p : Position) : Decidable (Placeable g p) :=
  inferInstanceAs (Decidable ((0 ≤ p.X ∧ p.X < g.Width ∧ 0 ≤ p.Y ∧ p.Y < g.Height) ∧
    ¬ InSafeZone g p ∧ p ≠ g.Commander ∧ p ∉ g.Trail ∧ p ∉ g.Obstacles))

/-- World `w'` is `w` after `m` sampled cells (two raw draws each). -/
def Sampled (w w' : World) (m : Nat) : Prop :=
  w' = { w with drawn := w.drawn + 2 * m }

/-- Manhattan distance of two cells. -/
def manhattan (a b : Position) : Int := abs (a.X - b.X) + abs (a.Y - b.Y)

/-- Cell `c` lies in `[0, Width) × [0, Height)`. -/
def InBounds (g : Game) (c : Position) : Prop :=
  0 ≤ c.X ∧ c.X < g.Width ∧ 0 ≤ c.Y ∧ c.Y < g.Height

instance (g : Game) (c : Position) : Decidable (InBounds g c) :=
  inferInstanceAs (Decidable (0 ≤ c.X ∧ c.X < g.Width ∧ 0 ≤ c.Y ∧ c.Y < g.Height))

/-- The path of the commander: the trail followed by the commander cell. -/
def path (g : Game) : List Position := g.Trail ++ [g.Commander]

/-- The path is self-avoiding: its cells are in bounds and pairwise distinct,
each is at Manhattan distance 1 from the next, and none holds an obstacle. -/
def SelfAvoiding (g : Game) : Prop :=
  (∀ p ∈ path g, InBounds g p) ∧ (path g).Nodup ∧
    (path g).Chain' (fun a b => manhattan a b = 1) ∧ ∀ p ∈ path g, p ∉ g.Obstacles

/-- Cell `c` is blocked for the commander of `g`: it lies outside
`[0, Width) × [0, Height)`, or it is a trail cell or the cell the commander
stands on (which joins the trail when the commander leaves it), or it is an
obstacle cell. -/
def Blocked (g : Game) (c : Position) : Prop :=
  (c.X < 0 ∨ g.Width ≤ c.X ∨ c.Y < 0 ∨ g.Height ≤ c.Y) ∨
    c ∈ g.Trail ++ [g.Commander] ∨ c ∈ g.Obstacles

instance (g : Game) (c : Position) : Decidable (Blocked g c) :=
  inferInstanceAs (Decidable ((c.X < 0 ∨ g.Width ≤ c.X ∨ c.Y < 0 ∨ g.Height ≤ c.Y) ∨
    c ∈ g.Trail ++ [g.Commander] ∨ c ∈ g.Obstacles))

/-- Integer `x` is a value of Go's `int` on a 64-bit target:
`-2^63 ≤ x ≤ 2^63 - 1`. As long as the results of the additions and
multiplications of a function fit, Go's wrapping arithmetic yields the same
values as the arithmetic of `Int`. -/
def FitsInt (x : Int) : Prop := -9223372036854775808 ≤ x ∧ x ≤ 9223372036854775807

instance (x : Int) : Decidable (FitsInt x) :=
  inferInstanceAs (Decidable (-9223372036854775808 ≤ x ∧ x ≤ 9223372036854775807))

/-- The static cross of a `W × H` grid, written out cell by cell, with centre
`(cx, cy) = (W / 2, H / 2)`: for every column `x` with `2 ≤ x < W - 2` that is
more than 2 off `cx`, the cell of row `cy - 4` (if that row is not negative)
and then the cell of row `cy + 4` (if that row is below `H`); after these, for
every row `y` with `2 ≤ y < H - 2` that is more than 2 off `cy`, the cell of
column `cx - 4` (if not negative) and then the cell of column `cx + 4` (if
below `W`). -/
def crossCells (W H : Int) : List Position :=
  ((List.range (W - 4).toNat).map (fun (i : Nat) => 2 + (i : Int))).flatMap (fun x =>
      if 2 < |x - W.tdiv 2| then
        (if 0 ≤ H.tdiv 2 - 4 then [(⟨x, H.tdiv 2 - 4⟩ : Position)] else []) ++
          (if H.tdiv 2 + 4 < H then [(⟨x, H.tdiv 2 + 4⟩ : Position)] else [])
      else []) ++
    ((List.range (H - 4).toNat).map (fun (i : Nat) => 2 + (i : Int))).flatMap (fun y =>
      if 2 < |y - H.tdiv 2| then
        (if 0 ≤ W.tdiv 2 - 4 then [(⟨W.tdiv 2 - 4, y⟩ : Position)] else []) ++
          (if W.tdiv 2 + 4 < W then [(⟨W.tdiv 2 + 4, y⟩ : Position)] else [])
      else [])

/-- The state of the maze while `addMazeLayout` runs on the game `g0`, the
lattice points `V` having been visited: nothing but the obstacle list has
changed; every obstacle is a visited lattice point outside the safe zone or
the cell to the right of or below such a point; and every visited lattice
point outside the safe zone is an obstacle. -/
def MazeInv (g0 : Game) (V : Position → Prop) (g : Game) : Prop :=
  ObstaclesOnly g0 g ∧
    (∀ o ∈ g.Obstacles, ∃ v, V v ∧ ¬ InSafeZone g0 v ∧
      (o = v ∨ o = ⟨v.X + 1, v.Y⟩ ∨ o = ⟨v.X, v.Y + 1⟩)) ∧
    ∀ v, V v → ¬ InSafeZone g0 v → v ∈ g.Obstacles

/-- One obstacle of `addRandomObstacles`, as the cells sampled from `w` on
decide it: the obstacle goes on the first of the next `n` sampled cells that
is outside the safe zone and off the commander, the trail and the obstacles,
and sampling stops with that cell; if none of the `n` cells qualifies, no
obstacle is placed and all `n` cells have been sampled. -/
def PlacedWithin (n : Nat) (g : Game) (w : World) (g' : Game) (w' : World) : Prop :=
  (∃ k, k < n ∧ (∀ j, j < k → ¬ Placeable g (sampleCell g w j)) ∧
      Placeable g (sampleCell g w k) ∧
      g' = { g with Obstacles := g.Obstacles ++ [sampleCell g w k] } ∧ Sampled w w' (k + 1)) ∨
    ((∀ j, j < n → ¬ Placeable g (sampleCell g w j)) ∧ g' = g ∧ Sampled w w' n)

/-- A run of `count` obstacles placed one after the other, each with up to 50
sampled cells, each seeing the obstacles placed before it. -/
def PlacedRun : Nat → Game → World → Game → World → Prop
  | 0, g, w, g', w' => g' = g ∧ w' = w
  | count + 1, g, w, g', w' =>
    ∃ g1 w1, PlacedWithin 50 g w g1 w1 ∧ PlacedRun count g1 w1 g' w'

/-! ## Basic facts -/

theorem pos_eq_iff (a b : Position) : (a.X = b.X ∧ a.Y = b.Y) ↔ a = b := by
  cases a; cases b; simp

theorem any_cell_iff (c : Position) (l : List Position) :
    (l.any (fun s => decide (c.X = s.X ∧ c.Y = s.Y)) = true) ↔ c ∈ l := by
  rw [List.any_eq_true]
  constructor
  · rintro ⟨s, hs, h⟩
    have hcs : c = s := (pos_eq_iff c s).1 (of_decide_eq_true h)
    rw [hcs]
    exact hs
  · intro h
    exact ⟨c, h, decide_eq_true ⟨rfl, rfl⟩⟩

theorem any_cell_iff_symm (c : Position) (l : List Position) :
    (l.any (fun s => decide (s.X = c.X ∧ s.Y = c.Y)) = true) ↔ c ∈ l := by
  rw [List.any_eq_true]
  constructor
  · rintro ⟨s, hs, h⟩
    have hcs : s = c := (pos_eq_iff s c).1 (of_decide_eq_true h)
    rw [← hcs]
    exact hs
  · intro h
    exact ⟨c, h, decide_eq_true ⟨rfl, rfl⟩⟩

theorem isPositionOccupied_iff (g : Game) (pos : Position) :
    isPositionOccupied g pos = true ↔
      pos = g.Commander ∨ pos ∈ g.Trail ∨ pos ∈ g.Obstacles := by
  unfold isPositionOccupied
  by_cases h1 : g.Commander.X = pos.X ∧ g.Commander.Y = pos.Y
  · have : pos = g.Commander := ((pos_eq_iff _ _).1 h1).symm
    rw [if_pos h1]
    exact ⟨fun _ => Or.inl this, fun _ => rfl⟩
  · have hc : ¬ pos = g.Commander := fun h => h1 ((pos_eq_iff _ _).2 h.symm)
    rw [if_neg h1]
    by_cases h2 : pos ∈ g.Trail
    · rw [if_pos ((any_cell_iff_symm pos g.Trail).2 h2)]
      exact ⟨fun _ => Or.inr (Or.inl h2), fun _ => rfl⟩
    · have h2b : ¬ (g.Trail.any (fun s => decide (s.X = pos.X ∧ s.Y = pos.Y)) = true) :=
        fun h => h2 ((any_cell_iff_symm pos g.Trail).1 h)
      rw [if_neg h2b]
      by_cases h3 : pos ∈ g.Obstacles
      · rw [if_pos ((any_cell_iff_symm pos g.Obstacles).2 h3)]
        exact ⟨fun _ => Or.inr (Or.inr h3), fun _ => rfl⟩
      · have h3b : ¬ (g.Obstacles.any (fun s => decide (s.X = pos.X ∧ s.Y = pos.Y)) = true) :=
          fun h => h3 ((any_cell_iff_symm pos g.Obstacles).1 h)
        rw [if_neg h3b]
        constructor
        · intro h
          exact absurd h (by decide)
        · rintro (h | h | h)
          · exact absurd h hc
          · exact absurd h h2
          · exact absurd h h3

/-- The occupancy test does not look at the alerts. -/
theorem isPositionOccupied_alerts (g : Game) (l : List Position) (pos : Position) :
    isPositionOccupied { g with Alerts := l } pos = isPositionOccupied g pos := rfl

theorem randIntn_eq_some {n : Int} {w : World} {x : Int} {w1 : World}
    (h : randIntn n w = some (x, w1)) :
    0 < n ∧ x = (w.rand w.drawn : Int) % n ∧ w1 = { w with drawn := w.drawn + 1 } := by
  unfold randIntn at h
  split_ifs at h with hn
  simp only [Option.some.injEq, Prod.mk.injEq] at h
  exact ⟨by omega, h.1.symm, h.2.symm⟩

theorem randIntn_pos {n : Int} (hn : 0 < n) (w : World) :
    randIntn n w = some ((w.rand w.drawn : Int) % n, { w with drawn := w.drawn + 1 }) := by
  unfold randIntn
  rw [if_neg (by omega)]

/-- The sampling loop changes nothing but the alert list, to which it appends;
it leaves exactly three alerts when it started below three. -/
theorem spawnAlerts_spec (fuel : Nat) : ∀ (g : Game) (w : World) (g' : Game) (w' : World),
    spawnAlerts fuel g w = some (g', w') →
      g' = { g with Alerts := g'.Alerts } ∧
      (∃ added, g'.Alerts = g.Alerts ++ added) ∧
      (g.Alerts.length < 3 → g'.Alerts.length = 3) ∧
      (3 ≤ g.Alerts.length → g' = g) := by
  induction fuel with
  | zero =>
    intro g w g' w' h
    unfold spawnAlerts at h
    split_ifs at h with hl
    simp only [Option.some.injEq, Prod.mk.injEq] at h
    obtain ⟨rfl, rfl⟩ := h
    exact ⟨rfl, ⟨[], by simp⟩, fun h3 => absurd h3 hl, fun _ => rfl⟩
  | succ n ih =>
    intro g w g' w' h
    unfold spawnAlerts at h
    split_ifs at h with hl
    · cases hx : randIntn g.Width w with
      | none => simp [hx] at h
      | some p =>
        obtain ⟨x, w1⟩ := p
        cases hy : randIntn g.Height w1 with
        | none => simp [hx, hy] at h
        | some q =>
          obtain ⟨y, w2⟩ := q
          simp only [hx, hy] at h
          split_ifs at h with ho
          · obtain ⟨h1, ⟨added, h2⟩, h3, h4⟩ := ih _ _ _ _ h
            refine ⟨h1, ⟨Position.mk x y :: added, by simpa using h2⟩, ?_,
              fun h5 => absurd hl (by omega)⟩
            intro _
            by_cases h6 : (g.Alerts ++ [Position.mk x y]).length < 3
            · exact h3 h6
            · have hlen : g'.Alerts.length = (g.Alerts ++ [Position.mk x y]).length := by
                rw [h4 (by simpa using h6)]
              rw [hlen]
              simp only [List.length_append, List.length_singleton] at h6 ⊢
              omega
          · obtain ⟨h1, h2, h3, _⟩ := ih _ _ _ _ h
            exact ⟨h1, h2, h3, fun h5 => absurd hl (by omega)⟩
    · simp only [Option.some.injEq, Prod.mk.injEq] at h
      obtain ⟨rfl, rfl⟩ := h
      exact ⟨rfl, ⟨[], by simp⟩, fun h3 => absurd h3 hl, fun _ => rfl⟩

theorem sampleCell_afterSample (g : Game) (w : World) (k : Nat) :
    sampleCell g (afterSample w) k = sampleCell g w (k + 1) := by
  unfold sampleCell afterSample
  have e1 : w.drawn + 1 + 1 + 2 * k = w.drawn + 2 * (k + 1) := by omega
  have e2 : w.drawn + 1 + 1 + 2 * k + 1 = w.drawn + 2 * (k + 1) + 1 := by omega
  simp only [e1, e2]

theorem freeSamples_succ (g : Game) (w : World) (n : Nat) :
    freeSamples g w (n + 1) =
      (if isPositionOccupied g (sampleCell g w 0) then 0 else 1) +
        freeSamples g (afterSample w) n := by
  unfold freeSamples
  have hfun : ((fun k => !isPositionOccupied g (sampleCell g w k)) ∘ Nat.succ) =
      (fun k => !isPositionOccupied g (sampleCell g (afterSample w) k)) := by
    funext k
    simp only [Function.comp, sampleCell_afterSample]
  rw [List.range_succ_eq_map, List.filter_cons, List.filter_map, hfun]
  cases h : isPositionOccupied g (sampleCell g w 0)
  · simp only [Bool.not_false, if_true, Bool.false_eq_true, if_false, List.length_cons,
      List.length_map]
    omega
  · simp only [Bool.not_true, Bool.false_eq_true, if_false, if_true, List.length_map]
    omega

theorem freeSamples_alerts (g : Game) (l : List Position) (w : World) (n : Nat) :
    freeSamples { g with Alerts := l } w n = freeSamples g w n := rfl

/-- First sample of the loop, for a grid with positive sides. -/
theorem spawnAlerts_succ (fuel : Nat) (g : Game) (w : World)
    (hW : 0 < g.Width) (hH : 0 < g.Height) (hl : g.Alerts.length < 3) :
    spawnAlerts (fuel + 1) g w =
      if !isPositionOccupied g (sampleCell g w 0) then
        spawnAlerts fuel { g with Alerts := g.Alerts ++ [sampleCell g w 0] } (afterSample w)
      else spawnAlerts fuel g (afterSample w) := by
  simp only [spawnAlerts, if_pos hl, randIntn_pos hW, randIntn_pos hH]
  rfl

/-- The sampling loop returns as soon as the cells it draws contain enough
free ones to fill the list up to three. -/
theorem spawnAlerts_isSome (fuel : Nat) : ∀ (g : Game) (w : World),
    0 < g.Width → 0 < g.Height → 3 ≤ g.Alerts.length + freeSamples g w fuel →
      (spawnAlerts fuel g w).isSome = true := by
  induction fuel with
  | zero =>
    intro g w _ _ h
    have h0 : freeSamples g w 0 = 0 := rfl
    rw [h0] at h
    unfold spawnAlerts
    rw [if_neg (by omega)]
    rfl
  | succ n ih =>
    intro g w hW hH h
    by_cases hl : g.Alerts.length < 3
    · rw [spawnAlerts_succ n g w hW hH hl]
      rw [freeSamples_succ] at h
      cases ho : isPositionOccupied g (sampleCell g w 0) with
      | true =>
        simp only [ho, if_true] at h
        simp only [Bool.not_true, Bool.false_eq_true, if_false]
        exact ih g _ hW hH (by omega)
      | false =>
        simp only [ho, Bool.false_eq_true, if_false] at h
        simp only [Bool.not_false, if_true]
        refine ih { g with Alerts := g.Alerts ++ [sampleCell g w 0] } _ hW hH ?_
        rw [freeSamples_alerts]
        simp only [List.length_append, List.length_singleton]
        omega
    · unfold spawnAlerts
      rw [if_neg hl]
      rfl

/-- A full alert list makes the sampling loop a no-op. -/
theorem spawnAlerts_full (fuel : Nat) (g : Game) (w : World) (h : 3 ≤ g.Alerts.length) :
    spawnAlerts fuel g w = some (g, w) := by
  cases fuel with
  | zero => rw [spawnAlerts, if_neg (by omega)]
  | succ n => rw [spawnAlerts, if_neg (by omega)]

/-- Effect of `moveCommander`: the old cell goes onto the trail, the commander
onto the next cell, nothing else changes. -/
theorem moveCommander_eq (g : Game) :
    moveCommander g =
      { g with Trail := g.Trail ++ [g.Commander], Commander := nextCell g } := by
  unfold nextCell moveCommander
  simp only
  split_ifs <;> rfl

/-- The next cell, direction by direction. -/
theorem nextCell_eq (g : Game) :
    nextCell g =
      if g.Direction = Up then ⟨g.Commander.X, g.Commander.Y - 1⟩
      else if g.Direction = Down then ⟨g.Commander.X, g.Commander.Y + 1⟩
      else if g.Direction = Left then ⟨g.Commander.X - 1, g.Commander.Y⟩
      else if g.Direction = Right then ⟨g.Commander.X + 1, g.Commander.Y⟩
      else g.Commander := by
  unfold nextCell moveCommander
  simp only
  split_ifs <;> rfl

theorem findAlert_eq_none (c : Position) (l : List Position) :
    findAlert c l = none ↔ c ∉ l := by
  induction l with
  | nil => simp [findAlert]
  | cons a t ih =>
    unfold findAlert
    by_cases h : c.X = a.X ∧ c.Y = a.Y
    · have hca : c = a := (pos_eq_iff c a).1 h
      simp [h, hca]
    · have hca : ¬ c = a := fun e => h ((pos_eq_iff c a).2 e)
      rw [if_neg h]
      simp [ih, hca]

theorem findAlert_lt (c : Position) (l : List Position) (i : Nat)
    (h : findAlert c l = some i) : i < l.length := by
  induction l generalizing i with
  | nil => simp [findAlert] at h
  | cons a t ih =>
    unfold findAlert at h
    split_ifs at h with hc
    · simp only [Option.some.injEq] at h
      subst h
      simp
    · cases hr : findAlert c t with
      | none => simp [hr] at h
      | some j =>
        simp only [hr, Option.map_some', Option.some.injEq] at h
        subst h
        simpa using ih j hr

/-- Collision with a wall, the trail or an obstacle ends the game. -/
theorem checkCollisions_hit (fuel : Nat) (g : Game) (w : World)
    (h : OutOfBounds g g.Commander ∨ g.Commander ∈ g.Trail ∨ g.Commander ∈ g.Obstacles) :
    checkCollisions fuel g w = some ({ g with State := .GameOver }, w) := by
  unfold checkCollisions
  by_cases h1 : g.Commander.X < 0 ∨ g.Commander.X ≥ g.Width ∨
      g.Commander.Y < 0 ∨ g.Commander.Y ≥ g.Height
  · rw [if_pos h1]
  · rw [if_neg h1]
    by_cases h2 : g.Commander ∈ g.Trail
    · rw [if_pos ((any_cell_iff _ _).2 h2)]
    · rw [if_neg (fun e => h2 ((any_cell_iff _ _).1 e))]
      have h3 : g.Commander ∈ g.Obstacles := by
        rcases h with h | h | h
        · exact absurd h h1
        · exact absurd h h2
        · exact h
      rw [if_pos ((any_cell_iff _ _).2 h3)]

/-- Without such a collision the alert loop decides. -/
theorem checkCollisions_clear (fuel : Nat) (g : Game) (w : World)
    (h : ¬ (OutOfBounds g g.Commander ∨ g.Commander ∈ g.Trail ∨ g.Commander ∈ g.Obstacles)) :
    checkCollisions fuel g w =
      match findAlert g.Commander g.Alerts with
      | some i => collectAlert fuel g i w
      | none => some (g, w) := by
  unfold checkCollisions
  have h1 : ¬ (g.Commander.X < 0 ∨ g.Commander.X ≥ g.Width ∨
      g.Commander.Y < 0 ∨ g.Commander.Y ≥ g.Height) := fun e => h (Or.inl e)
  have h2 : ¬ (g.Trail.any (fun s => decide (g.Commander.X = s.X ∧ g.Commander.Y = s.Y)) = true) :=
    fun e => h (Or.inr (Or.inl ((any_cell_iff _ _).1 e)))
  have h3 : ¬ (g.Obstacles.any (fun s => decide (g.Commander.X = s.X ∧ g.Commander.Y = s.Y)) = true) :=
    fun e => h (Or.inr (Or.inr ((any_cell_iff _ _).1 e)))
  rw [if_neg h1, if_neg h2, if_neg h3]

/-- Result of a collection: ten points times the combo, one more alert
collected, the alert at `index` gone and the list refilled at its end. -/
theorem collectAlert_spec (fuel : Nat) (g : Game) (index : Nat) (w : World) (g' : Game)
    (w' : World) (h : collectAlert fuel g index w = some (g', w')) :
    index < g.Alerts.length ∧
    g' = { g with Alerts := g'.Alerts, Score := g.Score + 10 * (g.AlertsCollected + 1),
                  AlertsCollected := g.AlertsCollected + 1 } ∧
    ∃ added, g'.Alerts = removeAt g.Alerts index ++ added := by
  unfold collectAlert at h
  split_ifs at h with hi
  obtain ⟨h1, h2, _, _⟩ := spawnAlerts_spec fuel _ _ _ _ h
  exact ⟨by omega, h1, h2⟩

/-- A tick of a running level that is not yet complete: stamp the time, move,
check collisions. -/
theorem update_playing (fuel : Nat) (g : Game) (w : World)
    (hS : g.State = .Playing) (hA : g.AlertsCollected < g.AlertsNeeded) :
    Update fuel g w =
      checkCollisions fuel (moveCommander { g with LastUpdate := (timeNow w).1 }) (timeNow w).2 := by
  unfold Update checkLevelComplete
  simp only [ge_iff_le, if_neg (not_le.mpr hA), hS, ne_eq, not_true_eq_false, if_false]

theorem removeAt_length (l : List Position) (i : Nat) (h : i < l.length) :
    (removeAt l i).length = l.length - 1 := by
  unfold removeAt
  simp only [List.length_append, List.length_take, List.length_drop]
  omega

/-- The count of free samples depends only on the grid size, the occupied
cells and the random draws still to come. -/
theorem freeSamples_congr (g1 g2 : Game) (w1 w2 : World) (n : Nat)
    (hW : g1.Width = g2.Width) (hH : g1.Height = g2.Height)
    (hC : g1.Commander = g2.Commander) (hT : g1.Trail = g2.Trail)
    (hO : g1.Obstacles = g2.Obstacles) (hr : w1.rand = w2.rand) (hd : w1.drawn = w2.drawn) :
    freeSamples g1 w1 n = freeSamples g2 w2 n := by
  unfold freeSamples sampleCell isPositionOccupied
  simp only [hW, hH, hC, hT, hO, hr, hd]

theorem nextCell_lastUpdate (g : Game) (t : Int) :
    nextCell { g with LastUpdate := t } = nextCell g := by
  rw [nextCell_eq, nextCell_eq]

/-- The collision test of the moved game, read on the game before the move. -/
theorem collides_iff_moved (g : Game) (t : Int) :
    (OutOfBounds (moveCommander { g with LastUpdate := t })
        (moveCommander { g with LastUpdate := t }).Commander ∨
      (moveCommander { g with LastUpdate := t }).Commander ∈
        (moveCommander { g with LastUpdate := t }).Trail ∨
      (moveCommander { g with LastUpdate := t }).Commander ∈
        (moveCommander { g with LastUpdate := t }).Obstacles) ↔ Collides g := by
  rw [moveCommander_eq, nextCell_lastUpdate]
  unfold Collides OutOfBounds
  exact Iff.rfl

/-- A tick of a running, incomplete level with no collision ahead yields a
state as soon as the sampled cells contain enough free ones to refill the
alert list after a collection. -/
theorem update_playing_isSome (fuel : Nat) (g : Game) (w : World)
    (hS : g.State = .Playing) (hA : g.AlertsCollected < g.AlertsNeeded) (hc : ¬ Collides g)
    (hfree : 3 ≤ (g.Alerts.length - 1) + freeSamples (moveCommander g) w fuel) :
    ∃ g' w', Update fuel g w = some (g', w') := by
  rw [update_playing fuel g w hS hA,
    checkCollisions_clear fuel _ _ (fun e => hc ((collides_iff_moved g (timeNow w).1).1 e))]
  have hAl : (moveCommander { g with LastUpdate := (timeNow w).1 }).Alerts = g.Alerts := by
    rw [moveCommander_eq]
  have hCm : (moveCommander { g with LastUpdate := (timeNow w).1 }).Commander = nextCell g := by
    rw [moveCommander_eq, nextCell_lastUpdate]
  rw [hAl, hCm]
  cases hf : findAlert (nextCell g) g.Alerts with
  | none => exact ⟨_, _, rfl⟩
  | some i =>
    simp only
    have hi : i < g.Alerts.length := findAlert_lt _ _ _ hf
    have hb : ¬ OutOfBounds g (nextCell g) := fun e => hc (Or.inl e)
    unfold OutOfBounds at hb
    have hsome : (collectAlert fuel (moveCommander { g with LastUpdate := (timeNow w).1 }) i
        (timeNow w).2).isSome = true := by
      unfold collectAlert
      rw [hAl, if_neg (by omega)]
      refine spawnAlerts_isSome fuel _ _ ?_ ?_ ?_
      · show 0 < (moveCommander { g with LastUpdate := (timeNow w).1 }).Width
        rw [moveCommander_eq]
        show 0 < g.Width
        omega
      · show 0 < (moveCommander { g with LastUpdate := (timeNow w).1 }).Height
        rw [moveCommander_eq]
        show 0 < g.Height
        omega
      · rw [freeSamples_congr _ (moveCommander g) _ w fuel]
        · show 3 ≤ (removeAt g.Alerts i).length + freeSamples (moveCommander g) w fuel
          rw [removeAt_length _ _ hi]
          exact hfree
        all_goals first
          | rfl
          | (simp only [moveCommander_eq, nextCell_lastUpdate])
    obtain ⟨r, hr⟩ := Option.isSome_iff_exists.1 hsome
    exact ⟨r.1, r.2, hr⟩

/-- The outcome of a tick of a running, incomplete level in terms of
`Collides`: `GameOver` exactly on a collision, `Playing` otherwise, and the
conditions under which the tick yields a state. -/
theorem update_playing_outcome (fuel : Nat) (g : Game) (w : World)
    (hS : g.State = .Playing) (hA : g.AlertsCollected < g.AlertsNeeded) :
    (∀ g' w', Update fuel g w = some (g', w') →
      (g'.State = .GameOver ↔ Collides g) ∧ (¬ Collides g → g'.State = .Playing)) ∧
    (Collides g → ∃ g' w', Update fuel g w = some (g', w')) ∧
    (¬ Collides g → nextCell g ∉ g.Alerts → ∃ g' w', Update fuel g w = some (g', w')) ∧
    (¬ Collides g → 3 ≤ (g.Alerts.length - 1) + freeSamples (moveCommander g) w fuel →
      ∃ g' w', Update fuel g w = some (g', w')) := by
  rw [update_playing fuel g w hS hA]
  have hmv := collides_iff_moved g (timeNow w).1
  by_cases hc : Collides g
  · rw [checkCollisions_hit fuel _ _ (hmv.2 hc)]
    refine ⟨?_, fun _ => ⟨_, _, rfl⟩, fun h => absurd hc h, fun h => absurd hc h⟩
    intro g' w' h
    simp only [Option.some.injEq, Prod.mk.injEq] at h
    obtain ⟨rfl, _⟩ := h
    exact ⟨⟨fun _ => hc, fun _ => rfl⟩, fun h => absurd hc h⟩
  · rw [checkCollisions_clear fuel _ _ (fun e => hc (hmv.1 e))]
    have hSm : (moveCommander { g with LastUpdate := (timeNow w).1 }).State = .Playing := by
      rw [moveCommander_eq]
      exact hS
    have hAl : (moveCommander { g with LastUpdate := (timeNow w).1 }).Alerts = g.Alerts := by
      rw [moveCommander_eq]
    have hCm : (moveCommander { g with LastUpdate := (timeNow w).1 }).Commander = nextCell g := by
      rw [moveCommander_eq, nextCell_lastUpdate]
    rw [hAl, hCm]
    cases hf : findAlert (nextCell g) g.Alerts with
    | none =>
      simp only
      refine ⟨?_, fun h => absurd h hc, fun _ _ => ⟨_, _, rfl⟩, fun _ _ => ⟨_, _, rfl⟩⟩
      intro g' w' h
      simp only [Option.some.injEq, Prod.mk.injEq] at h
      obtain ⟨rfl, _⟩ := h
      rw [hSm]
      exact ⟨⟨fun h => absurd h (by decide), fun h => absurd h hc⟩, fun _ => rfl⟩
    | some i =>
      simp only
      have hi : i < g.Alerts.length := findAlert_lt _ _ _ hf
      refine ⟨?_, fun h => absurd h hc, ?_, ?_⟩
      · intro g' w' h
        obtain ⟨_, h1, _⟩ := collectAlert_spec _ _ _ _ _ _ h
        have hs : g'.State = .Playing := by
          rw [h1]
          exact hSm
        rw [hs]
        exact ⟨⟨fun h => absurd h (by decide), fun h => absurd h hc⟩, fun _ => rfl⟩
      · intro _ hn
        have := (findAlert_eq_none (nextCell g) g.Alerts).2 hn
        rw [hf] at this
        exact absurd this (by simp)
      · intro _ hfree
        have hret := update_playing_isSome fuel g w hS hA hc hfree
        rw [update_playing fuel g w hS hA,
          checkCollisions_clear fuel _ _ (fun e => hc (hmv.1 e)), hAl, hCm, hf] at hret
        exact hret

/-- C2. Collision priority: in a running, incomplete level, when the next cell
holds both an obstacle and an alert, the tick returns with `GameOver` and
collects nothing: score, collected count and alert list are unchanged. -/
theorem update_obstacle_hides_alert (fuel : Nat) (g : Game) (w : World)
    (hS : g.State = .Playing) (hA : g.AlertsCollected < g.AlertsNeeded)
    (hO : nextCell g ∈ g.Obstacles) (_hAl : nextCell g ∈ g.Alerts) :
    ∃ g' w', Update fuel g w = some (g', w') ∧ g'.State = .GameOver ∧
      g'.Score = g.Score ∧ g'.AlertsCollected = g.AlertsCollected ∧ g'.Alerts = g.Alerts := by
  have hc : Collides g := Or.inr (Or.inr hO)
  rw [update_playing fuel g w hS hA,
    checkCollisions_hit fuel _ _ ((collides_iff_moved g (timeNow w).1).2 hc)]
  refine ⟨_, _, rfl, rfl, ?_, ?_, ?_⟩ <;> rw [moveCommander_eq]

theorem update_obstacle_hides_alert_witness :
    hiddenAlertGame.State = .Playing ∧
      hiddenAlertGame.AlertsCollected < hiddenAlertGame.AlertsNeeded ∧
      nextCell hiddenAlertGame ∈ hiddenAlertGame.Obstacles ∧
      nextCell hiddenAlertGame ∈ hiddenAlertGame.Alerts ∧
      ∃ g' w', Update 5 hiddenAlertGame tickWorld = some (g', w') ∧ g'.State = .GameOver ∧
        g'.Score = hiddenAlertGame.Score ∧
        g'.AlertsCollected = hiddenAlertGame.AlertsCollected ∧
        g'.Alerts = hiddenAlertGame.Alerts :=
  ⟨by decide, by decide, by decide, by decide,
    update_obstacle_hides_alert 5 hiddenAlertGame tickWorld (by decide) (by decide)
      (by decide) (by decide)⟩

/-- The sampling loop only advances the cursor of the random source, by two
draws per sampled cell. -/
theorem spawnAlerts_world (fuel : Nat) : ∀ (g : Game) (w : World) (g' : Game) (w' : World),
    spawnAlerts fuel g w = some (g', w') →
      w'.rand = w.rand ∧ w'.clock = w.clock ∧ w'.reads = w.reads ∧
        ∃ m, w'.drawn = w.drawn + 2 * m := by
  induction fuel with
  | zero =>
    intro g w g' w' h
    unfold spawnAlerts at h
    split_ifs at h with hl
    simp only [Option.some.injEq, Prod.mk.injEq] at h
    obtain ⟨_, rfl⟩ := h
    exact ⟨rfl, rfl, rfl, 0, rfl⟩
  | succ n ih =>
    intro g w g' w' h
    unfold spawnAlerts at h
    split_ifs at h with hl
    · cases hx : randIntn g.Width w with
      | none => simp [hx] at h
      | some p =>
        obtain ⟨x, w1⟩ := p
        cases hy : randIntn g.Height w1 with
        | none => simp [hx, hy] at h
        | some q =>
          obtain ⟨y, w2⟩ := q
          simp only [hx, hy] at h
          obtain ⟨_, _, hw1⟩ := randIntn_eq_some hx
          obtain ⟨_, _, hw2⟩ := randIntn_eq_some hy
          have hstep : ∀ g1, spawnAlerts n g1 w2 = some (g', w') →
              w'.rand = w.rand ∧ w'.clock = w.clock ∧ w'.reads = w.reads ∧
                ∃ m, w'.drawn = w.drawn + 2 * m := by
            intro g1 hg1
            obtain ⟨h1, h2, h3, m, h4⟩ := ih _ _ _ _ hg1
            rw [hw2, hw1] at h1 h2 h3 h4
            exact ⟨h1, h2, h3, m + 1, by rw [h4]; simp only; omega⟩
          split_ifs at h with ho
          · exact hstep _ h
          · exact hstep _ h
    · simp only [Option.some.injEq, Prod.mk.injEq] at h
      obtain ⟨_, rfl⟩ := h
      exact ⟨rfl, rfl, rfl, 0, rfl⟩

theorem freeSamples_allFree (g : Game) (w : World) (n : Nat) (h : AllFree g w) :
    freeSamples g w n = n := by
  unfold freeSamples
  rw [List.filter_eq_self.2, List.length_range]
  intro k _
  rw [h k]
  rfl

/-- A collection returns when its index is in range and the sampled cells hold
enough free ones. -/
theorem collectAlert_isSome (fuel : Nat) (g : Game) (index : Nat) (w : World)
    (hW : 0 < g.Width) (hH : 0 < g.Height) (hi : index < g.Alerts.length)
    (hf : 3 ≤ (g.Alerts.length - 1) + freeSamples g w fuel) :
    ∃ g' w', collectAlert fuel g index w = some (g', w') := by
  have hsome : (collectAlert fuel g index w).isSome = true := by
    unfold collectAlert
    rw [if_neg (by omega)]
    refine spawnAlerts_isSome fuel _ _ hW hH ?_
    rw [freeSamples_congr _ g _ w fuel]
    · show 3 ≤ (removeAt g.Alerts index).length + freeSamples g w fuel
      rw [removeAt_length _ _ hi]
      exact hf
    all_goals rfl
  obtain ⟨r, hr⟩ := Option.isSome_iff_exists.1 hsome
  exact ⟨r.1, r.2, hr⟩

theorem collectAlert_world (fuel : Nat) (g : Game) (index : Nat) (w : World) (g' : Game)
    (w' : World) (h : collectAlert fuel g index w = some (g', w')) :
    3 ≤ g'.Alerts.length ∧ w'.rand = w.rand ∧ ∃ m, w'.drawn = w.drawn + 2 * m := by
  unfold collectAlert at h
  split_ifs at h with hi
  obtain ⟨_, _, h3, h4⟩ := spawnAlerts_spec fuel _ _ _ _ h
  obtain ⟨h5, _, _, h6⟩ := spawnAlerts_world fuel _ _ _ _ h
  refine ⟨?_, h5, h6⟩
  by_cases hl : (removeAt g.Alerts index).length < 3
  · exact le_of_eq (h3 hl).symm
  · rw [h4 (by simpa using hl)]
    simpa using hl

theorem ObstaclesOnly.refl (g : Game) : ObstaclesOnly g g := rfl

theorem ObstaclesOnly.trans {a b c : Game} (h1 : ObstaclesOnly a b) (h2 : ObstaclesOnly b c) :
    ObstaclesOnly a c := by
  unfold ObstaclesOnly at *
  rw [h2, h1]

theorem foldl_obstaclesOnly (f : Game → Int → Game) (hf : ∀ g x, ObstaclesOnly g (f g x))
    (l : List Int) : ∀ g, ObstaclesOnly g (l.foldl f g) := by
  induction l with
  | nil => intro g; exact ObstaclesOnly.refl g
  | cons x xs ih => intro g; exact (hf g x).trans (ih (f g x))

theorem addStaticBarriers_obstaclesOnly (g : Game) : ObstaclesOnly g (addStaticBarriers g) := by
  unfold addStaticBarriers
  simp only
  refine ObstaclesOnly.trans (foldl_obstaclesOnly _ ?_ _ g) (foldl_obstaclesOnly _ ?_ _ _)
  · intro a x
    split_ifs <;> exact ObstaclesOnly.refl _
  · intro a x
    split_ifs <;> exact ObstaclesOnly.refl _

theorem placeRandomObstacle_obstaclesOnly (n : Nat) : ∀ (g : Game) (w : World) (g' : Game)
    (w' : World), placeRandomObstacle n g w = some (g', w') → ObstaclesOnly g g' := by
  induction n with
  | zero =>
    intro g w g' w' h
    unfold placeRandomObstacle at h
    simp only [Option.some.injEq, Prod.mk.injEq] at h
    obtain ⟨rfl, _⟩ := h
    exact ObstaclesOnly.refl _
  | succ k ih =>
    intro g w g' w' h
    unfold placeRandomObstacle at h
    cases hx : randIntn g.Width w with
    | none => simp [hx] at h
    | some p =>
      obtain ⟨x, w1⟩ := p
      cases hy : randIntn g.Height w1 with
      | none => simp [hx, hy] at h
      | some q =>
        obtain ⟨y, w2⟩ := q
        simp only [hx, hy] at h
        split_ifs at h with h1 h2
        · exact ih _ _ _ _ h
        · simp only [Option.some.injEq, Prod.mk.injEq] at h
          obtain ⟨rfl, _⟩ := h
          rfl
        · exact ih _ _ _ _ h

theorem addRandomObstaclesLoop_obstaclesOnly (n : Nat) : ∀ (g : Game) (w : World) (g' : Game)
    (w' : World), addRandomObstaclesLoop n g w = some (g', w') → ObstaclesOnly g g' := by
  induction n with
  | zero =>
    intro g w g' w' h
    unfold addRandomObstaclesLoop at h
    simp only [Option.some.injEq, Prod.mk.injEq] at h
    obtain ⟨rfl, _⟩ := h
    exact ObstaclesOnly.refl _
  | succ k ih =>
    intro g w g' w' h
    unfold addRandomObstaclesLoop at h
    cases hp : placeRandomObstacle 50 g w with
    | none => simp [hp] at h
    | some p =>
      obtain ⟨g1, w1⟩ := p
      simp only [hp] at h
      exact (placeRandomObstacle_obstaclesOnly 50 _ _ _ _ hp).trans (ih _ _ _ _ h)

theorem mazeCell_obstaclesOnly (x y : Int) (g : Game) (w : World) (g' : Game) (w' : World)
    (h : mazeCell x y g w = some (g', w')) : ObstaclesOnly g g' := by
  unfold mazeCell at h
  simp only at h
  split_ifs at h with h1 h2
  · simp only [Option.some.injEq, Prod.mk.injEq] at h
    obtain ⟨rfl, _⟩ := h
    exact ObstaclesOnly.refl _
  · cases hr : randIntn 2 w with
    | none => simp [hr] at h
    | some p =>
      obtain ⟨r, w1⟩ := p
      simp only [hr] at h
      split_ifs at h <;>
        (simp only [Option.some.injEq, Prod.mk.injEq] at h
         obtain ⟨rfl, _⟩ := h
         rfl)
  · simp only [Option.some.injEq, Prod.mk.injEq] at h
    obtain ⟨rfl, _⟩ := h
    exact ObstaclesOnly.refl _

theorem forEach_obstaclesOnly (body : Int → Game → World → Option (Game × World))
    (hb : ∀ x g w g' w', body x g w = some (g', w') → ObstaclesOnly g g') (l : List Int) :
    ∀ (g : Game) (w : World) (g' : Game) (w' : World),
      forEach body l g w = some (g', w') → ObstaclesOnly g g' := by
  induction l with
  | nil =>
    intro g w g' w' h
    unfold forEach at h
    simp only [Option.some.injEq, Prod.mk.injEq] at h
    obtain ⟨rfl, _⟩ := h
    exact ObstaclesOnly.refl _
  | cons x xs ih =>
    intro g w g' w' h
    unfold forEach at h
    cases hp : body x g w with
    | none => simp [hp] at h
    | some p =>
      obtain ⟨g1, w1⟩ := p
      simp only [hp] at h
      exact (hb _ _ _ _ _ hp).trans (ih _ _ _ _ h)

theorem addMazeLayout_obstaclesOnly (g : Game) (w : World) (g' : Game) (w' : World)
    (h : addMazeLayout g w = some (g', w')) : ObstaclesOnly g g' := by
  unfold addMazeLayout at h
  refine forEach_obstaclesOnly _ ?_ _ _ _ _ _ h
  intro x g1 w1 g2 w2 h2
  refine forEach_obstaclesOnly _ ?_ _ _ _ _ _ h2
  intro y g3 w3 g4 w4 h4
  exact mazeCell_obstaclesOnly x y g3 w3 g4 w4 h4

/-- The level layout changes nothing but the obstacle list. -/
theorem setupLevel_obstaclesOnly (g : Game) (w : World) (g' : Game) (w' : World)
    (h : setupLevel g w = some (g', w')) : ObstaclesOnly g g' := by
  unfold setupLevel at h
  split_ifs at h
  · simp only [Option.some.injEq, Prod.mk.injEq] at h
    obtain ⟨rfl, _⟩ := h
    exact addStaticBarriers_obstaclesOnly g
  · exact (addStaticBarriers_obstaclesOnly g).trans
      (addRandomObstaclesLoop_obstaclesOnly _ _ _ _ _ h)
  · exact addRandomObstaclesLoop_obstaclesOnly _ _ _ _ _ h
  · exact addMazeLayout_obstaclesOnly _ _ _ _ h
  · simp only [Option.some.injEq, Prod.mk.injEq] at h
    obtain ⟨rfl, _⟩ := h
    exact ObstaclesOnly.refl _

/-- Levels 1 and 2 (and any level outside 3..10) have no layout. -/
theorem setupLevel_open (g : Game) (w : World) (h : g.Level < 3 ∨ 10 < g.Level) :
    setupLevel g w = some (g, w) := by
  unfold setupLevel
  rw [if_neg (by omega), if_neg (by omega), if_neg (by omega), if_neg (by omega)]

theorem removeAt_take (l : List Position) (i : Nat) (h : i < l.length) :
    (removeAt l i).take i = l.take i := by
  unfold removeAt
  rw [List.take_append_of_le_length (by rw [List.length_take]; omega), List.take_take]
  simp

theorem removeAt_drop (l : List Position) (i : Nat) (h : i < l.length) :
    (removeAt l i).drop i = l.drop (i + 1) := by
  unfold removeAt
  have hlen : (l.take i).length = i := by rw [List.length_take]; omega
  rw [List.drop_append_of_le_length (by omega), List.drop_of_length_le (by omega)]
  simp

/-- The safety loop of `nextLevel` is a filter on the first `i` obstacles. -/
theorem clearSpawn_eq (c : Position) : ∀ (i : Nat) (l : List Position), i ≤ l.length →
    clearSpawn c i l = (l.take i).filter (fun o => decide (o ≠ c)) ++ l.drop i := by
  intro i
  induction i with
  | zero => intro l _; simp [clearSpawn]
  | succ i ih =>
    intro l hl
    have hi : i < l.length := by omega
    unfold clearSpawn
    rw [List.getElem?_eq_getElem hi]
    simp only
    have htake : l.take (i + 1) = l.take i ++ [l[i]] := by
      rw [List.take_succ, List.getElem?_eq_getElem hi]
      rfl
    by_cases ho : l[i].X = c.X ∧ l[i].Y = c.Y
    · have hoc : l[i] = c := (pos_eq_iff _ _).1 ho
      rw [if_pos ho, ih (removeAt l i) (by rw [removeAt_length _ _ hi]; omega),
        removeAt_take _ _ hi, removeAt_drop _ _ hi, htake, List.filter_append]
      simp [hoc]
    · have hoc : ¬ l[i] = c := fun e => ho ((pos_eq_iff _ _).2 e)
      rw [if_neg ho, ih l (by omega), htake, List.filter_append, List.drop_eq_getElem_cons hi]
      simp [hoc]

theorem clearSpawn_filter (c : Position) (l : List Position) :
    clearSpawn c l.length l = l.filter (fun o => decide (o ≠ c)) := by
  rw [clearSpawn_eq c l.length l (le_refl _)]
  simp

/-- Shape of `nextLevel` below level 10: reset, lay out the level, clear the
spawn cell, refill the alerts. -/
theorem nextLevel_eq (fuel : Nat) (g : Game) (w : World) (hL : g.Level < 10) :
    nextLevel fuel g w =
      match setupLevel (levelStart g (timeNow w).1) (timeNow w).2 with
      | none => none
      | some (gs, ws) =>
        spawnAlerts fuel
          { (levelStart g (timeNow w).1) with
            Obstacles := gs.Obstacles.filter
              (fun o => decide (o ≠ ⟨g.Width.tdiv 2, g.Height.tdiv 2⟩)) } ws := by
  unfold nextLevel
  rw [if_neg (by omega)]
  simp only
  have hstart : ({ g with
      Level := g.Level + 1, AlertsCollected := 0,
      AlertsNeeded := 5 + (g.Level + 1 - 1), StartTime := (timeNow w).1, State := .Playing,
      Commander := ⟨g.Width.tdiv 2, g.Height.tdiv 2⟩, Trail := [], Alerts := [],
      Obstacles := [] } : Game) = levelStart g (timeNow w).1 := rfl
  rw [hstart]
  cases hs : setupLevel (levelStart g (timeNow w).1) (timeNow w).2 with
  | none => rfl
  | some p =>
    obtain ⟨gs, ws⟩ := p
    simp only
    have hgs := setupLevel_obstaclesOnly _ _ _ _ hs
    unfold ObstaclesOnly at hgs
    have hc : gs.Commander = ⟨g.Width.tdiv 2, g.Height.tdiv 2⟩ := by rw [hgs]; rfl
    have key : ∀ (a b : Game) (l : List Position), a = { b with Obstacles := a.Obstacles } →
        ({ a with Obstacles := l } : Game) = { b with Obstacles := l } := by
      intro a b l h
      rw [h]
    rw [clearSpawn_filter, key gs (levelStart g (timeNow w).1) _ hgs, hc]

theorem ObstaclesOnly.width {g g' : Game} (h : ObstaclesOnly g g') : g'.Width = g.Width := by
  unfold ObstaclesOnly at h
  rw [h]

theorem ObstaclesOnly.height {g g' : Game} (h : ObstaclesOnly g g') : g'.Height = g.Height := by
  unfold ObstaclesOnly at h
  rw [h]

theorem placeRandomObstacle_isSome (n : Nat) : ∀ (g : Game) (w : World),
    0 < g.Width → 0 < g.Height → ∃ g' w', placeRandomObstacle n g w = some (g', w') := by
  induction n with
  | zero => intro g w _ _; exact ⟨g, w, rfl⟩
  | succ k ih =>
    intro g w hW hH
    unfold placeRandomObstacle
    rw [randIntn_pos hW]
    simp only
    rw [randIntn_pos hH]
    simp only
    split_ifs
    · exact ih g _ hW hH
    · exact ⟨_, _, rfl⟩
    · exact ih g _ hW hH

theorem addRandomObstaclesLoop_isSome (n : Nat) : ∀ (g : Game) (w : World),
    0 < g.Width → 0 < g.Height → ∃ g' w', addRandomObstaclesLoop n g w = some (g', w') := by
  induction n with
  | zero => intro g w _ _; exact ⟨g, w, rfl⟩
  | succ k ih =>
    intro g w hW hH
    obtain ⟨g1, w1, h1⟩ := placeRandomObstacle_isSome 50 g w hW hH
    have ho := placeRandomObstacle_obstaclesOnly 50 _ _ _ _ h1
    obtain ⟨g2, w2, h2⟩ := ih g1 w1 (by rw [ho.width]; exact hW) (by rw [ho.height]; exact hH)
    refine ⟨g2, w2, ?_⟩
    unfold addRandomObstaclesLoop
    rw [h1]
    exact h2

theorem mazeCell_isSome (x y : Int) (g : Game) (w : World) :
    ∃ g' w', mazeCell x y g w = some (g', w') := by
  unfold mazeCell
  simp only
  rw [randIntn_pos (by decide : (0 : Int) < 2)]
  simp only
  split_ifs <;> exact ⟨_, _, rfl⟩

theorem forEach_isSome (body : Int → Game → World → Option (Game × World))
    (hb : ∀ x g w, ∃ g' w', body x g w = some (g', w')) (l : List Int) :
    ∀ (g : Game) (w : World), ∃ g' w', forEach body l g w = some (g', w') := by
  induction l with
  | nil => intro g w; exact ⟨g, w, rfl⟩
  | cons x xs ih =>
    intro g w
    obtain ⟨g1, w1, h1⟩ := hb x g w
    obtain ⟨g2, w2, h2⟩ := ih g1 w1
    refine ⟨g2, w2, ?_⟩
    unfold forEach
    rw [h1]
    exact h2

theorem addMazeLayout_isSome (g : Game) (w : World) :
    ∃ g' w', addMazeLayout g w = some (g', w') := by
  unfold addMazeLayout
  refine forEach_isSome _ ?_ _ g w
  intro x g1 w1
  exact forEach_isSome _ (fun y g2 w2 => mazeCell_isSome x y g2 w2) _ g1 w1

/-- On a grid with positive sides the level layout is always produced. -/
theorem setupLevel_isSome (g : Game) (w : World) (hW : 0 < g.Width) (hH : 0 < g.Height) :
    ∃ g' w', setupLevel g w = some (g', w') := by
  have hb := addStaticBarriers_obstaclesOnly g
  unfold setupLevel
  split_ifs
  · exact ⟨_, _, rfl⟩
  · exact addRandomObstaclesLoop_isSome _ _ _ (by rw [hb.width]; exact hW)
      (by rw [hb.height]; exact hH)
  · exact addRandomObstaclesLoop_isSome _ _ _ hW hH
  · exact addMazeLayout_isSome g w
  · exact ⟨_, _, rfl⟩

/-- First tick after the quota is met: the level is frozen in `LevelComplete`,
the bonus is added, the completion time recorded; no movement. -/
theorem update_complete (fuel : Nat) (g : Game) (w : World)
    (hA : g.AlertsNeeded ≤ g.AlertsCollected) (hS : g.State ≠ .LevelComplete) :
    Update fuel g w =
      some ({ g with
              LastUpdate := w.clock w.reads
              State := .LevelComplete
              Score := g.Score +
                (100 * g.Level + max 0 (60 - seconds (w.clock (w.reads + 1) - g.StartTime)))
              LevelCompleteTime := w.clock (w.reads + 2) },
            { w with reads := w.reads + 1 + 1 + 1 }) := by
  unfold Update checkLevelComplete
  simp only [ge_iff_le, hA, if_true, ne_eq, hS, not_false_eq_true]
  rfl

/-- A tick in `LevelComplete` that does not advance: only `LastUpdate` changes. -/
theorem update_waiting (fuel : Nat) (g : Game) (w : World) (hS : g.State = .LevelComplete)
    (h : g.AlertsCollected < g.AlertsNeeded ∨
      w.clock (w.reads + 1) - g.LevelCompleteTime < Second ∨ 10 ≤ g.Level) :
    ∃ w', Update fuel g w = some ({ g with LastUpdate := w.clock w.reads }, w') := by
  unfold Update checkLevelComplete
  by_cases hA : g.AlertsNeeded ≤ g.AlertsCollected
  · simp only [ge_iff_le, hA, if_true, ne_eq, hS, not_true_eq_false, if_false]
    by_cases hT : 1 * Second ≤ (timeSince g.LevelCompleteTime (timeNow w).2).1
    · have hL : 10 ≤ g.Level := by
        rcases h with h | h | h
        · omega
        · have : (timeSince g.LevelCompleteTime (timeNow w).2).1 =
              w.clock (w.reads + 1) - g.LevelCompleteTime := rfl
          rw [this] at hT
          omega
        · exact h
      rw [if_pos hT]
      unfold nextLevel
      simp only [ge_iff_le, hL, if_true, hS, ne_eq, not_false_eq_true, reduceCtorEq]
      exact ⟨_, rfl⟩
    · rw [if_neg hT]
      simp only [hS, ne_eq, not_false_eq_true, reduceCtorEq, if_true]
      exact ⟨_, rfl⟩
  · simp only [ge_iff_le, hA, if_false, hS, ne_eq, not_false_eq_true, reduceCtorEq, if_true]
    exact ⟨_, rfl⟩

theorem checkLevelComplete_advance (fuel : Nat) (g : Game) (w : World)
    (hS : g.State = .LevelComplete) (hA : g.AlertsNeeded ≤ g.AlertsCollected)
    (hT : Second ≤ w.clock w.reads - g.LevelCompleteTime) :
    checkLevelComplete fuel g w = nextLevel fuel g { w with reads := w.reads + 1 } := by
  unfold checkLevelComplete
  have hT2 : (timeSince g.LevelCompleteTime w).1 ≥ 1 * Second := by
    have : (timeSince g.LevelCompleteTime w).1 = w.clock w.reads - g.LevelCompleteTime := rfl
    rw [this]
    omega
  rw [if_pos (show g.AlertsCollected ≥ g.AlertsNeeded from hA), if_neg (not_not.2 hS),
    if_pos hT2]
  rfl

/-- The game `nextLevel` returns below level 10 is in state `Playing`. -/
theorem nextLevel_playing (fuel : Nat) (g : Game) (w : World) (gn : Game) (wn : World)
    (hL : g.Level < 10) (hn : nextLevel fuel g w = some (gn, wn)) : gn.State = .Playing := by
  rw [nextLevel_eq _ _ _ hL] at hn
  cases hs : setupLevel (levelStart g (timeNow w).1) (timeNow w).2 with
  | none => simp [hs] at hn
  | some q =>
    obtain ⟨gs, ws⟩ := q
    simp only [hs] at hn
    obtain ⟨h1, _⟩ := spawnAlerts_spec fuel _ _ _ _ hn
    rw [h1]
    rfl

/-- A tick in `LevelComplete`, one second or more after completion and below
level 10: `nextLevel`, then the move and the collision check of the same tick. -/
theorem update_advance (fuel : Nat) (g : Game) (w : World) (hS : g.State = .LevelComplete)
    (hA : g.AlertsNeeded ≤ g.AlertsCollected)
    (hT : Second ≤ w.clock (w.reads + 1) - g.LevelCompleteTime) (hL : g.Level < 10) :
    Update fuel g w =
      match nextLevel fuel { g with LastUpdate := w.clock w.reads }
          { w with reads := w.reads + 1 + 1 } with
      | none => none
      | some (gn, wn) => checkCollisions fuel (moveCommander gn) wn := by
  unfold Update
  simp only
  rw [checkLevelComplete_advance fuel { g with LastUpdate := (timeNow w).1 } (timeNow w).2
    hS hA hT]
  have hw : ({ (timeNow w).2 with reads := (timeNow w).2.reads + 1 } : World) =
      { w with reads := w.reads + 1 + 1 } := rfl
  have ht : (timeNow w).1 = w.clock w.reads := rfl
  rw [hw, ht]
  cases hn : nextLevel fuel { g with LastUpdate := w.clock w.reads }
      { w with reads := w.reads + 1 + 1 } with
  | none => rfl
  | some p =>
    obtain ⟨gn, wn⟩ := p
    have hp : gn.State = .Playing :=
      nextLevel_playing fuel { g with LastUpdate := w.clock w.reads }
        { w with reads := w.reads + 1 + 1 } gn wn hL hn
    simp only [hp, ne_eq, not_true_eq_false, if_false]

/-- A tick of a game that is neither playing nor complete changes only
`LastUpdate`. -/
theorem update_idle (fuel : Nat) (g : Game) (w : World) (hS : g.State ≠ .Playing)
    (hA : g.AlertsCollected < g.AlertsNeeded) :
    Update fuel g w = some ({ g with LastUpdate := w.clock w.reads }, (timeNow w).2) := by
  unfold Update checkLevelComplete
  simp only [ge_iff_le, if_neg (not_le.mpr hA), ne_eq, hS, not_false_eq_true, if_true]
  rfl

/-- C7. Level-10 completion is final: at level 10 or above `nextLevel` changes
nothing, so a tick of a complete game in `LevelComplete` returns the same game
with a new `LastUpdate` only, whatever the clock says: state, level, score,
commander, trail, alerts and obstacles are unchanged. -/
theorem nextLevel_final (fuel : Nat) (g : Game) (w : World) (hL : 10 ≤ g.Level) :
    nextLevel fuel g w = some (g, w) ∧
    (g.State = .LevelComplete → g.AlertsNeeded ≤ g.AlertsCollected →
      ∃ g' w', Update fuel g w = some (g', w') ∧
        g' = { g with LastUpdate := w.clock w.reads } ∧
        g'.State = .LevelComplete ∧ g'.Level = g.Level ∧ g'.Score = g.Score ∧
        g'.Commander = g.Commander ∧ g'.Trail = g.Trail ∧ g'.Alerts = g.Alerts ∧
        g'.Obstacles = g.Obstacles) := by
  constructor
  · unfold nextLevel
    rw [if_pos hL]
  · intro hS _
    obtain ⟨w', hw⟩ := update_waiting fuel g w hS (Or.inr (Or.inr hL))
    exact ⟨_, w', hw, rfl, hS, rfl, rfl, rfl, rfl, rfl, rfl⟩

theorem nextLevel_final_witness :
    10 ≤ finalGame.Level ∧ nextLevel 0 finalGame tickWorld = some (finalGame, tickWorld) ∧
      (Update 0 finalGame tickWorld).map (fun r => r.1) =
        some { finalGame with LastUpdate := 0 } :=
  ⟨by decide, (nextLevel_final 0 finalGame tickWorld (by decide)).1, by decide⟩

/-- What `nextLevel` leaves of the old game below level 10: everything is as
in `levelStart`, up to the obstacles and the alerts. -/
theorem nextLevel_frame (fuel : Nat) (g : Game) (w : World) (gn : Game) (wn : World)
    (hL : g.Level < 10) (hn : nextLevel fuel g w = some (gn, wn)) :
    gn = { (levelStart g (timeNow w).1) with Obstacles := gn.Obstacles, Alerts := gn.Alerts } ∧
      gn.Alerts.length = 3 := by
  rw [nextLevel_eq _ _ _ hL] at hn
  cases hs : setupLevel (levelStart g (timeNow w).1) (timeNow w).2 with
  | none => simp [hs] at hn
  | some q =>
    obtain ⟨gs, ws⟩ := q
    simp only [hs] at hn
    obtain ⟨h1, _, h3, _⟩ := spawnAlerts_spec fuel _ _ _ _ hn
    refine ⟨?_, h3 (show (0 : Nat) < 3 by decide)⟩
    rw [h1]

/-- The three outcomes of the collision check. -/
theorem checkCollisions_cases (fuel : Nat) (g : Game) (w : World) (g' : Game) (w' : World)
    (h : checkCollisions fuel g w = some (g', w')) :
    g' = { g with State := .GameOver } ∨ g' = g ∨
      ∃ i, collectAlert fuel g i w = some (g', w') := by
  by_cases hc : OutOfBounds g g.Commander ∨ g.Commander ∈ g.Trail ∨ g.Commander ∈ g.Obstacles
  · rw [checkCollisions_hit fuel g w hc] at h
    simp only [Option.some.injEq, Prod.mk.injEq] at h
    exact Or.inl h.1.symm
  · rw [checkCollisions_clear fuel g w hc] at h
    cases hf : findAlert g.Commander g.Alerts with
    | none =>
      simp only [hf, Option.some.injEq, Prod.mk.injEq] at h
      exact Or.inr (Or.inl h.1.symm)
    | some i =>
      simp only [hf] at h
      exact Or.inr (Or.inr ⟨i, h⟩)

/-- The collision check in full: on a hit only the state changes, to
`GameOver`; otherwise the state is kept and at most one alert is collected.
Commander, trail, obstacles and the other fields are never touched. -/
theorem checkCollisions_spec (fuel : Nat) (g : Game) (w : World) (g' : Game) (w' : World)
    (h : checkCollisions fuel g w = some (g', w')) :
    ((OutOfBounds g g.Commander ∨ g.Commander ∈ g.Trail ∨ g.Commander ∈ g.Obstacles) →
      g' = { g with State := .GameOver }) ∧
    (¬ (OutOfBounds g g.Commander ∨ g.Commander ∈ g.Trail ∨ g.Commander ∈ g.Obstacles) →
      g'.State = g.State) ∧
    g' = { g with State := g'.State, Alerts := g'.Alerts, Score := g'.Score,
                  AlertsCollected := g'.AlertsCollected } ∧
    ((g'.Score = g.Score ∧ g'.AlertsCollected = g.AlertsCollected) ∨
      (g'.Score = g.Score + 10 * (g.AlertsCollected + 1) ∧
        g'.AlertsCollected = g.AlertsCollected + 1)) := by
  by_cases hc : OutOfBounds g g.Commander ∨ g.Commander ∈ g.Trail ∨ g.Commander ∈ g.Obstacles
  · rw [checkCollisions_hit fuel g w hc] at h
    simp only [Option.some.injEq, Prod.mk.injEq] at h
    obtain ⟨rfl, _⟩ := h
    exact ⟨fun _ => rfl, fun hn => absurd hc hn, rfl, Or.inl ⟨rfl, rfl⟩⟩
  · rw [checkCollisions_clear fuel g w hc] at h
    cases hf : findAlert g.Commander g.Alerts with
    | none =>
      simp only [hf, Option.some.injEq, Prod.mk.injEq] at h
      obtain ⟨rfl, _⟩ := h
      exact ⟨fun hn => absurd hn hc, fun _ => rfl, rfl, Or.inl ⟨rfl, rfl⟩⟩
    | some i =>
      simp only [hf] at h
      obtain ⟨_, h1, _⟩ := collectAlert_spec _ _ _ _ _ _ h
      refine ⟨fun hn => absurd hn hc, fun _ => by rw [h1], ?_, Or.inr ⟨by rw [h1], by rw [h1]⟩⟩
      rw [h1]

/-- The tick that advances the level, split into its two stages. -/
theorem update_advance_spec (fuel : Nat) (g : Game) (w : World) (g' : Game) (w' : World)
    (hS : g.State = .LevelComplete) (hA : g.AlertsNeeded ≤ g.AlertsCollected)
    (hT : Second ≤ w.clock (w.reads + 1) - g.LevelCompleteTime) (hL : g.Level < 10)
    (h : Update fuel g w = some (g', w')) :
    ∃ gn wn, nextLevel fuel { g with LastUpdate := w.clock w.reads }
        { w with reads := w.reads + 1 + 1 } = some (gn, wn) ∧
      checkCollisions fuel (moveCommander gn) wn = some (g', w') := by
  rw [update_advance fuel g w hS hA hT hL] at h
  cases hn : nextLevel fuel { g with LastUpdate := w.clock w.reads }
      { w with reads := w.reads + 1 + 1 } with
  | none => simp [hn] at h
  | some p =>
    obtain ⟨gn, wn⟩ := p
    simp only [hn] at h
    exact ⟨gn, wn, rfl, h⟩

/-- The state after the tick that advances the level: the new level's
counters, the centre on the trail, the commander one step off the centre;
`GameOver` exactly when that step collides; the score is the old one, or ten
points more when the step collects the first alert of the new level. -/
theorem update_advance_fields (fuel : Nat) (g : Game) (w : World) (g' : Game) (w' : World)
    (hS : g.State = .LevelComplete) (hA : g.AlertsNeeded ≤ g.AlertsCollected)
    (hT : Second ≤ w.clock (w.reads + 1) - g.LevelCompleteTime) (hL : g.Level < 10)
    (h : Update fuel g w = some (g', w')) :
    g'.Level = g.Level + 1 ∧ g'.AlertsNeeded = 5 + g.Level ∧ g'.Trail = [centre g] ∧
    g'.Commander = nextCell { g with Commander := centre g } ∧
    (g'.State = .GameOver ↔
      (OutOfBounds g g'.Commander ∨ g'.Commander = centre g ∨ g'.Commander ∈ g'.Obstacles)) ∧
    (g'.State ≠ .GameOver → g'.State = .Playing) ∧
    ((g'.Score = g.Score ∧ g'.AlertsCollected = 0) ∨
      (g'.Score = g.Score + 10 ∧ g'.AlertsCollected = 1)) ∧
    g'.Width = g.Width ∧ g'.Height = g.Height ∧ g'.Direction = g.Direction := by
  obtain ⟨gn, wn, hn, hc⟩ := update_advance_spec fuel g w g' w' hS hA hT hL h
  obtain ⟨hf, _⟩ := nextLevel_frame fuel { g with LastUpdate := w.clock w.reads }
    { w with reads := w.reads + 1 + 1 } gn wn hL hn
  have hp := nextLevel_playing fuel { g with LastUpdate := w.clock w.reads }
    { w with reads := w.reads + 1 + 1 } gn wn hL hn
  obtain ⟨c1, c2, c3, c4⟩ := checkCollisions_spec fuel _ _ _ _ hc
  have hgnC : gn.Commander = centre g := by rw [hf]; rfl
  have hgnT : gn.Trail = [] := by rw [hf]; rfl
  have hgnD : gn.Direction = g.Direction := by rw [hf]; rfl
  have hnc : nextCell gn = nextCell { g with Commander := centre g } := by
    rw [nextCell_eq, nextCell_eq, hgnC, hgnD]
  have hmT : (moveCommander gn).Trail = [centre g] := by
    rw [moveCommander_eq]
    show gn.Trail ++ [gn.Commander] = [centre g]
    rw [hgnT, hgnC]
    rfl
  have hmC : (moveCommander gn).Commander = nextCell { g with Commander := centre g } := by
    rw [moveCommander_eq]
    exact hnc
  have hmO : (moveCommander gn).Obstacles = g'.Obstacles := by
    rw [c3]
  have hmW : (moveCommander gn).Width = g.Width := by
    rw [moveCommander_eq]
    show gn.Width = g.Width
    rw [hf]
    rfl
  have hmH : (moveCommander gn).Height = g.Height := by
    rw [moveCommander_eq]
    show gn.Height = g.Height
    rw [hf]
    rfl
  have hmS : (moveCommander gn).State = .Playing := by
    rw [moveCommander_eq]
    exact hp
  have hgC : g'.Commander = nextCell { g with Commander := centre g } := by
    rw [c3]
    exact hmC
  have hhit : (OutOfBounds (moveCommander gn) (moveCommander gn).Commander ∨
      (moveCommander gn).Commander ∈ (moveCommander gn).Trail ∨
      (moveCommander gn).Commander ∈ (moveCommander gn).Obstacles) ↔
      (OutOfBounds g g'.Commander ∨ g'.Commander = centre g ∨
        g'.Commander ∈ g'.Obstacles) := by
    unfold OutOfBounds
    rw [hmT, hmO, hmW, hmH, hmC, hgC, List.mem_singleton]
  refine ⟨?_, ?_, ?_, hgC, ?_, ?_, ?_, ?_, ?_, ?_⟩
  · rw [c3, moveCommander_eq]
    show gn.Level = g.Level + 1
    rw [hf]
    rfl
  · rw [c3, moveCommander_eq]
    show gn.AlertsNeeded = 5 + g.Level
    rw [hf]
    show 5 + (g.Level + 1 - 1) = 5 + g.Level
    ring
  · rw [c3]
    exact hmT
  · constructor
    · intro hgo
      by_contra hno
      have := c2 (fun e => hno (hhit.1 e))
      rw [hgo, hmS] at this
      exact absurd this (by decide)
    · intro hcol
      rw [c1 (hhit.2 hcol)]
  · intro hgo
    by_cases hcol : OutOfBounds (moveCommander gn) (moveCommander gn).Commander ∨
        (moveCommander gn).Commander ∈ (moveCommander gn).Trail ∨
        (moveCommander gn).Commander ∈ (moveCommander gn).Obstacles
    · rw [c1 hcol] at hgo
      exact absurd rfl hgo
    · rw [c2 hcol, hmS]
  · have hsc : (moveCommander gn).Score = g.Score := by
      rw [moveCommander_eq]
      show gn.Score = g.Score
      rw [hf]
      rfl
    have hac : (moveCommander gn).AlertsCollected = 0 := by
      rw [moveCommander_eq]
      show gn.AlertsCollected = 0
      rw [hf]
      rfl
    rw [hsc, hac] at c4
    rcases c4 with ⟨a, b⟩ | ⟨a, b⟩
    · exact Or.inl ⟨a, b⟩
    · exact Or.inr ⟨by rw [a]; norm_num, by rw [b]; norm_num⟩
  · rw [c3]
    exact hmW
  · rw [c3]
    exact hmH
  · rw [c3, moveCommander_eq]
    exact hgnD

/-- C4, as stated, fails. The game built by `New 20 20` in `lineWorld` is in
`LevelComplete` with score 302 after six ticks; the seventh tick, made in
`LevelComplete` two seconds later, advances the level, steps onto the alert
spawned at `(11,10)` and leaves the score at 312. -/
theorem update_levelComplete_score_counterexample :
    (play 3 6 20 20 lineWorld).map (fun r => (r.1.State, r.1.Score)) =
        some (.LevelComplete, 302) ∧
      (play 3 7 20 20 lineWorld).map (fun r => (r.1.Level, r.1.Score)) = some (2, 312) := by
  decide

/-- C5, as stated, fails. After six ticks the game built by `New 20 20` in
`lineWorld` is in `LevelComplete` at level 1 with 5 of 5 alerts, completed at
clock time 10 s; the seventh tick reads the clock at 12 s and advances to
level 2, but it leaves the trail `[(10,10)]`, not empty, and the commander on
`(11,10)`, not on the centre `(10,10)`. -/
theorem update_level1_advance_counterexample :
    (play 3 6 20 20 lineWorld).map
        (fun r => (r.1.State, r.1.Level, r.1.AlertsCollected, r.1.AlertsNeeded)) =
        some (.LevelComplete, 1, 5, 5) ∧
      (play 3 6 20 20 lineWorld).map
        (fun r => (r.1.LevelCompleteTime, r.2.clock (r.2.reads + 1))) =
        some (10000000000, 12000000000) ∧
      (play 3 7 20 20 lineWorld).map (fun r => (r.1.State, r.1.Level, r.1.AlertsNeeded)) =
        some (.Playing, 2, 6) ∧
      (play 3 7 20 20 lineWorld).map (fun r => (r.1.Trail, r.1.Commander)) =
        some ([⟨10, 10⟩], ⟨11, 10⟩) := by
  decide

/-- The five ways a tick can go. -/
theorem update_cases (fuel : Nat) (g : Game) (w : World) (g' : Game) (w' : World)
    (h : Update fuel g w = some (g', w')) :
    (g.AlertsNeeded ≤ g.AlertsCollected ∧ g.State ≠ .LevelComplete ∧
      g' = { g with
             LastUpdate := w.clock w.reads
             State := .LevelComplete
             Score := g.Score +
               (100 * g.Level + max 0 (60 - seconds (w.clock (w.reads + 1) - g.StartTime)))
             LevelCompleteTime := w.clock (w.reads + 2) }) ∨
    (g.State = .LevelComplete ∧ g' = { g with LastUpdate := w.clock w.reads }) ∨
    (g.State = .LevelComplete ∧ g.AlertsNeeded ≤ g.AlertsCollected ∧
      Second ≤ w.clock (w.reads + 1) - g.LevelCompleteTime ∧ g.Level < 10 ∧
      ∃ gn wn, nextLevel fuel { g with LastUpdate := w.clock w.reads }
          { w with reads := w.reads + 1 + 1 } = some (gn, wn) ∧
        checkCollisions fuel (moveCommander gn) wn = some (g', w')) ∨
    (g.State ≠ .Playing ∧ g.State ≠ .LevelComplete ∧ g.AlertsCollected < g.AlertsNeeded ∧
      g' = { g with LastUpdate := w.clock w.reads }) ∨
    (g.State = .Playing ∧ g.AlertsCollected < g.AlertsNeeded ∧
      checkCollisions fuel (moveCommander { g with LastUpdate := w.clock w.reads })
        (timeNow w).2 = some (g', w')) := by
  by_cases hA : g.AlertsNeeded ≤ g.AlertsCollected
  · by_cases hS : g.State = .LevelComplete
    · by_cases hwait : w.clock (w.reads + 1) - g.LevelCompleteTime < Second ∨ 10 ≤ g.Level
      · obtain ⟨w3, h3⟩ := update_waiting fuel g w hS (Or.inr hwait)
        rw [h3] at h
        simp only [Option.some.injEq, Prod.mk.injEq] at h
        exact Or.inr (Or.inl ⟨hS, h.1.symm⟩)
      · have hT : Second ≤ w.clock (w.reads + 1) - g.LevelCompleteTime := by
          by_contra hc
          exact hwait (Or.inl (by omega))
        have hL : g.Level < 10 := by
          by_contra hc
          exact hwait (Or.inr (by omega))
        exact Or.inr (Or.inr (Or.inl ⟨hS, hA, hT, hL,
          update_advance_spec fuel g w g' w' hS hA hT hL h⟩))
    · rw [update_complete fuel g w hA hS] at h
      simp only [Option.some.injEq, Prod.mk.injEq] at h
      exact Or.inl ⟨hA, hS, h.1.symm⟩
  · have hA2 : g.AlertsCollected < g.AlertsNeeded := by omega
    by_cases hS : g.State = .Playing
    · rw [update_playing fuel g w hS hA2] at h
      exact Or.inr (Or.inr (Or.inr (Or.inr ⟨hS, hA2, h⟩)))
    · rw [update_idle fuel g w hS hA2] at h
      simp only [Option.some.injEq, Prod.mk.injEq] at h
      by_cases hS2 : g.State = .LevelComplete
      · exact Or.inr (Or.inl ⟨hS2, h.1.symm⟩)
      · exact Or.inr (Or.inr (Or.inr (Or.inl ⟨hS, hS2, hA2, h.1.symm⟩)))

/-- A tick keeps level and quota, or moves both one level up. -/
theorem update_level (fuel : Nat) (g : Game) (w : World) (g' : Game) (w' : World)
    (h : Update fuel g w = some (g', w')) :
    (g'.Level = g.Level ∧ g'.AlertsNeeded = g.AlertsNeeded) ∨
      (g.Level < 10 ∧ g'.Level = g.Level + 1 ∧ g'.AlertsNeeded = 5 + g.Level) := by
  rcases update_cases fuel g w g' w' h with
    ⟨_, _, e⟩ | ⟨_, e⟩ | ⟨hS, hA, hT, hL, _⟩ | ⟨_, _, _, e⟩ | ⟨_, _, hc⟩
  · exact Or.inl ⟨by rw [e], by rw [e]⟩
  · exact Or.inl ⟨by rw [e], by rw [e]⟩
  · obtain ⟨h1, h2, _⟩ := update_advance_fields fuel g w g' w' hS hA hT hL h
    exact Or.inr ⟨hL, h1, h2⟩
  · exact Or.inl ⟨by rw [e], by rw [e]⟩
  · obtain ⟨_, _, c3, _⟩ := checkCollisions_spec fuel _ _ _ _ hc
    exact Or.inl ⟨by rw [c3, moveCommander_eq], by rw [c3, moveCommander_eq]⟩

/-- The game `New` builds: level 1, quota 5, score 0, `Playing`, heading
right from the centre, no trail, no obstacle, three alerts. -/
theorem New_spec (fuel : Nat) (width height : Int) (w : World) (g : Game) (w' : World)
    (h : New fuel width height w = some (g, w')) :
    g = { Width := width, Height := height, Commander := ⟨width.tdiv 2, height.tdiv 2⟩,
          Trail := [], Alerts := g.Alerts, Obstacles := [], Direction := Right,
          State := .Playing, Score := 0, Level := 1, AlertsCollected := 0, AlertsNeeded := 5,
          StartTime := w.clock (w.reads + 1), LastUpdate := w.clock (w.reads + 2),
          LevelCompleteTime := 0 } ∧
      g.Alerts.length = 3 := by
  unfold New at h
  simp only at h
  cases hs : spawnAlerts fuel
      { Width := width, Height := height, Commander := ⟨width.tdiv 2, height.tdiv 2⟩,
        Trail := [], Alerts := [], Obstacles := [], Direction := Right,
        State := .Playing, Score := 0, Level := 1, AlertsCollected := 0, AlertsNeeded := 5,
        StartTime := (timeNow (timeNow w).2).1, LastUpdate := (timeNow (timeNow (timeNow w).2).2).1,
        LevelCompleteTime := 0 } (timeNow (timeNow (timeNow w).2).2).2 with
  | none => simp [hs] at h
  | some p =>
    obtain ⟨g1, w1⟩ := p
    simp only [hs] at h
    obtain ⟨h1, _, h3, _⟩ := spawnAlerts_spec fuel _ _ _ _ hs
    have hlv : g1.Level = 1 := by rw [h1]
    rw [setupLevel_open g1 w1 (Or.inl (by omega))] at h
    simp only [Option.some.injEq, Prod.mk.injEq] at h
    obtain ⟨rfl, _⟩ := h
    refine ⟨?_, h3 (show (0 : Nat) < 3 by decide)⟩
    conv_lhs => rw [h1]
    rfl

/-- C8. Progression invariant: every reachable game has its level between 1
and 10 and needs `5 + (Level - 1)` alerts. -/
theorem reachable_progression (g : Game) (h : Reachable g) :
    1 ≤ g.Level ∧ g.Level ≤ 10 ∧ g.AlertsNeeded = 5 + (g.Level - 1) := by
  induction h with
  | new fuel width height w g w' hn =>
    obtain ⟨h1, _⟩ := New_spec fuel width height w g w' hn
    have hl : g.Level = 1 := by rw [h1]
    have hq : g.AlertsNeeded = 5 := by rw [h1]
    rw [hl, hq]
    decide
  | update fuel g w g' w' _ hu ih =>
    rcases update_level fuel g w g' w' hu with ⟨h1, h2⟩ | ⟨h0, h1, h2⟩
    · rw [h1, h2]
      exact ih
    · rw [h1, h2]
      omega
  | setDirection g dir _ ih =>
    unfold SetDirection
    split_ifs
    · exact ih
    · exact ih
  | pause g _ ih =>
    unfold Pause
    split_ifs
    · exact ih
    · exact ih
    · exact ih
  | restart fuel g w g' w' _ hr _ =>
    obtain ⟨h1, _⟩ := New_spec fuel g.Width g.Height w g' w' hr
    have hl : g'.Level = 1 := by rw [h1]
    have hq : g'.AlertsNeeded = 5 := by rw [h1]
    rw [hl, hq]
    decide

theorem reachable_ticks (fuel n : Nat) : ∀ (g : Game) (w : World) (g' : Game) (w' : World),
    Reachable g → ticks fuel n g w = some (g', w') → Reachable g' := by
  induction n with
  | zero =>
    intro g w g' w' hr h
    unfold ticks at h
    simp only [Option.some.injEq, Prod.mk.injEq] at h
    obtain ⟨rfl, _⟩ := h
    exact hr
  | succ k ih =>
    intro g w g' w' hr h
    unfold ticks at h
    cases hu : Update fuel g w with
    | none => simp [hu] at h
    | some p =>
      obtain ⟨g1, w1⟩ := p
      simp only [hu] at h
      exact ih g1 w1 g' w' (Reachable.update fuel g w g1 w1 hr hu) h

/-- Every game a run of `play` ends in is reachable. -/
theorem reachable_play (fuel n : Nat) (width height : Int) (w : World) (g : Game) (w' : World)
    (h : play fuel n width height w = some (g, w')) : Reachable g := by
  unfold play at h
  cases hn : New fuel width height w with
  | none => simp [hn] at h
  | some p =>
    obtain ⟨g0, w0⟩ := p
    simp only [hn] at h
    exact reachable_ticks fuel n g0 w0 g w' (Reachable.new fuel width height w g0 w0 hn) h

theorem quotaGame_reachable : Reachable quotaGame :=
  reachable_play 3 5 20 20 lineWorld quotaGame { lineWorld with reads := 8, drawn := 16 } rfl

theorem reachable_progression_witness :
    Reachable quotaGame ∧ 1 ≤ quotaGame.Level ∧ quotaGame.Level ≤ 10 ∧
      quotaGame.AlertsNeeded = 5 + (quotaGame.Level - 1) :=
  ⟨quotaGame_reachable, reachable_progression quotaGame quotaGame_reachable⟩

/-- The collision check advances the random source by whole cells only. -/
theorem checkCollisions_world (fuel : Nat) (g : Game) (w : World) (g' : Game) (w' : World)
    (h : checkCollisions fuel g w = some (g', w')) :
    w'.rand = w.rand ∧ ∃ m, w'.drawn = w.drawn + 2 * m := by
  by_cases hc : OutOfBounds g g.Commander ∨ g.Commander ∈ g.Trail ∨ g.Commander ∈ g.Obstacles
  · rw [checkCollisions_hit fuel g w hc] at h
    simp only [Option.some.injEq, Prod.mk.injEq] at h
    rw [← h.2]
    exact ⟨rfl, 0, rfl⟩
  · rw [checkCollisions_clear fuel g w hc] at h
    cases hf : findAlert g.Commander g.Alerts with
    | none =>
      simp only [hf, Option.some.injEq, Prod.mk.injEq] at h
      rw [← h.2]
      exact ⟨rfl, 0, rfl⟩
    | some j =>
      simp only [hf] at h
      obtain ⟨_, hr, hd⟩ := collectAlert_world _ _ _ _ _ _ h
      exact ⟨hr, hd⟩

/-- A tick of a running, incomplete level, field by field: the commander
steps, the old cell joins the trail, at most one alert is collected, and the
random source advances by whole cells. -/
theorem update_playing_fields (fuel : Nat) (g : Game) (w : World) (g' : Game) (w' : World)
    (hS : g.State = .Playing) (hA : g.AlertsCollected < g.AlertsNeeded)
    (h : Update fuel g w = some (g', w')) :
    g'.Commander = nextCell g ∧ g'.Trail = g.Trail ++ [g.Commander] ∧
    g'.Obstacles = g.Obstacles ∧ g'.Direction = g.Direction ∧
    g'.Width = g.Width ∧ g'.Height = g.Height ∧
    g'.Level = g.Level ∧ g'.AlertsNeeded = g.AlertsNeeded ∧
    (g'.State = .GameOver ↔ Collides g) ∧ (¬ Collides g → g'.State = .Playing) ∧
    ((g'.Score = g.Score ∧ g'.AlertsCollected = g.AlertsCollected) ∨
      (g'.Score = g.Score + 10 * (g.AlertsCollected + 1) ∧
        g'.AlertsCollected = g.AlertsCollected + 1)) ∧
    w'.rand = w.rand ∧ ∃ m, w'.drawn = w.drawn + 2 * m := by
  rw [update_playing fuel g w hS hA] at h
  obtain ⟨c1, c2, c3, c4⟩ := checkCollisions_spec fuel _ _ _ _ h
  have hmv := collides_iff_moved g (timeNow w).1
  have hSm : (moveCommander { g with LastUpdate := (timeNow w).1 }).State = .Playing := by
    rw [moveCommander_eq]
    exact hS
  have hworld : w'.rand = w.rand ∧ ∃ m, w'.drawn = w.drawn + 2 * m := by
    have hw := checkCollisions_world fuel _ _ _ _ h
    exact hw
  refine ⟨?_, ?_, ?_, ?_, ?_, ?_, ?_, ?_, ?_, ?_, ?_, hworld.1, hworld.2⟩
  · rw [c3, moveCommander_eq, nextCell_lastUpdate]
  · rw [c3, moveCommander_eq]
  · rw [c3, moveCommander_eq]
  · rw [c3, moveCommander_eq]
  · rw [c3, moveCommander_eq]
  · rw [c3, moveCommander_eq]
  · rw [c3, moveCommander_eq]
  · rw [c3, moveCommander_eq]
  · constructor
    · intro hgo
      by_contra hno
      have := c2 (fun e => hno (hmv.1 e))
      rw [hgo, hSm] at this
      exact absurd this (by decide)
    · intro hcol
      rw [c1 (hmv.2 hcol)]
  · intro hno
    rw [c2 (fun e => hno (hmv.1 e)), hSm]
  · have hsc : (moveCommander { g with LastUpdate := (timeNow w).1 }).Score = g.Score := by
      rw [moveCommander_eq]
    have hac : (moveCommander { g with LastUpdate := (timeNow w).1 }).AlertsCollected =
        g.AlertsCollected := by
      rw [moveCommander_eq]
    rw [hsc, hac] at c4
    exact c4

theorem avoidsRow10_advance (w w' : World) (m : Nat) (h : AvoidsRow10 w)
    (hr : w'.rand = w.rand) (hd : w'.drawn = w.drawn + 2 * m) : AvoidsRow10 w' := by
  intro k
  have e : w.drawn + 2 * m + 2 * k + 1 = w.drawn + 2 * (k + m) + 1 := by omega
  rw [hr, hd, e]
  exact h (k + m)

/-- Cells off row 10 are free for a game whose commander and trail lie on row
10 and which has no obstacle. -/
theorem allFree_of_row (g : Game) (w : World) (hH : g.Height = 20)
    (hC : g.Commander.Y = 10) (hT : ∀ p ∈ g.Trail, p.Y = 10) (hO : g.Obstacles = [])
    (hw : AvoidsRow10 w) : AllFree g w := by
  intro k
  cases ho : isPositionOccupied g (sampleCell g w k) with
  | false => rfl
  | true =>
    exfalso
    have hy : (sampleCell g w k).Y ≠ 10 := by
      unfold sampleCell
      rw [hH]
      exact hw k
    rcases (isPositionOccupied_iff g _).1 ho with e | e | e
    · rw [e] at hy
      exact hy hC
    · exact hy (hT _ e)
    · rw [hO] at e
      exact absurd e (List.not_mem_nil _)

theorem onRow_nextCell (g : Game) (x : Int) (h : OnRow g x) : nextCell g = ⟨x + 1, 10⟩ := by
  obtain ⟨_, _, _, hD, _, hC, _⟩ := h
  have e1 : ¬ (Right = Up) := by decide
  have e2 : ¬ (Right = Down) := by decide
  have e3 : ¬ (Right = Left) := by decide
  rw [nextCell_eq, hD, hC, if_neg e1, if_neg e2, if_neg e3, if_pos rfl]

theorem onRow_not_collides (g : Game) (x : Int) (h : OnRow g x) (h0 : 10 ≤ x) (h1 : x < 13) :
    ¬ Collides g := by
  have hn := onRow_nextCell g x h
  obtain ⟨_, hW, hH, _, hO, hC, hT, _⟩ := h
  unfold Collides OutOfBounds
  rw [hn, hW, hH, hO, hC]
  rintro (hb | hb | hb)
  · simp only at hb
    omega
  · rcases List.mem_append.1 hb with e | e
    · have := (hT _ e).2
      simp only at this
      omega
    · rw [List.mem_singleton] at e
      have := congrArg Position.X e
      simp only at this
      omega
  · exact absurd hb (List.not_mem_nil _)

/-- One tick along the row: the commander moves one column to the right and
the cell it left joins the trail. -/
theorem onRow_step (fuel : Nat) (g : Game) (w : World) (g' : Game) (w' : World) (x : Int)
    (h : OnRow g x) (h0 : 10 ≤ x) (h1 : x < 13) (hU : Update fuel g w = some (g', w')) :
    OnRow g' (x + 1) ∧ g'.Trail = g.Trail ++ [⟨x, 10⟩] ∧
      w'.rand = w.rand ∧ ∃ m, w'.drawn = w.drawn + 2 * m := by
  have hn := onRow_nextCell g x h
  have hnc := onRow_not_collides g x h h0 h1
  obtain ⟨hS, hW, hH, hD, hO, hC, hT, hN, hA⟩ := h
  obtain ⟨f1, f2, f3, f4, f5, f6, _, f8, _, f10, f11, f12, f13⟩ :=
    update_playing_fields fuel g w g' w' hS (by omega) hU
  refine ⟨⟨f10 hnc, by rw [f5, hW], by rw [f6, hH], by rw [f4, hD], by rw [f3, hO],
    by rw [f1, hn], ?_, by rw [f8, hN], ?_⟩, by rw [f2, hC], f12, f13⟩
  · intro p hp
    rw [f2, hC] at hp
    rcases List.mem_append.1 hp with e | e
    · exact ⟨(hT p e).1, by have := (hT p e).2; omega⟩
    · rw [List.mem_singleton] at e
      rw [e]
      exact ⟨rfl, by simp⟩
  · rcases f11 with ⟨_, e⟩ | ⟨_, e⟩ <;> rw [e] <;> omega

/-- One tick along the row returns when the random source avoids row 10. -/
theorem onRow_step_isSome (fuel : Nat) (g : Game) (w : World) (x : Int)
    (h : OnRow g x) (h0 : 10 ≤ x) (h1 : x < 13) (hf : 3 ≤ fuel) (hw : AvoidsRow10 w) :
    ∃ g' w', Update fuel g w = some (g', w') := by
  have hn := onRow_nextCell g x h
  have hnc := onRow_not_collides g x h h0 h1
  obtain ⟨hS, hW, hH, hD, hO, hC, hT, hN, hA⟩ := h
  refine update_playing_isSome fuel g w hS (by omega) hnc ?_
  have hfree : AllFree (moveCommander g) w := by
    refine allFree_of_row _ w ?_ ?_ ?_ ?_ hw
    · rw [moveCommander_eq]
      exact hH
    · rw [moveCommander_eq]
      show (nextCell g).Y = 10
      rw [hn]
    · rw [moveCommander_eq]
      intro p hp
      rcases List.mem_append.1 hp with e | e
      · exact (hT p e).1
      · rw [List.mem_singleton] at e
        rw [e, hC]
    · rw [moveCommander_eq]
      exact hO
  rw [freeSamples_allFree _ w fuel hfree]
  omega

theorem New_world (fuel : Nat) (width height : Int) (w : World) (g : Game) (w' : World)
    (h : New fuel width height w = some (g, w')) :
    w'.rand = w.rand ∧ ∃ m, w'.drawn = w.drawn + 2 * m := by
  unfold New at h
  simp only at h
  cases hs : spawnAlerts fuel
      { Width := width, Height := height, Commander := ⟨width.tdiv 2, height.tdiv 2⟩,
        Trail := [], Alerts := [], Obstacles := [], Direction := Right,
        State := .Playing, Score := 0, Level := 1, AlertsCollected := 0, AlertsNeeded := 5,
        StartTime := (timeNow (timeNow w).2).1, LastUpdate := (timeNow (timeNow (timeNow w).2).2).1,
        LevelCompleteTime := 0 } (timeNow (timeNow (timeNow w).2).2).2 with
  | none => simp [hs] at h
  | some p =>
    obtain ⟨g1, w1⟩ := p
    simp only [hs] at h
    obtain ⟨h1, _⟩ := spawnAlerts_spec fuel _ _ _ _ hs
    have hlv : g1.Level = 1 := by rw [h1]
    rw [setupLevel_open g1 w1 (Or.inl (by omega))] at h
    simp only [Option.some.injEq, Prod.mk.injEq] at h
    obtain ⟨_, rfl⟩ := h
    obtain ⟨hr, _, _, hd⟩ := spawnAlerts_world fuel _ _ _ _ hs
    exact ⟨hr, hd⟩

/-- The game `New 20 20` builds stands at the start of row 10. -/
theorem onRow_new (fuel : Nat) (w : World) (g : Game) (w' : World)
    (h : New fuel 20 20 w = some (g, w')) : OnRow g 10 ∧ g.Trail = [] := by
  obtain ⟨h1, _⟩ := New_spec fuel 20 20 w g w' h
  refine ⟨⟨by rw [h1], by rw [h1], by rw [h1], by rw [h1], by rw [h1], by rw [h1]; rfl, ?_,
    by rw [h1], by rw [h1]; show (0 : Int) ≤ 10 - 10; decide⟩, by rw [h1]⟩
  intro p hp
  rw [h1] at hp
  exact absurd hp (List.not_mem_nil _)

/-- `New 20 20` returns when the random source avoids row 10. -/
theorem new_isSome (fuel : Nat) (w : World) (hf : 3 ≤ fuel) (hw : AvoidsRow10 w) :
    ∃ g w', New fuel 20 20 w = some (g, w') := by
  unfold New
  simp only
  have hfree : AllFree
      { Width := 20, Height := 20, Commander := ⟨(20 : Int).tdiv 2, (20 : Int).tdiv 2⟩,
        Trail := [], Alerts := [], Obstacles := [], Direction := Right,
        State := .Playing, Score := 0, Level := 1, AlertsCollected := 0, AlertsNeeded := 5,
        StartTime := (timeNow (timeNow w).2).1, LastUpdate := (timeNow (timeNow (timeNow w).2).2).1,
        LevelCompleteTime := 0 } (timeNow (timeNow (timeNow w).2).2).2 :=
    allFree_of_row _ _ rfl rfl (fun p hp => absurd hp (List.not_mem_nil _)) rfl
      (avoidsRow10_advance w _ 0 hw rfl rfl)
  have hsome := spawnAlerts_isSome fuel _ (timeNow (timeNow (timeNow w).2).2).2
    (show (0 : Int) < 20 by decide) (show (0 : Int) < 20 by decide)
    (by rw [freeSamples_allFree _ _ fuel hfree]; exact le_trans hf (Nat.le_add_left _ _))
  obtain ⟨r, hr⟩ := Option.isSome_iff_exists.1 hsome
  obtain ⟨h1, _⟩ := spawnAlerts_spec fuel _ _ _ _ hr
  have hlv : r.1.Level = 1 := by rw [h1]
  rw [hr]
  simp only
  rw [setupLevel_open r.1 r.2 (Or.inl (by omega))]
  exact ⟨_, _, rfl⟩

/-- C9. Three-tick scenario: whatever the clock and the random source yield,
every run of `New 20 20` followed by three ticks with no input ends with the
commander on `(13,10)`, the trail `[(10,10), (11,10), (12,10)]` (oldest first)
and the state `Playing`. The run returns whenever the random source avoids
row 10 and each sampling loop may draw three cells. -/
theorem play_three_ticks (fuel : Nat) (w : World) :
    (∀ g w', play fuel 3 20 20 w = some (g, w') →
      g.Commander = ⟨13, 10⟩ ∧ g.Trail = [⟨10, 10⟩, ⟨11, 10⟩, ⟨12, 10⟩] ∧
        g.State = .Playing) ∧
    (3 ≤ fuel → AvoidsRow10 w → ∃ g w', play fuel 3 20 20 w = some (g, w')) := by
  constructor
  · intro g w' h
    unfold play at h
    cases hn : New fuel 20 20 w with
    | none => simp [hn] at h
    | some p0 =>
      obtain ⟨g0, w0⟩ := p0
      simp only [hn, ticks] at h
      cases hu1 : Update fuel g0 w0 with
      | none => simp [hu1] at h
      | some p1 =>
        obtain ⟨g1, w1⟩ := p1
        simp only [hu1] at h
        cases hu2 : Update fuel g1 w1 with
        | none => simp [hu2] at h
        | some p2 =>
          obtain ⟨g2, w2⟩ := p2
          simp only [hu2] at h
          cases hu3 : Update fuel g2 w2 with
          | none => simp [hu3] at h
          | some p3 =>
            obtain ⟨g3, w3⟩ := p3
            simp only [hu3, Option.some.injEq, Prod.mk.injEq] at h
            obtain ⟨rfl, _⟩ := h
            obtain ⟨r0, t0⟩ := onRow_new fuel w g0 w0 hn
            obtain ⟨r1, t1, _⟩ := onRow_step fuel g0 w0 g1 w1 10 r0 (by decide) (by decide) hu1
            obtain ⟨r2, t2, _⟩ := onRow_step fuel g1 w1 g2 w2 (10 + 1) r1 (by decide)
              (by decide) hu2
            obtain ⟨r3, t3, _⟩ := onRow_step fuel g2 w2 g3 w3 (10 + 1 + 1) r2 (by decide)
              (by decide) hu3
            refine ⟨r3.2.2.2.2.2.1, ?_, r3.1⟩
            rw [t3, t2, t1, t0]
            rfl
  · intro hf hw
    obtain ⟨g0, w0, hn⟩ := new_isSome fuel w hf hw
    obtain ⟨r0, _⟩ := onRow_new fuel w g0 w0 hn
    obtain ⟨hr0, m0, hd0⟩ := New_world fuel 20 20 w g0 w0 hn
    have hw0 := avoidsRow10_advance w w0 m0 hw hr0 hd0
    obtain ⟨g1, w1, hu1⟩ := onRow_step_isSome fuel g0 w0 10 r0 (by decide) (by decide) hf hw0
    obtain ⟨r1, _, hr1, m1, hd1⟩ := onRow_step fuel g0 w0 g1 w1 10 r0 (by decide) (by decide) hu1
    have hw1 := avoidsRow10_advance w0 w1 m1 hw0 hr1 hd1
    obtain ⟨g2, w2, hu2⟩ := onRow_step_isSome fuel g1 w1 (10 + 1) r1 (by decide) (by decide)
      hf hw1
    obtain ⟨r2, _, hr2, m2, hd2⟩ := onRow_step fuel g1 w1 g2 w2 (10 + 1) r1 (by decide)
      (by decide) hu2
    have hw2 := avoidsRow10_advance w1 w2 m2 hw1 hr2 hd2
    obtain ⟨g3, w3, hu3⟩ := onRow_step_isSome fuel g2 w2 (10 + 1 + 1) r2 (by decide)
      (by decide) hf hw2
    refine ⟨g3, w3, ?_⟩
    unfold play
    simp only [hn, ticks, hu1, hu2, hu3]

theorem play_three_ticks_witness :
    (play 3 3 20 20 lineWorld).map (fun r => (r.1.Commander, r.1.Trail, r.1.State)) =
        some (⟨13, 10⟩, [⟨10, 10⟩, ⟨11, 10⟩, ⟨12, 10⟩], .Playing) ∧
      (play 3 3 20 20 lineWorld).map (fun r => r.1.AlertsCollected) = some 3 ∧
      ∀ g w', play 3 3 20 20 lineWorld = some (g, w') → g.Commander = ⟨13, 10⟩ :=
  ⟨by decide, by decide, fun g w' h => ((play_three_ticks 3 lineWorld).1 g w' h).1⟩

/-- C10 (amended). Trail growth: for a reachable game that is `Playing` with
its quota not yet met, a tick after which the commander is inside the grid and
on no trail or obstacle cell leaves the trail exactly one element longer, the
new last element being the commander's cell before the tick. -/
theorem update_trail_growth (fuel : Nat) (g : Game) (w : World) (g' : Game) (w' : World)
    (_hR : Reachable g) (hS : g.State = .Playing) (hA : g.AlertsCollected < g.AlertsNeeded)
    (hU : Update fuel g w = some (g', w'))
    (_hB : ¬ OutOfBounds g' g'.Commander) (_hT : g'.Commander ∉ g'.Trail)
    (_hO : g'.Commander ∉ g'.Obstacles) :
    g'.Trail = g.Trail ++ [g.Commander] ∧ g'.Trail.length = g.Trail.length + 1 ∧
      g'.Trail.getLast? = some g.Commander := by
  obtain ⟨_, f2, _⟩ := update_playing_fields fuel g w g' w' hS hA hU
  rw [f2]
  simp

/-- C10, as stated, fails. The game `quotaGame`, reached from `New 20 20` after
five ticks in `lineWorld`, is `Playing` with 5 of 5 alerts; its next tick only
detects the completion: the commander stays on `(15,10)`, inside the grid and
on no trail or obstacle cell, and the trail keeps its five elements. -/
theorem update_trail_growth_counterexample :
    Reachable quotaGame ∧ quotaGame.State = .Playing ∧ quotaGame.Trail.length = 5 ∧
      (Update 3 quotaGame tickWorld).map (fun r => r.1.Trail.length) = some 5 ∧
      (Update 3 quotaGame tickWorld).map (fun r =>
        decide (¬ OutOfBounds r.1 r.1.Commander ∧ r.1.Commander ∉ r.1.Trail ∧
          r.1.Commander ∉ r.1.Obstacles)) = some true :=
  ⟨quotaGame_reachable, by decide, by decide, by decide, by decide⟩

theorem startGame_reachable : Reachable startGame :=
  Reachable.new 3 20 20 lineWorld startGame { lineWorld with reads := 3, drawn := 6 } rfl

theorem update_trail_growth_witness :
    Reachable startGame ∧ startGame.State = .Playing ∧
      startGame.AlertsCollected < startGame.AlertsNeeded ∧
      Update 3 startGame { lineWorld with reads := 3, drawn := 6 } =
        some (steppedGame, { lineWorld with reads := 4, drawn := 8 }) ∧
      ¬ OutOfBounds steppedGame steppedGame.Commander ∧
      steppedGame.Commander ∉ steppedGame.Trail ∧
      steppedGame.Commander ∉ steppedGame.Obstacles ∧
      steppedGame.Trail = startGame.Trail ++ [startGame.Commander] ∧
      steppedGame.Trail.length = startGame.Trail.length + 1 ∧
      steppedGame.Trail.getLast? = some startGame.Commander :=
  ⟨startGame_reachable, by decide, by decide, rfl, by decide, by decide, by decide,
    update_trail_growth 3 startGame { lineWorld with reads := 3, drawn := 6 } steppedGame
      { lineWorld with reads := 4, drawn := 8 } startGame_reachable (by decide) (by decide) rfl
      (by decide) (by decide) (by decide)⟩

theorem opposite_table :
    opposite Up = Down ∧ opposite Down = Up ∧ opposite Left = Right ∧ opposite Right = Left := by
  decide

/-- On the four constants `opposite` is an involution. -/
theorem opposite_eq_iff (d r : Direction) (hd : IsDirection d) (hr : IsDirection r) :
    d = opposite r ↔ r = opposite d := by
  rcases hd with h | h | h | h <;> rcases hr with k | k | k | k <;> subst h <;> subst k <;>
    decide

/-- C11. `SetDirection` rejects reversal: for a game heading in one of the four
directions and a request for one of the four, the request for the opposite of
the current direction changes nothing, every other request becomes the new
direction, and in both cases no other field changes. -/
theorem setDirection_rejects_reversal (g : Game) (r : Direction)
    (hd : IsDirection g.Direction) (hr : IsDirection r) :
    (r = opposite g.Direction → SetDirection g r = g) ∧
    (r ≠ opposite g.Direction → SetDirection g r = { g with Direction := r }) ∧
    SetDirection g r = { g with Direction := (SetDirection g r).Direction } ∧
    opposite Up = Down ∧ opposite Down = Up ∧ opposite Left = Right ∧
    opposite Right = Left := by
  have hiff := opposite_eq_iff g.Direction r hd hr
  refine ⟨?_, ?_, ?_, opposite_table⟩
  · intro h
    unfold SetDirection
    rw [if_neg (not_not.2 (hiff.2 h))]
  · intro h
    unfold SetDirection
    rw [if_pos (fun e => h (hiff.1 e))]
  · unfold SetDirection
    split_ifs <;> rfl

theorem setDirection_rejects_reversal_witness :
    IsDirection freshGame.Direction ∧ IsDirection Left ∧ Left = opposite freshGame.Direction ∧
      SetDirection freshGame Left = freshGame ∧
      SetDirection freshGame Up = { freshGame with Direction := Up } :=
  ⟨by decide, by decide, by decide,
    (setDirection_rejects_reversal freshGame Left (by decide) (by decide)).1 (by decide),
    (setDirection_rejects_reversal freshGame Up (by decide) (by decide)).2.1 (by decide)⟩

/-- C12, evaluated on the code. The game `startGame` heads right; its tick moves
the commander from `(10,10)` to `(11,10)`. Two `SetDirection` calls before the
next tick, `Up` then `Left`, are both accepted and leave the direction `Left`,
the opposite of `Right`; the next tick steps back onto `(10,10)`, the cell just
left, and ends the game. -/
theorem setDirection_twice_reverses :
    (Update 3 startGame { lineWorld with reads := 3, drawn := 6 }).map (fun r => r.1) =
        some steppedGame ∧
      steppedGame.Direction = Right ∧
      (SetDirection (SetDirection steppedGame Up) Left).Direction = Left ∧
      Left = opposite Right ∧
      (Update 3 (SetDirection (SetDirection steppedGame Up) Left)
          { lineWorld with reads := 4, drawn := 8 }).map
        (fun r => (r.1.Commander, r.1.Trail, r.1.State)) =
        some (⟨10, 10⟩, [⟨10, 10⟩, ⟨11, 10⟩], .GameOver) := by
  decide

/-- C13. `Pause` toggles only `Playing` and `Paused`: it maps `Playing` to
`Paused` and `Paused` to `Playing`, leaves `GameOver` and `LevelComplete`
games as they are, never changes another field, and two consecutive calls
return every game to itself. -/
theorem pause_toggle (g : Game) :
    (g.State = .Playing → Pause g = { g with State := .Paused }) ∧
    (g.State = .Paused → Pause g = { g with State := .Playing }) ∧
    (g.State = .GameOver ∨ g.State = .LevelComplete → Pause g = g) ∧
    Pause g = { g with State := (Pause g).State } ∧
    Pause (Pause g) = g := by
  unfold Pause
  cases hs : g.State <;> simp [hs]
  all_goals
    cases g
    simp only at hs
    subst hs
    rfl

/-- What the sampling loop appends: as many cells as are missing to three, each
inside the grid and free of commander, trail and obstacles. -/
theorem spawnAlerts_added (fuel : Nat) : ∀ (g : Game) (w : World) (g' : Game) (w' : World),
    spawnAlerts fuel g w = some (g', w') →
      ∃ added, g'.Alerts = g.Alerts ++ added ∧ added.length = 3 - g.Alerts.length ∧
        ∀ p ∈ added, isPositionOccupied g p = false ∧
          0 ≤ p.X ∧ p.X < g.Width ∧ 0 ≤ p.Y ∧ p.Y < g.Height := by
  induction fuel with
  | zero =>
    intro g w g' w' h
    unfold spawnAlerts at h
    split_ifs at h with hl
    simp only [Option.some.injEq, Prod.mk.injEq] at h
    obtain ⟨rfl, _⟩ := h
    exact ⟨[], by simp, by simp only [List.length_nil]; omega,
      fun p hp => absurd hp (List.not_mem_nil _)⟩
  | succ n ih =>
    intro g w g' w' h
    unfold spawnAlerts at h
    split_ifs at h with hl
    · cases hx : randIntn g.Width w with
      | none => simp [hx] at h
      | some p =>
        obtain ⟨x, w1⟩ := p
        cases hy : randIntn g.Height w1 with
        | none => simp [hx, hy] at h
        | some q =>
          obtain ⟨y, w2⟩ := q
          simp only [hx, hy] at h
          obtain ⟨hW, hxv, _⟩ := randIntn_eq_some hx
          obtain ⟨hH, hyv, _⟩ := randIntn_eq_some hy
          split_ifs at h with ho
          · obtain ⟨added, h1, h2, h3⟩ := ih _ _ _ _ h
            refine ⟨Position.mk x y :: added, by simpa using h1, ?_, ?_⟩
            · simp only [List.length_append, List.length_singleton] at h2
              simp only [List.length_cons]
              omega
            · intro p hp
              rcases List.mem_cons.1 hp with e | e
              · rw [e]
                refine ⟨by simpa using ho, ?_, ?_, ?_, ?_⟩
                · rw [hxv]; exact Int.emod_nonneg _ (by omega)
                · rw [hxv]; exact Int.emod_lt_of_pos _ hW
                · rw [hyv]; exact Int.emod_nonneg _ (by omega)
                · rw [hyv]; exact Int.emod_lt_of_pos _ hH
              · exact h3 p e
          · exact ih _ _ _ _ h
    · simp only [Option.some.injEq, Prod.mk.injEq] at h
      obtain ⟨rfl, _⟩ := h
      exact ⟨[], by simp, by simp only [List.length_nil]; omega,
        fun p hp => absurd hp (List.not_mem_nil _)⟩

theorem not_occupied_iff (g : Game) (p : Position) :
    isPositionOccupied g p = false ↔ p ≠ g.Commander ∧ p ∉ g.Trail ∧ p ∉ g.Obstacles := by
  have h := isPositionOccupied_iff g p
  cases ho : isPositionOccupied g p with
  | false =>
    rw [ho] at h
    constructor
    · intro _
      refine ⟨fun e => ?_, fun e => ?_, fun e => ?_⟩
      · exact absurd (h.2 (Or.inl e)) (by decide)
      · exact absurd (h.2 (Or.inr (Or.inl e))) (by decide)
      · exact absurd (h.2 (Or.inr (Or.inr e))) (by decide)
    · intro _
      rfl
  | true =>
    rw [ho] at h
    constructor
    · intro e
      exact absurd e (by decide)
    · rintro ⟨a, b, c⟩
      rcases h.1 rfl with e | e | e
      · exact absurd e a
      · exact absurd e b
      · exact absurd e c

/-- C18 (amended). Alerts may overlap each other: the occupancy test that
`spawnAlerts` applies to a sampled cell looks at the commander, the trail and
the obstacles, not at the alerts already in the list. After every
`spawnAlerts` call the old alerts are kept and every appended alert differs
from the commander cell, from every trail cell and from every obstacle cell. -/
theorem spawnAlerts_avoids_occupied (fuel : Nat) (g : Game) (w : World) (g' : Game)
    (w' : World) (h : spawnAlerts fuel g w = some (g', w')) :
    (∃ added, g'.Alerts = g.Alerts ++ added ∧
      ∀ p ∈ added, p ≠ g.Commander ∧ p ∉ g.Trail ∧ p ∉ g.Obstacles) ∧
    (∀ (l : List Position) (pos : Position),
      isPositionOccupied { g with Alerts := l } pos = isPositionOccupied g pos) := by
  refine ⟨?_, fun l pos => rfl⟩
  obtain ⟨added, h1, _, h3⟩ := spawnAlerts_added fuel g w g' w' h
  exact ⟨added, h1, fun p hp => (not_occupied_iff g p).1 (h3 p hp).1⟩

theorem spawnAlerts_avoids_occupied_witness :
    spawnAlerts 3 { overlapGame with Alerts := [⟨5, 5⟩] } fiveWorld =
        some (overlapGame, { fiveWorld with drawn := 4 }) ∧
      ∃ added, overlapGame.Alerts = [⟨5, 5⟩] ++ added ∧
        ∀ p ∈ added, p ≠ overlapGame.Commander ∧ p ∉ overlapGame.Trail ∧
          p ∉ overlapGame.Obstacles :=
  ⟨rfl, (spawnAlerts_avoids_occupied 3 { overlapGame with Alerts := [⟨5, 5⟩] } fiveWorld
    overlapGame { fiveWorld with drawn := 4 } rfl).1⟩

theorem overlapGame_reachable : Reachable overlapGame :=
  Reachable.new 3 20 20 fiveWorld overlapGame { fiveWorld with reads := 3, drawn := 6 } rfl

/-- C18, as stated, fails. In `fiveWorld` the random source yields the cell
`(5,5)` every time; it is free of commander, trail and obstacles, so `New 20 20`
accepts it three times: the reachable game `overlapGame` has three alerts on one
cell, and a `spawnAlerts` call on a list holding `(5,5)` appends `(5,5)` twice. -/
theorem alerts_overlap_counterexample :
    Reachable overlapGame ∧ overlapGame.Alerts = [⟨5, 5⟩, ⟨5, 5⟩, ⟨5, 5⟩] ∧
      ¬ overlapGame.Alerts.Nodup ∧
      (spawnAlerts 3 { overlapGame with Alerts := [⟨5, 5⟩] } fiveWorld).map
        (fun r => r.1.Alerts) = some [⟨5, 5⟩, ⟨5, 5⟩, ⟨5, 5⟩] :=
  ⟨overlapGame_reachable, by decide, by decide, by decide⟩

theorem max_zero_nonneg (x : Int) : 0 ≤ max 0 x := by
  unfold max
  split_ifs <;> omega

/-- A collection on a list of three alerts removes the alert at the index and
appends exactly one new alert. -/
theorem collectAlert_three (fuel : Nat) (g : Game) (index : Nat) (w : World) (g' : Game)
    (w' : World) (h : collectAlert fuel g index w = some (g', w'))
    (h3 : g.Alerts.length = 3) :
    g'.Alerts.length = 3 ∧ ∃ p, g'.Alerts = removeAt g.Alerts index ++ [p] ∧
      p ≠ g.Commander ∧ p ∉ g.Trail ∧ p ∉ g.Obstacles := by
  unfold collectAlert at h
  split_ifs at h with hi
  obtain ⟨added, a1, a2, a3⟩ := spawnAlerts_added fuel _ _ _ _ h
  have hlen : (removeAt g.Alerts index).length = 2 := by
    rw [removeAt_length _ _ (by omega), h3]
  have a1' : g'.Alerts = removeAt g.Alerts index ++ added := a1
  have a2' : added.length = 3 - (removeAt g.Alerts index).length := a2
  rw [hlen] at a2'
  match added, a2', a3, a1' with
  | [p], _, a3, a1' =>
    refine ⟨by rw [a1']; simp [hlen], p, a1', ?_⟩
    exact (not_occupied_iff g p).1 (a3 p (List.mem_singleton.2 rfl)).1

/-- The collision check keeps a list of three alerts at three. -/
theorem checkCollisions_three (fuel : Nat) (g : Game) (w : World) (g' : Game) (w' : World)
    (h : checkCollisions fuel g w = some (g', w')) (h3 : g.Alerts.length = 3) :
    g'.Alerts.length = 3 := by
  rcases checkCollisions_cases fuel g w g' w' h with e | e | ⟨i, e⟩
  · rw [e]
    exact h3
  · rw [e]
    exact h3
  · exact (collectAlert_three fuel g i w g' w' e h3).1

/-- A tick keeps the counter facts and never lowers the score. -/
theorem update_sound (fuel : Nat) (g : Game) (w : World) (g' : Game) (w' : World)
    (h : Update fuel g w = some (g', w')) (hs : Sound g) :
    Sound g' ∧ g.Score ≤ g'.Score := by
  obtain ⟨s1, s2, s3, s4, s5, s6, s7⟩ := hs
  rcases update_cases fuel g w g' w' h with
    ⟨_, _, e⟩ | ⟨_, e⟩ | ⟨hS, hA, hT, hL, gn, wn, hn, hc⟩ | ⟨_, _, _, e⟩ | ⟨hS, hA, hc⟩
  · have hb := max_zero_nonneg (60 - seconds (w.clock (w.reads + 1) - g.StartTime))
    have hsc : g'.Score = g.Score +
        (100 * g.Level + max 0 (60 - seconds (w.clock (w.reads + 1) - g.StartTime))) := by
      rw [e]
    have hst : g'.State = .LevelComplete := by rw [e]
    refine ⟨⟨by rw [e]; exact s1, by rw [e]; exact s2, by rw [e]; exact s3, by rw [e]; exact s4,
      by rw [hsc]; omega, by rw [e]; exact s6, ?_⟩, by rw [hsc]; omega⟩
    intro hgo
    rw [hst] at hgo
    exact absurd hgo (by decide)
  · rw [e]
    exact ⟨⟨s1, s2, s3, s4, s5, s6, s7⟩, le_refl _⟩
  · obtain ⟨f1, f2, _, _, _, _, f7, _⟩ := update_advance_fields fuel g w g' w' hS hA hT hL h
    obtain ⟨_, hn3⟩ := nextLevel_frame fuel { g with LastUpdate := w.clock w.reads }
      { w with reads := w.reads + 1 + 1 } gn wn hL hn
    have hm3 : (moveCommander gn).Alerts.length = 3 := by
      rw [moveCommander_eq]
      exact hn3
    have h3 := checkCollisions_three fuel _ _ _ _ hc hm3
    refine ⟨⟨by omega, by omega, by rw [f1, f2]; ring, ?_, ?_, h3, ?_⟩, ?_⟩
    · rcases f7 with ⟨_, b⟩ | ⟨_, b⟩ <;> omega
    · rcases f7 with ⟨a, _⟩ | ⟨a, _⟩ <;> omega
    · intro _
      rcases f7 with ⟨_, b⟩ | ⟨_, b⟩ <;> omega
    · rcases f7 with ⟨a, _⟩ | ⟨a, _⟩ <;> omega
  · rw [e]
    exact ⟨⟨s1, s2, s3, s4, s5, s6, s7⟩, le_refl _⟩
  · obtain ⟨c1, c2, c3, c4⟩ := checkCollisions_spec fuel _ _ _ _ hc
    have hm3 : (moveCommander { g with LastUpdate := w.clock w.reads }).Alerts.length = 3 := by
      rw [moveCommander_eq]
      exact s6
    have h3 := checkCollisions_three fuel _ _ _ _ hc hm3
    have hlv : g'.Level = g.Level := by rw [c3, moveCommander_eq]
    have hnd : g'.AlertsNeeded = g.AlertsNeeded := by rw [c3, moveCommander_eq]
    have hsc : (moveCommander { g with LastUpdate := w.clock w.reads }).Score = g.Score := by
      rw [moveCommander_eq]
    have hac : (moveCommander { g with LastUpdate := w.clock w.reads }).AlertsCollected =
        g.AlertsCollected := by
      rw [moveCommander_eq]
    have hst : (moveCommander { g with LastUpdate := w.clock w.reads }).State = .Playing := by
      rw [moveCommander_eq]
      exact hS
    rw [hsc, hac] at c4
    refine ⟨⟨by rw [hlv]; exact s1, by rw [hlv]; exact s2, by rw [hlv, hnd]; exact s3, ?_, ?_, h3,
      ?_⟩, ?_⟩
    · rcases c4 with ⟨_, b⟩ | ⟨_, b⟩ <;> omega
    · rcases c4 with ⟨a, _⟩ | ⟨a, _⟩ <;> omega
    · intro hgo
      by_cases hhit : OutOfBounds (moveCommander { g with LastUpdate := w.clock w.reads })
          (moveCommander { g with LastUpdate := w.clock w.reads }).Commander ∨
          (moveCommander { g with LastUpdate := w.clock w.reads }).Commander ∈
            (moveCommander { g with LastUpdate := w.clock w.reads }).Trail ∨
          (moveCommander { g with LastUpdate := w.clock w.reads }).Commander ∈
            (moveCommander { g with LastUpdate := w.clock w.reads }).Obstacles
      · have e := c1 hhit
        have ha : g'.AlertsCollected = g.AlertsCollected := by rw [e]; exact hac
        rw [ha, hnd]
        exact hA
      · have := c2 hhit
        rw [hgo, hst] at this
        exact absurd this (by decide)
    · rcases c4 with ⟨a, _⟩ | ⟨a, _⟩ <;> omega

theorem new_sound (fuel : Nat) (width height : Int) (w : World) (g : Game) (w' : World)
    (h : New fuel width height w = some (g, w')) : Sound g := by
  obtain ⟨h1, h3⟩ := New_spec fuel width height w g w' h
  have e1 : g.Level = 1 := by rw [h1]
  have e2 : g.AlertsNeeded = 5 := by rw [h1]
  have e3 : g.AlertsCollected = 0 := by rw [h1]
  have e4 : g.Score = 0 := by rw [h1]
  have e5 : g.State = .Playing := by rw [h1]
  refine ⟨by omega, by omega, by omega, by omega, by omega, h3, ?_⟩
  intro hgo
  rw [e5] at hgo
  exact absurd hgo (by decide)

/-- Every reachable game is sound. -/
theorem reachable_sound (g : Game) (h : Reachable g) : Sound g := by
  induction h with
  | new fuel width height w g w' hn => exact new_sound fuel width height w g w' hn
  | update fuel g w g' w' _ hu ih => exact (update_sound fuel g w g' w' hu ih).1
  | setDirection g dir _ ih =>
    unfold SetDirection
    split_ifs
    · exact ih
    · exact ih
  | pause g _ ih =>
    obtain ⟨s1, s2, s3, s4, s5, s6, s7⟩ := ih
    unfold Pause
    split_ifs with h1 h2
    · exact ⟨s1, s2, s3, s4, s5, s6,
        fun e => absurd (show GameState.Paused = GameState.GameOver from e) (by decide)⟩
    · exact ⟨s1, s2, s3, s4, s5, s6,
        fun e => absurd (show GameState.Playing = GameState.GameOver from e) (by decide)⟩
    · exact ⟨s1, s2, s3, s4, s5, s6, s7⟩
  | restart fuel g w g' w' _ hr _ => exact new_sound fuel g.Width g.Height w g' w' hr

theorem crashedGame_reachable : Reachable crashedGame :=
  reachable_play 3 10 20 20 fiveWorld crashedGame { fiveWorld with reads := 13, drawn := 6 } rfl

/-- C14 (amended). A reachable `Paused` game stays `Paused` under `Update`
while its quota is not met, and under `SetDirection` always; once the quota is
met, `Update` moves it to `LevelComplete` (completion is detected while
paused). `Pause` and `Restart` take it to `Playing`. -/
theorem paused_transitions (g : Game) (_hR : Reachable g) (hS : g.State = .Paused) :
    (g.AlertsCollected < g.AlertsNeeded → ∀ (fuel : Nat) (w : World),
      ∃ g' w', Update fuel g w = some (g', w') ∧
        g' = { g with LastUpdate := w.clock w.reads } ∧ g'.State = .Paused) ∧
    (g.AlertsNeeded ≤ g.AlertsCollected → ∀ (fuel : Nat) (w : World),
      ∃ g' w', Update fuel g w = some (g', w') ∧ g'.State = .LevelComplete) ∧
    (∀ dir, (SetDirection g dir).State = .Paused) ∧
    (Pause g).State = .Playing ∧
    (∀ (fuel : Nat) (w : World) (g' : Game) (w' : World),
      Restart fuel g w = some (g', w') → g'.State = .Playing) := by
  have hnp : g.State ≠ .Playing := by rw [hS]; decide
  have hnl : g.State ≠ .LevelComplete := by rw [hS]; decide
  refine ⟨?_, ?_, ?_, ?_, ?_⟩
  · intro hA fuel w
    exact ⟨_, _, update_idle fuel g w hnp hA, rfl, hS⟩
  · intro hA fuel w
    exact ⟨_, _, update_complete fuel g w hA hnl, rfl⟩
  · intro dir
    unfold SetDirection
    split_ifs
    · exact hS
    · exact hS
  · unfold Pause
    rw [if_neg hnp, if_pos hS]
  · intro fuel w g' w' h
    obtain ⟨h1, _⟩ := New_spec fuel g.Width g.Height w g' w' h
    rw [h1]

theorem paused_transitions_witness :
    Reachable (Pause startGame) ∧ (Pause startGame).State = .Paused ∧
      (Pause startGame).AlertsCollected < (Pause startGame).AlertsNeeded ∧
      (Update 0 (Pause startGame) tickWorld).map (fun r => r.1.State) = some .Paused ∧
      ∀ dir, (SetDirection (Pause startGame) dir).State = .Paused :=
  ⟨Reachable.pause startGame startGame_reachable, by decide, by decide, by decide,
    (paused_transitions (Pause startGame) (Reachable.pause startGame startGame_reachable)
      (by decide)).2.2.1⟩

/-- C14, as stated, fails. The reachable game `quotaGame` is `Playing` with 5 of
5 alerts; paused, it is a reachable `Paused` game, and its next tick leaves it
in `LevelComplete`, not in `Paused`. -/
theorem update_leaves_paused_counterexample :
    Reachable (Pause quotaGame) ∧ (Pause quotaGame).State = .Paused ∧
      (Update 3 (Pause quotaGame) tickWorld).map (fun r => r.1.State) =
        some .LevelComplete :=
  ⟨Reachable.pause quotaGame quotaGame_reachable, by decide, by decide⟩

/-- C15. `GameOver` is terminal: for a reachable game in `GameOver` every tick
returns the same game with a new `LastUpdate` only (state, score, level,
commander, trail, alerts and obstacles unchanged), `SetDirection` and `Pause`
leave the state `GameOver`, and `Restart` leaves it for `Playing`. -/
theorem gameOver_terminal (g : Game) (hR : Reachable g) (hS : g.State = .GameOver) :
    (∀ (fuel : Nat) (w : World), ∃ g' w', Update fuel g w = some (g', w') ∧
      g' = { g with LastUpdate := w.clock w.reads } ∧ g'.State = .GameOver ∧
      g'.Score = g.Score ∧ g'.Level = g.Level ∧ g'.Commander = g.Commander ∧
      g'.Trail = g.Trail ∧ g'.Alerts = g.Alerts ∧ g'.Obstacles = g.Obstacles) ∧
    (∀ dir, (SetDirection g dir).State = .GameOver) ∧
    Pause g = g ∧
    (∀ (fuel : Nat) (w : World) (g' : Game) (w' : World),
      Restart fuel g w = some (g', w') → g'.State = .Playing) := by
  have hA : g.AlertsCollected < g.AlertsNeeded := (reachable_sound g hR).2.2.2.2.2.2 hS
  have hnp : g.State ≠ .Playing := by rw [hS]; decide
  have hnq : g.State ≠ .Paused := by rw [hS]; decide
  refine ⟨?_, ?_, ?_, ?_⟩
  · intro fuel w
    exact ⟨_, _, update_idle fuel g w hnp hA, rfl, hS, rfl, rfl, rfl, rfl, rfl, rfl⟩
  · intro dir
    unfold SetDirection
    split_ifs
    · exact hS
    · exact hS
  · unfold Pause
    rw [if_neg hnp, if_neg hnq]
  · intro fuel w g' w' h
    obtain ⟨h1, _⟩ := New_spec fuel g.Width g.Height w g' w' h
    rw [h1]

theorem gameOver_terminal_witness :
    Reachable crashedGame ∧ crashedGame.State = .GameOver ∧
      (Update 3 crashedGame tickWorld).map (fun r => r.1) =
        some { crashedGame with LastUpdate := 0 } ∧
      Pause crashedGame = crashedGame ∧
      (Restart 3 crashedGame tickWorld).map (fun r => r.1.State) = some .Playing :=
  ⟨crashedGame_reachable, by decide, by decide,
    (gameOver_terminal crashedGame crashedGame_reachable (by decide)).2.2.1, by decide⟩

/-- `New` returns as soon as three of the sampled cells are off the centre. -/
theorem New_isSome (fuel : Nat) (width height : Int) (w : World) (hW : 0 < width)
    (hH : 0 < height) (gref : Game) (hgW : gref.Width = width) (hgH : gref.Height = height)
    (hgC : gref.Commander = ⟨width.tdiv 2, height.tdiv 2⟩) (hgT : gref.Trail = [])
    (hgO : gref.Obstacles = []) (hf : 3 ≤ freeSamples gref w fuel) :
    ∃ g w', New fuel width height w = some (g, w') := by
  unfold New
  simp only
  have hsome := spawnAlerts_isSome fuel
    { Width := width, Height := height, Commander := ⟨width.tdiv 2, height.tdiv 2⟩,
      Trail := [], Alerts := [], Obstacles := [], Direction := Right,
      State := .Playing, Score := 0, Level := 1, AlertsCollected := 0, AlertsNeeded := 5,
      StartTime := (timeNow (timeNow w).2).1, LastUpdate := (timeNow (timeNow (timeNow w).2).2).1,
      LevelCompleteTime := 0 } (timeNow (timeNow (timeNow w).2).2).2 hW hH (by
        rw [freeSamples_congr _ gref _ w fuel]
        · exact le_trans hf (Nat.le_add_left _ _)
        · exact hgW.symm
        · exact hgH.symm
        · exact hgC.symm
        · exact hgT.symm
        · exact hgO.symm
        · rfl
        · rfl)
  obtain ⟨r, hr⟩ := Option.isSome_iff_exists.1 hsome
  obtain ⟨h1, _⟩ := spawnAlerts_spec fuel _ _ _ _ hr
  have hlv : r.1.Level = 1 := by rw [h1]
  rw [hr]
  simp only
  rw [setupLevel_open r.1 r.2 (Or.inl (by omega))]
  exact ⟨_, _, rfl⟩

/-- C16. `Restart` equals fresh construction: on a grid with positive sides it
is `New Width Height`, whatever the prior game; its result has score 0, state
`Playing`, level 1, no alert collected, 5 needed, direction `Right`, the
commander on the centre, no trail, no obstacle, exactly three alerts and the
same width and height. It returns as soon as three of the sampled cells are
off the centre. -/
theorem restart_fresh (fuel : Nat) (g : Game) (w : World)
    (hW : 0 < g.Width) (hH : 0 < g.Height) :
    Restart fuel g w = New fuel g.Width g.Height w ∧
    (∀ g' w', Restart fuel g w = some (g', w') →
      g'.Score = 0 ∧ g'.State = .Playing ∧ g'.Level = 1 ∧ g'.AlertsCollected = 0 ∧
      g'.AlertsNeeded = 5 ∧ g'.Direction = Right ∧
      g'.Commander = ⟨g.Width / 2, g.Height / 2⟩ ∧ g'.Trail = [] ∧ g'.Obstacles = [] ∧
      g'.Alerts.length = 3 ∧ g'.Width = g.Width ∧ g'.Height = g.Height) ∧
    (3 ≤ freeSamples { g with Commander := centre g, Trail := [], Obstacles := [] } w fuel →
      ∃ g' w', Restart fuel g w = some (g', w')) := by
  refine ⟨rfl, ?_, ?_⟩
  · intro g' w' h
    obtain ⟨h1, h3⟩ := New_spec fuel g.Width g.Height w g' w' h
    have hC : g'.Commander = ⟨g.Width.tdiv 2, g.Height.tdiv 2⟩ := by rw [h1]
    refine ⟨by rw [h1], by rw [h1], by rw [h1], by rw [h1], by rw [h1], by rw [h1], ?_,
      by rw [h1], by rw [h1], h3, by rw [h1], by rw [h1]⟩
    rw [hC, Int.tdiv_eq_ediv (le_of_lt hW) (by decide),
      Int.tdiv_eq_ediv (le_of_lt hH) (by decide)]
  · intro hf
    exact New_isSome fuel g.Width g.Height w hW hH
      { g with Commander := centre g, Trail := [], Obstacles := [] } rfl rfl rfl rfl rfl hf

theorem restart_fresh_witness :
    0 < crashedGame.Width ∧ 0 < crashedGame.Height ∧
      Restart 3 crashedGame tickWorld = New 3 20 20 tickWorld ∧
      (Restart 3 crashedGame tickWorld).map
        (fun r => (r.1.State, r.1.Score, r.1.Level, r.1.Commander, r.1.Trail)) =
        some (.Playing, 0, 1, ⟨10, 10⟩, []) :=
  ⟨by decide, by decide,
    (restart_fresh 3 crashedGame tickWorld (by decide) (by decide)).1, by decide⟩

/-- C19. Score is monotonic and non-negative: every reachable game has a score
of at least 0, and no tick, direction change or pause lowers it; the points of
the next alert and the completion bonus are positive. -/
theorem score_monotone (g : Game) (hR : Reachable g) :
    0 ≤ g.Score ∧
    (∀ (fuel : Nat) (w : World) (g' : Game) (w' : World),
      Update fuel g w = some (g', w') → g.Score ≤ g'.Score) ∧
    (∀ dir, (SetDirection g dir).Score = g.Score) ∧
    (Pause g).Score = g.Score ∧
    0 < 10 * (g.AlertsCollected + 1) ∧
    (∀ s : Int, 0 < 100 * g.Level + max 0 (60 - s)) := by
  have hs := reachable_sound g hR
  obtain ⟨s1, _, _, s4, s5, _, _⟩ := hs
  refine ⟨s5, ?_, ?_, ?_, by omega, ?_⟩
  · intro fuel w g' w' h
    exact (update_sound fuel g w g' w' h (reachable_sound g hR)).2
  · intro dir
    unfold SetDirection
    split_ifs <;> rfl
  · unfold Pause
    split_ifs <;> rfl
  · intro s
    have := max_zero_nonneg (60 - s)
    omega

theorem score_monotone_witness :
    Reachable quotaGame ∧ 0 ≤ quotaGame.Score ∧
      (Update 0 quotaGame tickWorld).map (fun r => decide (quotaGame.Score ≤ r.1.Score)) =
        some true ∧
      0 < 10 * (quotaGame.AlertsCollected + 1) :=
  ⟨quotaGame_reachable, (score_monotone quotaGame quotaGame_reachable).1, by decide,
    (score_monotone quotaGame quotaGame_reachable).2.2.2.2.1⟩

theorem abs_eq (x : Int) : abs x = |x| := by
  unfold abs
  split_ifs with h
  · exact (abs_of_neg h).symm
  · exact (abs_of_nonneg (by omega)).symm

theorem safeAdds_refl (g : Game) : SafeAdds g g :=
  ⟨[], by simp, fun p hp => absurd hp (List.not_mem_nil _)⟩

theorem safeAdds_width {g g' : Game} (h : SafeAdds g g') : g'.Width = g.Width := by
  obtain ⟨added, e, _⟩ := h
  rw [e]

theorem safeAdds_height {g g' : Game} (h : SafeAdds g g') : g'.Height = g.Height := by
  obtain ⟨added, e, _⟩ := h
  rw [e]

theorem safeAdds_trans {a b c : Game} (h1 : SafeAdds a b) (h2 : SafeAdds b c) :
    SafeAdds a c := by
  have hW := safeAdds_width h1
  have hH := safeAdds_height h1
  obtain ⟨l1, e1, s1⟩ := h1
  obtain ⟨l2, e2, s2⟩ := h2
  refine ⟨l1 ++ l2, ?_, ?_⟩
  · rw [e2, e1]
    simp
  · intro p hp
    rcases List.mem_append.1 hp with e | e
    · exact s1 p e
    · have := s2 p e
      unfold InSafeZone at this ⊢
      rw [hW, hH] at this
      exact this

theorem safeAdds_push (g : Game) (p : Position) (h : ¬ InSafeZone g p) :
    SafeAdds g { g with Obstacles := g.Obstacles ++ [p] } :=
  ⟨[p], rfl, fun q hq => by rw [List.mem_singleton.1 hq]; exact h⟩

theorem foldl_safeAdds (f : Game → Int → Game) (W H : Int)
    (hf : ∀ a x, a.Width = W → a.Height = H → SafeAdds a (f a x)) (l : List Int) :
    ∀ g, g.Width = W → g.Height = H → SafeAdds g (l.foldl f g) := by
  induction l with
  | nil => intro g _ _; exact safeAdds_refl g
  | cons x xs ih =>
    intro g hW hH
    have h1 := hf g x hW hH
    exact safeAdds_trans h1
      (ih (f g x) (by rw [safeAdds_width h1, hW]) (by rw [safeAdds_height h1, hH]))

/-- A cell whose column is more than 2 off the centre column is outside the
safe zone. -/
theorem not_inSafeZone_of_x (a : Game) (x y c : Int) (hc : a.Width.tdiv 2 = c)
    (hx : abs (x - c) > 2) : ¬ InSafeZone a ⟨x, y⟩ := by
  unfold InSafeZone
  rw [hc]
  intro h
  have := h.1
  simp only at this
  omega

/-- A cell whose row is more than 2 off the centre row is outside the safe
zone. -/
theorem not_inSafeZone_of_y (a : Game) (x y c : Int) (hc : a.Height.tdiv 2 = c)
    (hy : abs (y - c) > 2) : ¬ InSafeZone a ⟨x, y⟩ := by
  unfold InSafeZone
  rw [hc]
  intro h
  have := h.2
  simp only at this
  omega

/-- Two pushes in a row, each guarded by its own test. -/
theorem safeAdds_two (a : Game) (p q : Position) (c1 c2 : Prop) [Decidable c1] [Decidable c2]
    (hp : ¬ InSafeZone a p) (hq : ¬ InSafeZone a q) :
    SafeAdds a
      (if c2 then
        { (if c1 then { a with Obstacles := a.Obstacles ++ [p] } else a) with
          Obstacles := (if c1 then { a with Obstacles := a.Obstacles ++ [p] } else a).Obstacles
            ++ [q] }
      else (if c1 then { a with Obstacles := a.Obstacles ++ [p] } else a)) := by
  by_cases h1 : c1 <;> by_cases h2 : c2
  · rw [if_pos h2, if_pos h1]
    exact safeAdds_trans (safeAdds_push a p hp) (safeAdds_push _ q hq)
  · rw [if_neg h2, if_pos h1]
    exact safeAdds_push a p hp
  · rw [if_pos h2, if_neg h1]
    exact safeAdds_push a q hq
  · rw [if_neg h2, if_neg h1]
    exact safeAdds_refl a

/-- The static cross lies outside the safe zone. -/
theorem addStaticBarriers_safeAdds (g : Game) : SafeAdds g (addStaticBarriers g) := by
  have key : ∀ (f1 f2 : Game → Int → Game) (l1 : List Int) (l2 : Game → List Int),
      (∀ a x, a.Width = g.Width → a.Height = g.Height → SafeAdds a (f1 a x)) →
      (∀ a x, a.Width = g.Width → a.Height = g.Height → SafeAdds a (f2 a x)) →
      SafeAdds g ((l2 (l1.foldl f1 g)).foldl f2 (l1.foldl f1 g)) := by
    intro f1 f2 l1 l2 h1 h2
    have a1 := foldl_safeAdds f1 g.Width g.Height h1 l1 g rfl rfl
    exact safeAdds_trans a1
      (foldl_safeAdds f2 g.Width g.Height h2 _ _ (safeAdds_width a1) (safeAdds_height a1))
  unfold addStaticBarriers
  simp only
  refine key _ _ _ (fun g1 => forRange 2 (g1.Height - 2) 1) ?_ ?_
  · intro a x hW _
    by_cases hx : abs (x - g.Width.tdiv 2) > 2
    · rw [if_pos hx]
      exact safeAdds_two a _ _ _ _
        (not_inSafeZone_of_x a x _ _ (by rw [hW]) hx)
        (not_inSafeZone_of_x a x _ _ (by rw [hW]) hx)
    · rw [if_neg hx]
      exact safeAdds_refl a
  · intro a y _ hH
    by_cases hy : abs (y - g.Height.tdiv 2) > 2
    · rw [if_pos hy]
      exact safeAdds_two a _ _ _ _
        (not_inSafeZone_of_y a _ y _ (by rw [hH]) hy)
        (not_inSafeZone_of_y a _ y _ (by rw [hH]) hy)
    · rw [if_neg hy]
      exact safeAdds_refl a

theorem placeRandomObstacle_safeAdds (n : Nat) : ∀ (g : Game) (w : World) (g' : Game)
    (w' : World), placeRandomObstacle n g w = some (g', w') → SafeAdds g g' := by
  induction n with
  | zero =>
    intro g w g' w' h
    unfold placeRandomObstacle at h
    simp only [Option.some.injEq, Prod.mk.injEq] at h
    obtain ⟨rfl, _⟩ := h
    exact safeAdds_refl _
  | succ k ih =>
    intro g w g' w' h
    unfold placeRandomObstacle at h
    cases hx : randIntn g.Width w with
    | none => simp [hx] at h
    | some p =>
      obtain ⟨x, w1⟩ := p
      cases hy : randIntn g.Height w1 with
      | none => simp [hx, hy] at h
      | some q =>
        obtain ⟨y, w2⟩ := q
        simp only [hx, hy] at h
        split_ifs at h with h1 h2
        · exact ih _ _ _ _ h
        · simp only [Option.some.injEq, Prod.mk.injEq] at h
          obtain ⟨rfl, _⟩ := h
          exact safeAdds_push g ⟨x, y⟩ h1
        · exact ih _ _ _ _ h

theorem addRandomObstaclesLoop_safeAdds (n : Nat) : ∀ (g : Game) (w : World) (g' : Game)
    (w' : World), addRandomObstaclesLoop n g w = some (g', w') → SafeAdds g g' := by
  induction n with
  | zero =>
    intro g w g' w' h
    unfold addRandomObstaclesLoop at h
    simp only [Option.some.injEq, Prod.mk.injEq] at h
    obtain ⟨rfl, _⟩ := h
    exact safeAdds_refl _
  | succ k ih =>
    intro g w g' w' h
    unfold addRandomObstaclesLoop at h
    cases hp : placeRandomObstacle 50 g w with
    | none => simp [hp] at h
    | some p =>
      obtain ⟨g1, w1⟩ := p
      simp only [hp] at h
      exact safeAdds_trans (placeRandomObstacle_safeAdds 50 _ _ _ _ hp) (ih _ _ _ _ h)

theorem mazeCell_safeAdds (x y : Int) (g : Game) (w : World) (g' : Game) (w' : World)
    (h : mazeCell x y g w = some (g', w')) : SafeAdds g g' := by
  unfold mazeCell at h
  simp only at h
  split_ifs at h with h1 h2
  · simp only [Option.some.injEq, Prod.mk.injEq] at h
    obtain ⟨rfl, _⟩ := h
    exact safeAdds_refl _
  · cases hr : randIntn 2 w with
    | none => simp [hr] at h
    | some p =>
      obtain ⟨r, w1⟩ := p
      simp only [hr] at h
      split_ifs at h <;>
        (rename_i hr0 hc
         simp only [Option.some.injEq, Prod.mk.injEq] at h
         obtain ⟨rfl, _⟩ := h
         first
           | exact safeAdds_trans (safeAdds_push g ⟨x, y⟩ h1) (safeAdds_push _ _ hc.2.2.2)
           | exact safeAdds_push g ⟨x, y⟩ h1)
  · simp only [Option.some.injEq, Prod.mk.injEq] at h
    obtain ⟨rfl, _⟩ := h
    exact safeAdds_refl _

theorem forEach_safeAdds (body : Int → Game → World → Option (Game × World))
    (hb : ∀ x g w g' w', body x g w = some (g', w') → SafeAdds g g') (l : List Int) :
    ∀ (g : Game) (w : World) (g' : Game) (w' : World),
      forEach body l g w = some (g', w') → SafeAdds g g' := by
  induction l with
  | nil =>
    intro g w g' w' h
    unfold forEach at h
    simp only [Option.some.injEq, Prod.mk.injEq] at h
    obtain ⟨rfl, _⟩ := h
    exact safeAdds_refl _
  | cons x xs ih =>
    intro g w g' w' h
    unfold forEach at h
    cases hp : body x g w with
    | none => simp [hp] at h
    | some p =>
      obtain ⟨g1, w1⟩ := p
      simp only [hp] at h
      exact safeAdds_trans (hb _ _ _ _ _ hp) (ih _ _ _ _ h)

theorem addMazeLayout_safeAdds (g : Game) (w : World) (g' : Game) (w' : World)
    (h : addMazeLayout g w = some (g', w')) : SafeAdds g g' := by
  unfold addMazeLayout at h
  refine forEach_safeAdds _ ?_ _ _ _ _ _ h
  intro x g1 w1 g2 w2 h2
  refine forEach_safeAdds _ ?_ _ _ _ _ _ h2
  intro y g3 w3 g4 w4 h4
  exact mazeCell_safeAdds x y g3 w3 g4 w4 h4

/-- Every obstacle the level layout adds lies outside the safe zone. -/
theorem setupLevel_safeAdds (g : Game) (w : World) (g' : Game) (w' : World)
    (h : setupLevel g w = some (g', w')) : SafeAdds g g' := by
  unfold setupLevel at h
  split_ifs at h
  · simp only [Option.some.injEq, Prod.mk.injEq] at h
    obtain ⟨rfl, _⟩ := h
    exact addStaticBarriers_safeAdds g
  · exact safeAdds_trans (addStaticBarriers_safeAdds g)
      (addRandomObstaclesLoop_safeAdds _ _ _ _ _ h)
  · exact addRandomObstaclesLoop_safeAdds _ _ _ _ _ h
  · exact addMazeLayout_safeAdds _ _ _ _ h
  · simp only [Option.some.injEq, Prod.mk.injEq] at h
    obtain ⟨rfl, _⟩ := h
    exact safeAdds_refl _

/-- The centre cell is in the safe zone. -/
theorem centre_inSafeZone (g : Game) : InSafeZone g ⟨g.Width.tdiv 2, g.Height.tdiv 2⟩ := by
  unfold InSafeZone abs
  simp

/-- Below level 10 the obstacles `nextLevel` leaves are those of the fresh
layout, all outside the safe zone: the safety loop has nothing to remove. -/
theorem nextLevel_obstacles (fuel : Nat) (g : Game) (w : World) (gn : Game) (wn : World)
    (hL : g.Level < 10) (hn : nextLevel fuel g w = some (gn, wn)) :
    ∃ gs ws, setupLevel (levelStart g (timeNow w).1) (timeNow w).2 = some (gs, ws) ∧
      gn.Obstacles = gs.Obstacles ∧
      clearSpawn gs.Commander gs.Obstacles.length gs.Obstacles = gs.Obstacles ∧
      Safe gs ∧ Safe gn := by
  rw [nextLevel_eq fuel g w hL] at hn
  cases hs : setupLevel (levelStart g (timeNow w).1) (timeNow w).2 with
  | none => simp [hs] at hn
  | some q =>
    obtain ⟨gs, ws⟩ := q
    simp only [hs] at hn
    obtain ⟨added, e, hsafe⟩ := setupLevel_safeAdds _ _ _ _ hs
    have hO : gs.Obstacles = added := by
      rw [e]
      show (levelStart g (timeNow w).1).Obstacles ++ added = added
      rfl
    have hgsW : gs.Width = g.Width := by rw [e]; rfl
    have hgsH : gs.Height = g.Height := by rw [e]; rfl
    have hgsC : gs.Commander = ⟨g.Width.tdiv 2, g.Height.tdiv 2⟩ := by rw [e]; rfl
    have hsafe' : ∀ p ∈ gs.Obstacles, ¬ InSafeZone g p := by
      intro p hp
      rw [hO] at hp
      exact hsafe p hp
    have hfilter : gs.Obstacles.filter
        (fun o => decide (o ≠ (⟨g.Width.tdiv 2, g.Height.tdiv 2⟩ : Position))) =
        gs.Obstacles := by
      rw [List.filter_eq_self]
      intro p hp
      have hne : p ≠ (⟨g.Width.tdiv 2, g.Height.tdiv 2⟩ : Position) := by
        intro e2
        have := hsafe' p hp
        rw [e2] at this
        exact this (centre_inSafeZone g)
      exact decide_eq_true hne
    obtain ⟨s1, _⟩ := spawnAlerts_spec fuel _ _ _ _ hn
    have hgnO : gn.Obstacles = gs.Obstacles := by
      rw [s1]
      exact hfilter
    have hgnW : gn.Width = g.Width := by rw [s1]; rfl
    have hgnH : gn.Height = g.Height := by rw [s1]; rfl
    refine ⟨gs, ws, rfl, hgnO, ?_, ?_, ?_⟩
    · rw [clearSpawn_filter, hgsC]
      exact hfilter
    · intro p hp
      have := hsafe' p hp
      unfold InSafeZone at this ⊢
      rw [hgsW, hgsH]
      exact this
    · intro p hp
      rw [hgnO] at hp
      have := hsafe' p hp
      unfold InSafeZone at this ⊢
      rw [hgnW, hgnH]
      exact this

theorem safe_congr (g g' : Game) (hO : g'.Obstacles = g.Obstacles) (hW : g'.Width = g.Width)
    (hH : g'.Height = g.Height) (h : Safe g) : Safe g' := by
  intro p hp
  rw [hO] at hp
  have := h p hp
  unfold InSafeZone at this ⊢
  rw [hW, hH]
  exact this

/-- The collision check and the move before it keep obstacles and grid. -/
theorem safe_of_checkCollisions (fuel : Nat) (g : Game) (w : World) (g' : Game) (w' : World)
    (h : checkCollisions fuel (moveCommander g) w = some (g', w')) (hs : Safe g) : Safe g' := by
  obtain ⟨_, _, c3, _⟩ := checkCollisions_spec fuel _ _ _ _ h
  exact safe_congr g g' (by rw [c3, moveCommander_eq]) (by rw [c3, moveCommander_eq])
    (by rw [c3, moveCommander_eq]) hs

/-- A tick keeps every obstacle outside the safe zone. -/
theorem update_safe (fuel : Nat) (g : Game) (w : World) (g' : Game) (w' : World)
    (h : Update fuel g w = some (g', w')) (hs : Safe g) : Safe g' := by
  rcases update_cases fuel g w g' w' h with
    ⟨_, _, e⟩ | ⟨_, e⟩ | ⟨_, _, _, hL, gn, wn, hn, hc⟩ | ⟨_, _, _, e⟩ | ⟨_, _, hc⟩
  · exact safe_congr g g' (by rw [e]) (by rw [e]) (by rw [e]) hs
  · exact safe_congr g g' (by rw [e]) (by rw [e]) (by rw [e]) hs
  · obtain ⟨_, _, _, _, _, _, hgn⟩ := nextLevel_obstacles fuel
      { g with LastUpdate := w.clock w.reads } { w with reads := w.reads + 1 + 1 } gn wn hL hn
    exact safe_of_checkCollisions fuel gn wn g' w' hc hgn
  · exact safe_congr g g' (by rw [e]) (by rw [e]) (by rw [e]) hs
  · exact safe_of_checkCollisions fuel { g with LastUpdate := w.clock w.reads } _ g' w' hc
      (safe_congr g _ rfl rfl rfl hs)

theorem new_safe (fuel : Nat) (width height : Int) (w : World) (g : Game) (w' : World)
    (h : New fuel width height w = some (g, w')) : Safe g := by
  obtain ⟨h1, _⟩ := New_spec fuel width height w g w' h
  have hO : g.Obstacles = [] := by rw [h1]
  intro p hp
  rw [hO] at hp
  exact absurd hp (List.not_mem_nil _)

/-- In every reachable game no obstacle lies in the safe zone. -/
theorem reachable_safe (g : Game) (h : Reachable g) : Safe g := by
  induction h with
  | new fuel width height w g w' hn => exact new_safe fuel width height w g w' hn
  | update fuel g w g' w' _ hu ih => exact update_safe fuel g w g' w' hu ih
  | setDirection g dir _ ih =>
    unfold SetDirection
    split_ifs
    · exact safe_congr g _ rfl rfl rfl ih
    · exact ih
  | pause g _ ih =>
    unfold Pause
    split_ifs
    · exact safe_congr g _ rfl rfl rfl ih
    · exact safe_congr g _ rfl rfl rfl ih
    · exact ih
  | restart fuel g w g' w' _ hr _ => exact new_safe fuel g.Width g.Height w g' w' hr

/-- C20. Safe zone: whatever the grid size, the level and the random outcome,
every obstacle `setupLevel` adds (static cross, random obstacles, maze lattice
cells and their connecting cells) is more than 2 cells off the grid centre on
at least one axis; so no obstacle of a reachable game lies in the safe zone,
and the safety loop of `nextLevel` removes nothing: the obstacles after
`nextLevel` are exactly those of the fresh layout. -/
theorem safe_zone (g : Game) :
    (∀ (w : World) (g' : Game) (w' : World), setupLevel g w = some (g', w') →
      ∃ added, g'.Obstacles = g.Obstacles ++ added ∧
        ∀ p ∈ added, ¬ (|p.X - g.Width.tdiv 2| ≤ 2 ∧ |p.Y - g.Height.tdiv 2| ≤ 2)) ∧
    (Reachable g → ∀ p ∈ g.Obstacles,
      ¬ (|p.X - g.Width.tdiv 2| ≤ 2 ∧ |p.Y - g.Height.tdiv 2| ≤ 2)) ∧
    (∀ (fuel : Nat) (w : World) (g' : Game) (w' : World),
      g.Level < 10 → nextLevel fuel g w = some (g', w') →
        ∃ gs ws, setupLevel (levelStart g (timeNow w).1) (timeNow w).2 = some (gs, ws) ∧
          clearSpawn gs.Commander gs.Obstacles.length gs.Obstacles = gs.Obstacles ∧
          g'.Obstacles = gs.Obstacles) ∧
    (∀ p : Position, InSafeZone g p ↔
      (|p.X - g.Width.tdiv 2| ≤ 2 ∧ |p.Y - g.Height.tdiv 2| ≤ 2)) := by
  have hz : ∀ p : Position, InSafeZone g p ↔
      (|p.X - g.Width.tdiv 2| ≤ 2 ∧ |p.Y - g.Height.tdiv 2| ≤ 2) := by
    intro p
    unfold InSafeZone
    rw [abs_eq, abs_eq]
  refine ⟨?_, ?_, ?_, hz⟩
  · intro w g' w' h
    obtain ⟨added, e, hs⟩ := setupLevel_safeAdds g w g' w' h
    refine ⟨added, by rw [e], fun p hp hin => hs p hp ((hz p).2 hin)⟩
  · intro hR p hp hin
    exact reachable_safe g hR p hp ((hz p).2 hin)
  · intro fuel w g' w' hL hn
    obtain ⟨gs, ws, h1, h2, h3, _, _⟩ := nextLevel_obstacles fuel g w g' w' hL hn
    exact ⟨gs, ws, h1, h3, h2⟩

theorem safe_zone_witness :
    (nextLevel 3 crossGame tickWorld).map (fun r => r.1.Level) = some 5 ∧
      (nextLevel 3 crossGame tickWorld).map
        (fun r => decide (r.1.Obstacles.length = 46 ∧
          ∀ p ∈ r.1.Obstacles, ¬ InSafeZone r.1 p)) = some true ∧
      ∀ p : Position, InSafeZone crossGame p ↔
        (|p.X - crossGame.Width.tdiv 2| ≤ 2 ∧ |p.Y - crossGame.Height.tdiv 2| ≤ 2) :=
  ⟨by decide, by decide, (safe_zone crossGame).2.2.2⟩

/-- C21. On a grid with positive width and height, every game that
`spawnAlerts` returns is the old game with alerts appended after the ones
already present, which keep their order; every appended alert lies in
`[0, Width) × [0, Height)` and differs from the commander cell, from every
trail cell and from every obstacle cell. The call returns as soon as the
sampled cells contain enough free ones to fill the list up to three. -/
theorem spawnAlerts_free_cells (fuel : Nat) (g : Game) (w : World)
    (hW : 0 < g.Width) (hH : 0 < g.Height) :
    (∀ g' w', spawnAlerts fuel g w = some (g', w') →
      ∃ added, g' = { g with Alerts := g.Alerts ++ added } ∧
        ∀ p ∈ added, (0 ≤ p.X ∧ p.X < g.Width ∧ 0 ≤ p.Y ∧ p.Y < g.Height) ∧
          p ≠ g.Commander ∧ p ∉ g.Trail ∧ p ∉ g.Obstacles) ∧
    (3 ≤ g.Alerts.length + freeSamples g w fuel →
      ∃ g' w', spawnAlerts fuel g w = some (g', w')) := by
  constructor
  · intro g' w' h
    obtain ⟨added, h1, _, h3⟩ := spawnAlerts_added fuel g w g' w' h
    obtain ⟨h4, _⟩ := spawnAlerts_spec fuel g w g' w' h
    refine ⟨added, ?_, fun p hp => ?_⟩
    · rw [h4, h1]
    · obtain ⟨a, b⟩ := h3 p hp
      exact ⟨b, (not_occupied_iff g p).1 a⟩
  · intro hf
    have hs := spawnAlerts_isSome fuel g w hW hH hf
    obtain ⟨r, hr⟩ := Option.isSome_iff_exists.1 hs
    exact ⟨r.1, r.2, hr⟩

theorem spawnAlerts_free_cells_witness :
    (0 : Int) < wallGame.Width ∧ (0 : Int) < wallGame.Height ∧
      ∃ g' w', spawnAlerts 2 { wallGame with Alerts := [⟨1, 1⟩] } tickWorld = some (g', w') :=
  ⟨by decide, by decide,
    (spawnAlerts_free_cells 2 { wallGame with Alerts := [⟨1, 1⟩] } tickWorld
      (by decide) (by decide)).2 (by decide)⟩

theorem sampled_zero (w : World) : Sampled w w 0 := rfl

theorem sampled_succ {w1 w' : World} {m : Nat} (w : World)
    (h1 : w1 = { { w with drawn := w.drawn + 1 } with drawn := w.drawn + 1 + 1 })
    (h : Sampled w1 w' m) : Sampled w w' (m + 1) := by
  unfold Sampled at *
  rw [h, h1]
  show ({ w with drawn := w.drawn + 1 + 1 + 2 * m } : World) = _
  congr 1
  omega

theorem sampled_add {w w1 w2 : World} {m n : Nat} (h1 : Sampled w w1 m) (h2 : Sampled w1 w2 n) :
    Sampled w w2 (m + n) := by
  unfold Sampled at *
  rw [h2, h1]
  show ({ w with drawn := w.drawn + 2 * m + 2 * n } : World) = _
  congr 1
  omega

/-- One obstacle: the inner loop samples at most `n` cells and appends at most
one cell, a placeable one. -/
theorem placeRandomObstacle_adds (n : Nat) : ∀ (g : Game) (w : World) (g' : Game)
    (w' : World), placeRandomObstacle n g w = some (g', w') →
      ∃ added m, g' = { g with Obstacles := g.Obstacles ++ added } ∧ added.length ≤ 1 ∧
        Sampled w w' m ∧ m ≤ n ∧ ∀ p ∈ added, Placeable g p := by
  induction n with
  | zero =>
    intro g w g' w' h
    unfold placeRandomObstacle at h
    simp only [Option.some.injEq, Prod.mk.injEq] at h
    obtain ⟨rfl, rfl⟩ := h
    exact ⟨[], 0, by simp, by simp, sampled_zero _, le_refl _,
      fun p hp => absurd hp (List.not_mem_nil _)⟩
  | succ k ih =>
    intro g w g' w' h
    unfold placeRandomObstacle at h
    cases hx : randIntn g.Width w with
    | none => simp [hx] at h
    | some px =>
      obtain ⟨x, w1⟩ := px
      simp only [hx] at h
      cases hy : randIntn g.Height w1 with
      | none => simp [hy] at h
      | some py =>
        obtain ⟨y, w2⟩ := py
        simp only [hy] at h
        obtain ⟨hW, hx1, hx2⟩ := randIntn_eq_some hx
        obtain ⟨hH, hy1, hy2⟩ := randIntn_eq_some hy
        have hw2 : w2 = { { w with drawn := w.drawn + 1 } with drawn := w.drawn + 1 + 1 } := by
          rw [hy2, hx2]
        split_ifs at h with hz ho
        · obtain ⟨added, m, a, b, c, d, e⟩ := ih g w2 g' w' h
          exact ⟨added, m + 1, a, b, sampled_succ w hw2 c, by omega, e⟩
        · simp only [Option.some.injEq, Prod.mk.injEq] at h
          obtain ⟨rfl, rfl⟩ := h
          refine ⟨[⟨x, y⟩], 1, rfl, le_refl _, sampled_succ w hw2 (sampled_zero _), by omega, ?_⟩
          intro p hp
          rw [List.mem_singleton] at hp
          subst hp
          have hfree : isPositionOccupied g ⟨x, y⟩ = false := by simpa using ho
          refine ⟨⟨?_, ?_, ?_, ?_⟩, hz, (not_occupied_iff g _).1 hfree⟩
          · show 0 ≤ x
            rw [hx1]; exact Int.emod_nonneg _ (by omega)
          · show x < g.Width
            rw [hx1]; exact Int.emod_lt_of_pos _ hW
          · show 0 ≤ y
            rw [hy1]; exact Int.emod_nonneg _ (by omega)
          · show y < g.Height
            rw [hy1]; exact Int.emod_lt_of_pos _ hH
        · obtain ⟨added, m, a, b, c, d, e⟩ := ih g w2 g' w' h
          exact ⟨added, m + 1, a, b, sampled_succ w hw2 c, by omega, e⟩

/-- The outer loop with `n` iterations left: at most `50 * n` sampled cells, at
most `n` obstacles appended after the existing ones, pairwise distinct and each
placeable in the game the loop started from. -/
theorem addRandomObstaclesLoop_adds (n : Nat) : ∀ (g : Game) (w : World) (g' : Game)
    (w' : World), addRandomObstaclesLoop n g w = some (g', w') →
      ∃ added m, g' = { g with Obstacles := g.Obstacles ++ added } ∧ added.length ≤ n ∧
        Sampled w w' m ∧ m ≤ 50 * n ∧ added.Nodup ∧ ∀ p ∈ added, Placeable g p := by
  induction n with
  | zero =>
    intro g w g' w' h
    unfold addRandomObstaclesLoop at h
    simp only [Option.some.injEq, Prod.mk.injEq] at h
    obtain ⟨rfl, rfl⟩ := h
    exact ⟨[], 0, by simp, by simp, sampled_zero _, le_refl _, List.nodup_nil,
      fun p hp => absurd hp (List.not_mem_nil _)⟩
  | succ k ih =>
    intro g w g' w' h
    unfold addRandomObstaclesLoop at h
    cases hp : placeRandomObstacle 50 g w with
    | none => simp [hp] at h
    | some q =>
      obtain ⟨g1, w1⟩ := q
      simp only [hp] at h
      obtain ⟨a1, m1, e1, l1, s1, b1, p1⟩ := placeRandomObstacle_adds 50 g w g1 w1 hp
      obtain ⟨a2, m2, e2, l2, s2, b2, n2, p2⟩ := ih g1 w1 g' w' h
      have hO : g1.Obstacles = g.Obstacles ++ a1 := by rw [e1]
      have hpl : ∀ p, Placeable g1 p → Placeable g p ∧ p ∉ a1 := by
        intro p hp1
        unfold Placeable InSafeZone at hp1 ⊢
        rw [e1] at hp1
        obtain ⟨c1, c2, c3, c4, c5⟩ := hp1
        have c5b : p ∉ g.Obstacles ++ a1 := c5
        rw [List.mem_append, not_or] at c5b
        exact ⟨⟨c1, c2, c3, c4, c5b.1⟩, c5b.2⟩
      refine ⟨a1 ++ a2, m1 + m2, ?_, ?_, sampled_add s1 s2, by omega, ?_, ?_⟩
      · rw [e2, e1]
        simp only [List.append_assoc]
      · rw [List.length_append]; omega
      · rw [List.nodup_append]
        refine ⟨?_, n2, ?_⟩
        · match a1, l1 with
          | [], _ => exact List.nodup_nil
          | [a], _ => exact List.nodup_singleton a
        · intro p hp1 hp2
          exact (hpl p (p2 p hp2)).2 hp1
      · intro p hp1
        rw [List.mem_append] at hp1
        rcases hp1 with hp1 | hp1
        · exact p1 p hp1
        · exact (hpl p (p2 p hp1)).1

/-- C22. Best-effort random obstacles: for `count ≥ 0`, in every game and
world, a call `addRandomObstacles(count)` that yields a game has sampled at
most `50 * count` cells and has appended at most `count` obstacles after the
existing ones, which keep their order; the appended cells are pairwise
distinct (each differs from those appended earlier in the call) and each lies
in the grid, outside the inclusive ±2 safe zone around the centre, and off the
commander, the trail and the obstacles the call started with. On a grid with
positive width and height the call always yields a game. -/
theorem addRandomObstacles_best_effort (count : Int) (g : Game) (w : World)
    (hc : 0 ≤ count) :
    (∀ g' w', addRandomObstacles count g w = some (g', w') →
      ∃ added m, g' = { g with Obstacles := g.Obstacles ++ added } ∧
        (added.length : Int) ≤ count ∧ Sampled w w' m ∧ (m : Int) ≤ 50 * count ∧
        added.Nodup ∧ ∀ p ∈ added, Placeable g p) ∧
    (0 < g.Width → 0 < g.Height → ∃ g' w', addRandomObstacles count g w = some (g', w')) := by
  unfold addRandomObstacles
  constructor
  · intro g' w' h
    obtain ⟨added, m, a, b, c, d, e, f⟩ := addRandomObstaclesLoop_adds _ g w g' w' h
    refine ⟨added, m, a, ?_, c, ?_, e, f⟩
    · have : ((count.toNat : Nat) : Int) = count := Int.toNat_of_nonneg hc
      omega
    · have : ((count.toNat : Nat) : Int) = count := Int.toNat_of_nonneg hc
      omega
  · intro hW hH
    exact addRandomObstaclesLoop_isSome _ g w hW hH

theorem addRandomObstacles_best_effort_witness :
    (0 : Int) ≤ 2 ∧
      addRandomObstacles 2 freshGame fiveWorld =
        some ({ freshGame with Obstacles := [⟨5, 5⟩] }, { fiveWorld with drawn := 102 }) ∧
      ∃ added m, ({ freshGame with Obstacles := [⟨5, 5⟩] } : Game) =
          { freshGame with Obstacles := freshGame.Obstacles ++ added } ∧
        (added.length : Int) ≤ 2 ∧ Sampled fiveWorld { fiveWorld with drawn := 102 } m ∧
        (m : Int) ≤ 50 * 2 ∧ added.Nodup ∧ ∀ p ∈ added, Placeable freshGame p :=
  ⟨by decide, rfl,
    (addRandomObstacles_best_effort 2 freshGame fiveWorld (by decide)).1 _ _ rfl⟩

theorem selfAvoiding_congr (g g' : Game) (hT : g'.Trail = g.Trail)
    (hC : g'.Commander = g.Commander) (hO : g'.Obstacles = g.Obstacles)
    (hW : g'.Width = g.Width) (hH : g'.Height = g.Height) (h : SelfAvoiding g) :
    SelfAvoiding g' := by
  unfold SelfAvoiding path InBounds at *
  rw [hT, hC, hO, hW, hH]
  exact h

/-- A game with an empty trail, the commander in bounds and off the obstacles
has a self-avoiding path. -/
theorem selfAvoiding_start (g : Game) (hT : g.Trail = []) (hB : InBounds g g.Commander)
    (hO : g.Commander ∉ g.Obstacles) : SelfAvoiding g := by
  unfold SelfAvoiding path
  rw [hT]
  refine ⟨?_, ?_, ?_, ?_⟩
  · intro p hp
    simp only [List.nil_append, List.mem_singleton] at hp
    rw [hp]; exact hB
  · simp
  · simp
  · intro p hp
    simp only [List.nil_append, List.mem_singleton] at hp
    rw [hp]; exact hO

/-- A step that moves lands at Manhattan distance 1. -/
theorem manhattan_nextCell (g : Game) (h : nextCell g ≠ g.Commander) :
    manhattan g.Commander (nextCell g) = 1 := by
  rw [nextCell_eq] at h ⊢
  unfold manhattan abs
  split_ifs at h ⊢ <;> first | omega | (simp only at *; omega) | exact absurd rfl h

/-- The move keeps the path self-avoiding when the collision check finds no
wall, trail or obstacle hit. -/
theorem selfAvoiding_move (g : Game) (h : SelfAvoiding g)
    (hok : ¬ (OutOfBounds (moveCommander g) (moveCommander g).Commander ∨
      (moveCommander g).Commander ∈ (moveCommander g).Trail ∨
      (moveCommander g).Commander ∈ (moveCommander g).Obstacles)) :
    SelfAvoiding (moveCommander g) := by
  rw [moveCommander_eq] at hok ⊢
  simp only [not_or] at hok
  obtain ⟨hb, ht, ho⟩ := hok
  obtain ⟨h1, h2, h3, h4⟩ := h
  unfold path at h1 h2 h3 h4
  have hb2 : InBounds g (nextCell g) := by
    unfold OutOfBounds at hb
    unfold InBounds
    simp only [not_or, not_lt, ge_iff_le, not_le] at hb
    exact ⟨hb.1, hb.2.1, hb.2.2.1, hb.2.2.2⟩
  have hne : nextCell g ≠ g.Commander := by
    intro e
    apply ht
    show nextCell g ∈ g.Trail ++ [g.Commander]
    rw [e]
    simp
  unfold SelfAvoiding path
  show (∀ p ∈ (g.Trail ++ [g.Commander]) ++ [nextCell g], InBounds g p) ∧
    ((g.Trail ++ [g.Commander]) ++ [nextCell g]).Nodup ∧
    ((g.Trail ++ [g.Commander]) ++ [nextCell g]).Chain' (fun a b => manhattan a b = 1) ∧
    ∀ p ∈ (g.Trail ++ [g.Commander]) ++ [nextCell g], p ∉ g.Obstacles
  refine ⟨?_, ?_, ?_, ?_⟩
  · intro p hp
    rw [List.mem_append, List.mem_singleton] at hp
    rcases hp with hp | hp
    · exact h1 p hp
    · rw [hp]; exact hb2
  · rw [List.nodup_append]
    refine ⟨h2, List.nodup_singleton _, ?_⟩
    intro p hp hq
    rw [List.mem_singleton] at hq
    rw [hq] at hp
    exact ht hp
  · refine List.Chain'.append h3 (List.chain'_singleton _) ?_
    intro x hx y hy
    simp only [List.getLast?_append, List.getLast?_singleton, Option.mem_def] at hx
    simp only [List.head?_cons, Option.mem_def, Option.some.injEq] at hy
    have hx2 : some g.Commander = some x := hx
    simp only [Option.some.injEq] at hx2
    rw [← hx2, ← hy]
    exact manhattan_nextCell g hne
  · intro p hp
    rw [List.mem_append, List.mem_singleton] at hp
    rcases hp with hp | hp
    · exact h4 p hp
    · rw [hp]; exact ho

theorem tdiv_two_bounds (n : Int) (h : 0 < n) : 0 ≤ n.tdiv 2 ∧ n.tdiv 2 < n := by
  rw [Int.tdiv_eq_ediv (le_of_lt h) (by decide)]
  omega

/-- A sampling loop that returns after starting below three alerts ran on a
grid with positive width and height. -/
theorem spawnAlerts_pos (fuel : Nat) (g : Game) (w : World) (g' : Game) (w' : World)
    (h : spawnAlerts fuel g w = some (g', w')) (hl : g.Alerts.length < 3) :
    0 < g.Width ∧ 0 < g.Height := by
  obtain ⟨added, _, h2, h3⟩ := spawnAlerts_added fuel g w g' w' h
  have hne : added ≠ [] := by
    intro e
    rw [e] at h2
    simp only [List.length_nil] at h2
    omega
  obtain ⟨p, hp⟩ := List.exists_mem_of_ne_nil added hne
  obtain ⟨_, a, b, c, d⟩ := h3 p hp
  exact ⟨by omega, by omega⟩

/-- The grid of a game that `New` returns has positive width and height. -/
theorem New_pos (fuel : Nat) (width height : Int) (w : World) (g : Game) (w' : World)
    (h : New fuel width height w = some (g, w')) : 0 < width ∧ 0 < height := by
  unfold New at h
  simp only at h
  cases hs : spawnAlerts fuel
      { Width := width, Height := height, Commander := ⟨width.tdiv 2, height.tdiv 2⟩,
        Trail := [], Alerts := [], Obstacles := [], Direction := Right,
        State := .Playing, Score := 0, Level := 1, AlertsCollected := 0, AlertsNeeded := 5,
        StartTime := (timeNow (timeNow w).2).1, LastUpdate := (timeNow (timeNow (timeNow w).2).2).1,
        LevelCompleteTime := 0 } (timeNow (timeNow (timeNow w).2).2).2 with
  | none => simp [hs] at h
  | some p =>
    obtain ⟨g1, w1⟩ := p
    exact spawnAlerts_pos fuel _ _ _ _ hs (Nat.zero_lt_succ 2)

/-- The path of a new game is self-avoiding. -/
theorem new_selfAvoiding (fuel : Nat) (width height : Int) (w : World) (g : Game) (w' : World)
    (h : New fuel width height w = some (g, w')) : SelfAvoiding g := by
  obtain ⟨hW, hH⟩ := New_pos fuel width height w g w' h
  obtain ⟨h1, _⟩ := New_spec fuel width height w g w' h
  have eT : g.Trail = [] := by rw [h1]
  have eO : g.Obstacles = [] := by rw [h1]
  have eC : g.Commander = ⟨width.tdiv 2, height.tdiv 2⟩ := by rw [h1]
  have eW : g.Width = width := by rw [h1]
  have eH : g.Height = height := by rw [h1]
  apply selfAvoiding_start g eT
  · unfold InBounds
    rw [eC, eW, eH]
    have a := tdiv_two_bounds width hW
    have b := tdiv_two_bounds height hH
    exact ⟨a.1, a.2, b.1, b.2⟩
  · rw [eO]
    exact List.not_mem_nil _

/-- The path of the game `nextLevel` returns below level 10 is self-avoiding:
the commander alone, on the centre cell, which holds no obstacle. -/
theorem nextLevel_selfAvoiding (fuel : Nat) (g : Game) (w : World) (gn : Game) (wn : World)
    (hL : g.Level < 10) (hn : nextLevel fuel g w = some (gn, wn)) : SelfAvoiding gn := by
  obtain ⟨hf, _⟩ := nextLevel_frame fuel g w gn wn hL hn
  obtain ⟨gs, ws, _, _, _, _, hsafe⟩ := nextLevel_obstacles fuel g w gn wn hL hn
  have eT : gn.Trail = [] := by rw [hf]; rfl
  have eC : gn.Commander = ⟨g.Width.tdiv 2, g.Height.tdiv 2⟩ := by rw [hf]; rfl
  have eW : gn.Width = g.Width := by rw [hf]; rfl
  have eH : gn.Height = g.Height := by rw [hf]; rfl
  have hpos : 0 < g.Width ∧ 0 < g.Height := by
    rw [nextLevel_eq fuel g w hL] at hn
    cases hs : setupLevel (levelStart g (timeNow w).1) (timeNow w).2 with
    | none => simp [hs] at hn
    | some q =>
      obtain ⟨gs2, ws2⟩ := q
      simp only [hs] at hn
      have hpos2 := spawnAlerts_pos fuel _ _ _ _ hn (Nat.zero_lt_succ 2)
      exact hpos2
  apply selfAvoiding_start gn eT
  · unfold InBounds
    rw [eC, eW, eH]
    have a := tdiv_two_bounds g.Width hpos.1
    have b := tdiv_two_bounds g.Height hpos.2
    exact ⟨a.1, a.2, b.1, b.2⟩
  · intro hmem
    apply hsafe gn.Commander hmem
    rw [eC]
    have := centre_inSafeZone g
    unfold InSafeZone at this ⊢
    rw [eW, eH]
    exact this

/-- The move and the collision check keep the path self-avoiding unless the
check ends the game. -/
theorem selfAvoiding_step (fuel : Nat) (g : Game) (w : World) (g' : Game) (w' : World)
    (h : checkCollisions fuel (moveCommander g) w = some (g', w')) (hp : SelfAvoiding g)
    (hS : g'.State ≠ .GameOver) : SelfAvoiding g' := by
  obtain ⟨c1, _, c3, _⟩ := checkCollisions_spec fuel _ _ _ _ h
  have hok : ¬ (OutOfBounds (moveCommander g) (moveCommander g).Commander ∨
      (moveCommander g).Commander ∈ (moveCommander g).Trail ∨
      (moveCommander g).Commander ∈ (moveCommander g).Obstacles) := by
    intro hhit
    apply hS
    rw [c1 hhit]
  exact selfAvoiding_congr (moveCommander g) g' (by rw [c3]) (by rw [c3]) (by rw [c3])
    (by rw [c3]) (by rw [c3]) (selfAvoiding_move g hp hok)

/-- A tick keeps the path self-avoiding unless it ends the game. -/
theorem update_selfAvoiding (fuel : Nat) (g : Game) (w : World) (g' : Game) (w' : World)
    (h : Update fuel g w = some (g', w')) (hs : Sound g)
    (ih : g.State ≠ .GameOver → SelfAvoiding g) (hS' : g'.State ≠ .GameOver) :
    SelfAvoiding g' := by
  obtain ⟨_, _, _, _, _, _, hgo⟩ := hs
  rcases update_cases fuel g w g' w' h with
    ⟨hA, _, e⟩ | ⟨hS, e⟩ | ⟨_, _, _, hL, gn, wn, hn, hc⟩ | ⟨_, _, _, e⟩ | ⟨hS, _, hc⟩
  · have hne : g.State ≠ .GameOver := by
      intro hg
      have := hgo hg
      omega
    exact selfAvoiding_congr g g' (by rw [e]) (by rw [e]) (by rw [e]) (by rw [e]) (by rw [e])
      (ih hne)
  · have hne : g.State ≠ .GameOver := by
      rw [hS]
      decide
    exact selfAvoiding_congr g g' (by rw [e]) (by rw [e]) (by rw [e]) (by rw [e]) (by rw [e])
      (ih hne)
  · exact selfAvoiding_step fuel gn wn g' w' hc
      (nextLevel_selfAvoiding fuel { g with LastUpdate := w.clock w.reads }
        { w with reads := w.reads + 1 + 1 } gn wn hL hn) hS'
  · have hne : g.State ≠ .GameOver := by
      intro hg
      apply hS'
      rw [e]
      exact hg
    exact selfAvoiding_congr g g' (by rw [e]) (by rw [e]) (by rw [e]) (by rw [e]) (by rw [e])
      (ih hne)
  · have hne : g.State ≠ .GameOver := by
      rw [hS]
      decide
    exact selfAvoiding_step fuel { g with LastUpdate := w.clock w.reads } _ g' w' hc
      (selfAvoiding_congr g _ rfl rfl rfl rfl rfl (ih hne)) hS'

/-- Every reachable game that is not over has a self-avoiding path. -/
theorem reachable_selfAvoiding (g : Game) (h : Reachable g) :
    g.State ≠ .GameOver → SelfAvoiding g := by
  induction h with
  | new fuel width height w g w' hn =>
    intro _
    exact new_selfAvoiding fuel width height w g w' hn
  | update fuel g w g' w' hr hu ih =>
    intro hS
    exact update_selfAvoiding fuel g w g' w' hu (reachable_sound g hr) ih hS
  | setDirection g dir _ ih =>
    unfold SetDirection
    split_ifs
    · intro hS
      exact selfAvoiding_congr g _ rfl rfl rfl rfl rfl (ih hS)
    · exact ih
  | pause g _ ih =>
    unfold Pause
    split_ifs with a b
    · intro _
      exact selfAvoiding_congr g _ rfl rfl rfl rfl rfl (ih (by rw [a]; decide))
    · intro _
      exact selfAvoiding_congr g _ rfl rfl rfl rfl rfl (ih (by rw [b]; decide))
    · exact ih
  | restart fuel g w g' w' _ hn _ =>
    intro _
    exact new_selfAvoiding fuel g.Width g.Height w g' w' hn

/-- C23. Self-avoiding path invariant: in every reachable game whose state is
not `GameOver`, the trail followed by the commander cell is a sequence of cells
of `[0, Width) × [0, Height)` that are pairwise distinct, each at Manhattan
distance 1 from the next, and none of them holds an obstacle. -/
theorem path_self_avoiding (g : Game) (hR : Reachable g) (hS : g.State ≠ .GameOver) :
    (∀ p ∈ path g, 0 ≤ p.X ∧ p.X < g.Width ∧ 0 ≤ p.Y ∧ p.Y < g.Height) ∧
    (path g).Nodup ∧
    (path g).Chain' (fun a b => |a.X - b.X| + |a.Y - b.Y| = 1) ∧
    (∀ p ∈ path g, p ∉ g.Obstacles) ∧ path g = g.Trail ++ [g.Commander] := by
  obtain ⟨h1, h2, h3, h4⟩ := reachable_selfAvoiding g hR hS
  refine ⟨h1, h2, ?_, h4, rfl⟩
  refine List.Chain'.imp ?_ h3
  intro a b hab
  unfold manhattan at hab
  rw [abs_eq, abs_eq] at hab
  exact hab

theorem path_self_avoiding_witness :
    Reachable quotaGame ∧ quotaGame.State ≠ .GameOver ∧
      path quotaGame = [⟨10, 10⟩, ⟨11, 10⟩, ⟨12, 10⟩, ⟨13, 10⟩, ⟨14, 10⟩, ⟨15, 10⟩] ∧
      (path quotaGame).Nodup ∧
      (path quotaGame).Chain' (fun a b => |a.X - b.X| + |a.Y - b.Y| = 1) :=
  ⟨quotaGame_reachable, by decide, rfl,
    (path_self_avoiding quotaGame quotaGame_reachable (by decide)).2.1,
    (path_self_avoiding quotaGame quotaGame_reachable (by decide)).2.2.1⟩

theorem tdiv_two_inner (n : Int) (h : 3 ≤ n) : 1 ≤ n.tdiv 2 ∧ n.tdiv 2 + 1 < n := by
  rw [Int.tdiv_eq_ediv (by omega) (by decide)]
  omega

/-- On a grid of at least 3 × 3 cells, the cell one step from the centre in any
of the four directions is in the grid, is not the centre, and lies in the safe
zone. -/
theorem nextCell_centre (g : Game) (hW : 3 ≤ g.Width) (hH : 3 ≤ g.Height)
    (hD : IsDirection g.Direction) :
    ¬ OutOfBounds g (nextCell { g with Commander := centre g }) ∧
      nextCell { g with Commander := centre g } ≠ centre g ∧
      InSafeZone g (nextCell { g with Commander := centre g }) := by
  have a := tdiv_two_inner g.Width hW
  have b := tdiv_two_inner g.Height hH
  rw [nextCell_eq]
  unfold OutOfBounds InSafeZone abs centre
  rcases hD with h | h | h | h
  · have e1 : ({ g with Commander := ⟨g.Width.tdiv 2, g.Height.tdiv 2⟩ } : Game).Direction = Up := h
    rw [if_pos e1]
    refine ⟨?_, ?_, ?_⟩
    · simp only [not_or, not_lt, ge_iff_le, not_le]; omega
    · intro e
      have := congrArg Position.Y e
      simp only at this
      omega
    · simp only; constructor <;> split_ifs <;> omega
  · have e1 : ({ g with Commander := ⟨g.Width.tdiv 2, g.Height.tdiv 2⟩ } : Game).Direction = Down := h
    rw [if_neg (by rw [e1]; decide), if_pos e1]
    refine ⟨?_, ?_, ?_⟩
    · simp only [not_or, not_lt, ge_iff_le, not_le]; omega
    · intro e
      have := congrArg Position.Y e
      simp only at this
      omega
    · simp only; constructor <;> split_ifs <;> omega
  · have e1 : ({ g with Commander := ⟨g.Width.tdiv 2, g.Height.tdiv 2⟩ } : Game).Direction = Left := h
    rw [if_neg (by rw [e1]; decide), if_neg (by rw [e1]; decide), if_pos e1]
    refine ⟨?_, ?_, ?_⟩
    · simp only [not_or, not_lt, ge_iff_le, not_le]; omega
    · intro e
      have := congrArg Position.X e
      simp only at this
      omega
    · simp only; constructor <;> split_ifs <;> omega
  · have e1 : ({ g with Commander := ⟨g.Width.tdiv 2, g.Height.tdiv 2⟩ } : Game).Direction = Right := h
    rw [if_neg (by rw [e1]; decide), if_neg (by rw [e1]; decide), if_neg (by rw [e1]; decide),
      if_pos e1]
    refine ⟨?_, ?_, ?_⟩
    · simp only [not_or, not_lt, ge_iff_le, not_le]; omega
    · intro e
      have := congrArg Position.X e
      simp only at this
      omega
    · simp only; constructor <;> split_ifs <;> omega

theorem nextCell_congr (a b : Game) (hD : a.Direction = b.Direction)
    (hC : a.Commander = b.Commander) : nextCell a = nextCell b := by
  rw [nextCell_eq, nextCell_eq, hD, hC]

/-- After `nextLevel` on a grid of at least 3 × 3 cells, with one of the four
directions set, the step of the same tick hits neither a wall nor the trail
nor an obstacle. -/
theorem nextLevel_step_clear (fuel : Nat) (g : Game) (w : World) (gn : Game) (wn : World)
    (hL : g.Level < 10) (hn : nextLevel fuel g w = some (gn, wn))
    (hW : 3 ≤ g.Width) (hH : 3 ≤ g.Height) (hD : IsDirection g.Direction) :
    ¬ (OutOfBounds (moveCommander gn) (moveCommander gn).Commander ∨
      (moveCommander gn).Commander ∈ (moveCommander gn).Trail ∨
      (moveCommander gn).Commander ∈ (moveCommander gn).Obstacles) := by
  obtain ⟨hf, _⟩ := nextLevel_frame fuel g w gn wn hL hn
  obtain ⟨gs, ws, _, _, _, _, hsafe⟩ := nextLevel_obstacles fuel g w gn wn hL hn
  have eT : gn.Trail = [] := by rw [hf]; rfl
  have eC : gn.Commander = centre g := by rw [hf]; rfl
  have eW : gn.Width = g.Width := by rw [hf]; rfl
  have eH : gn.Height = g.Height := by rw [hf]; rfl
  have eD : gn.Direction = g.Direction := by rw [hf]; rfl
  have eN : nextCell gn = nextCell { g with Commander := centre g } :=
    nextCell_congr gn { g with Commander := centre g } eD eC
  obtain ⟨n1, n2, n3⟩ := nextCell_centre g hW hH hD
  rw [moveCommander_eq]
  show ¬ (OutOfBounds gn (nextCell gn) ∨ nextCell gn ∈ gn.Trail ++ [gn.Commander] ∨
    nextCell gn ∈ gn.Obstacles)
  rw [eN, eT, eC]
  rintro (hb | ht | ho)
  · apply n1
    unfold OutOfBounds at hb ⊢
    rw [eW, eH] at hb
    exact hb
  · simp only [List.nil_append, List.mem_singleton] at ht
    exact n2 ht
  · apply hsafe _ ho
    unfold InSafeZone at n3 ⊢
    rw [eW, eH]
    exact n3

/-- Below level 10, on a grid with positive sides, `nextLevel` returns as soon
as the cells sampled after the layout contain three free ones. -/
theorem nextLevel_isSome (fuel : Nat) (g : Game) (w : World)
    (hL : g.Level < 10) (hW : 0 < g.Width) (hH : 0 < g.Height) :
    ∃ gs ws, setupLevel (levelStart g (timeNow w).1) (timeNow w).2 = some (gs, ws) ∧
      (3 ≤ freeSamples { (levelStart g (timeNow w).1) with
            Obstacles := gs.Obstacles.filter (fun o => decide (o ≠ centre g)) } ws fuel →
        ∃ gn wn, nextLevel fuel g w = some (gn, wn)) := by
  obtain ⟨gs, ws, hs⟩ := setupLevel_isSome (levelStart g (timeNow w).1) (timeNow w).2 hW hH
  refine ⟨gs, ws, hs, ?_⟩
  intro hfree
  rw [nextLevel_eq fuel g w hL, hs]
  simp only
  have hsome := spawnAlerts_isSome fuel _ ws
    (show 0 < ({ (levelStart g (timeNow w).1) with
      Obstacles := gs.Obstacles.filter (fun o => decide (o ≠ centre g)) } : Game).Width from hW)
    hH (le_trans hfree (Nat.le_add_left _ _))
  obtain ⟨r, hr⟩ := Option.isSome_iff_exists.1 hsome
  exact ⟨r.1, r.2, hr⟩

/-- C24. A level transition never kills the player: on a grid of at least
3 × 3 cells, below level 10 and with one of the four directions set, the tick
that advances the level (made in `LevelComplete`, one second or more after the
completion time) ends in `Playing`, never in `GameOver`, whatever the random
source yields: the commander is one step off the centre, with the centre as
the only trail cell. The tick yields a state as soon as the cells sampled
after the layout contain three free ones and, when the step collects an alert,
one more free cell is sampled for the respawn. -/
theorem advance_keeps_playing (fuel : Nat) (g : Game) (w : World)
    (hW : 3 ≤ g.Width) (hH : 3 ≤ g.Height) (hL : g.Level < 10)
    (hD : IsDirection g.Direction) (hS : g.State = .LevelComplete)
    (hA : g.AlertsNeeded ≤ g.AlertsCollected)
    (hT : Second ≤ w.clock (w.reads + 1) - g.LevelCompleteTime) :
    (∀ g' w', Update fuel g w = some (g', w') →
      g'.State = .Playing ∧ g'.State ≠ .GameOver ∧ g'.Level = g.Level + 1 ∧
        g'.Trail = [centre g] ∧ g'.Commander = nextCell { g with Commander := centre g }) ∧
    (∃ gs ws,
      setupLevel (levelStart { g with LastUpdate := w.clock w.reads } (w.clock (w.reads + 2)))
        { w with reads := w.reads + 3 } = some (gs, ws) ∧
      (3 ≤ freeSamples { (levelStart { g with LastUpdate := w.clock w.reads }
              (w.clock (w.reads + 2))) with
            Obstacles := gs.Obstacles.filter (fun o => decide (o ≠ centre g)) } ws fuel →
        ∃ gn wn, nextLevel fuel { g with LastUpdate := w.clock w.reads }
          { w with reads := w.reads + 1 + 1 } = some (gn, wn))) ∧
    (∀ gn wn, nextLevel fuel { g with LastUpdate := w.clock w.reads }
        { w with reads := w.reads + 1 + 1 } = some (gn, wn) →
      1 ≤ freeSamples (moveCommander gn) wn fuel →
      ∃ g' w', Update fuel g w = some (g', w')) := by
  refine ⟨?_, ?_, ?_⟩
  · intro g' w' hU
    obtain ⟨gn, wn, hn, hc⟩ := update_advance_spec fuel g w g' w' hS hA hT hL hU
    obtain ⟨f1, _, f3, f4, _⟩ := update_advance_fields fuel g w g' w' hS hA hT hL hU
    have hclear := nextLevel_step_clear fuel { g with LastUpdate := w.clock w.reads }
      { w with reads := w.reads + 1 + 1 } gn wn hL hn hW hH hD
    obtain ⟨_, c2, _⟩ := checkCollisions_spec fuel _ _ _ _ hc
    have hP : g'.State = .Playing := by
      rw [c2 hclear, moveCommander_eq]
      exact nextLevel_playing fuel { g with LastUpdate := w.clock w.reads }
        { w with reads := w.reads + 1 + 1 } gn wn hL hn
    refine ⟨hP, ?_, f1, f3, f4⟩
    rw [hP]
    decide
  · exact nextLevel_isSome fuel { g with LastUpdate := w.clock w.reads }
      { w with reads := w.reads + 1 + 1 } hL (by show 0 < g.Width; omega)
      (by show 0 < g.Height; omega)
  · intro gn wn hn hfree
    have hclear := nextLevel_step_clear fuel { g with LastUpdate := w.clock w.reads }
      { w with reads := w.reads + 1 + 1 } gn wn hL hn hW hH hD
    obtain ⟨hf, hlen⟩ := nextLevel_frame fuel { g with LastUpdate := w.clock w.reads }
      { w with reads := w.reads + 1 + 1 } gn wn hL hn
    have eW : gn.Width = g.Width := by rw [hf]; rfl
    have eH : gn.Height = g.Height := by rw [hf]; rfl
    rw [update_advance fuel g w hS hA hT hL, hn]
    simp only
    rw [checkCollisions_clear fuel _ _ hclear]
    have hAl : (moveCommander gn).Alerts = gn.Alerts := by rw [moveCommander_eq]
    cases hfa : findAlert (moveCommander gn).Commander (moveCommander gn).Alerts with
    | none => exact ⟨_, _, rfl⟩
    | some i =>
      simp only
      have hi : i < (moveCommander gn).Alerts.length := findAlert_lt _ _ _ hfa
      refine collectAlert_isSome fuel (moveCommander gn) i wn ?_ ?_ hi ?_
      · rw [moveCommander_eq]
        show 0 < gn.Width
        omega
      · rw [moveCommander_eq]
        show 0 < gn.Height
        omega
      · rw [hAl, hlen]
        omega

theorem advance_keeps_playing_witness :
    (3 ≤ crossGame.Width ∧ 3 ≤ crossGame.Height ∧ crossGame.Level < 10 ∧
      IsDirection crossGame.Direction ∧ crossGame.State = .LevelComplete ∧
      crossGame.AlertsNeeded ≤ crossGame.AlertsCollected ∧
      Second ≤ tickWorld.clock (tickWorld.reads + 1) - crossGame.LevelCompleteTime) ∧
    (Update 3 crossGame tickWorld).map
      (fun r => (r.1.State, r.1.Level, r.1.Trail, r.1.Commander)) =
        some (.Playing, 5, [⟨10, 10⟩], ⟨11, 10⟩) ∧
    ∀ g' w', Update 3 crossGame tickWorld = some (g', w') →
      g'.State = .Playing ∧ g'.State ≠ .GameOver ∧ g'.Level = crossGame.Level + 1 ∧
        g'.Trail = [centre crossGame] ∧
        g'.Commander = nextCell { crossGame with Commander := centre crossGame } :=
  ⟨by decide, by decide,
    (advance_keeps_playing 3 crossGame tickWorld (by decide) (by decide) (by decide)
      (by decide) (by decide) (by decide) (by decide)).1⟩

/-- C1. In a running level that is not yet complete, let `c` be the cell one
step from the commander in the current direction (`Y - 1` for `Up`, `Y + 1` for
`Down`, `X - 1` for `Left`, `X + 1` for `Right`). A tick ends in `GameOver`
exactly when `c` is outside `[0, Width) × [0, Height)`, or is a trail cell (the
cell just left included), or is an obstacle cell; in every other case the
state is still `Playing`. After the tick the commander stands on `c` (whose
coordinates fit Go's `int` unless the commander stood on the very edge of the
`int` range) and the cell it left is the last trail cell. The tick yields a state whenever `c` is
blocked, whenever `c` holds no alert, and, when an alert is collected, as soon
as the sampled cells contain enough free ones to refill the alert list. -/
theorem update_gameOver_iff_collides (fuel : Nat) (g : Game) (w : World) (c : Position)
    (hS : g.State = .Playing) (hA : g.AlertsCollected < g.AlertsNeeded)
    (hc : c =
      if g.Direction = Up then ⟨g.Commander.X, g.Commander.Y - 1⟩
      else if g.Direction = Down then ⟨g.Commander.X, g.Commander.Y + 1⟩
      else if g.Direction = Left then ⟨g.Commander.X - 1, g.Commander.Y⟩
      else if g.Direction = Right then ⟨g.Commander.X + 1, g.Commander.Y⟩
      else g.Commander) :
    (∀ g' w', Update fuel g w = some (g', w') →
      (g'.State = .GameOver ↔ Blocked g c) ∧ (¬ Blocked g c → g'.State = .Playing) ∧
      (FitsInt c.X → FitsInt c.Y → g'.Commander = c) ∧
      g'.Trail = g.Trail ++ [g.Commander]) ∧
    (Blocked g c → ∃ g' w', Update fuel g w = some (g', w')) ∧
    (¬ Blocked g c → c ∉ g.Alerts → ∃ g' w', Update fuel g w = some (g', w')) ∧
    (¬ Blocked g c →
      3 ≤ (g.Alerts.length - 1) +
        freeSamples { g with Trail := g.Trail ++ [g.Commander], Commander := c } w fuel →
      ∃ g' w', Update fuel g w = some (g', w')) := by
  have hcn : c = nextCell g := by rw [hc, nextCell_eq]
  have hB : Blocked g c ↔ Collides g := by
    rw [hcn]
    exact Iff.rfl
  have hm : ({ g with Trail := g.Trail ++ [g.Commander], Commander := c } : Game) =
      moveCommander g := by
    rw [moveCommander_eq, hcn]
  obtain ⟨o1, o2, o3, o4⟩ := update_playing_outcome fuel g w hS hA
  refine ⟨?_, fun h => o2 (hB.1 h), fun h hn => o3 (fun e => h (hB.2 e)) (by rw [← hcn]; exact hn),
    fun h hf => o4 (fun e => h (hB.2 e)) (by rw [← hm]; exact hf)⟩
  intro g' w' hU
  obtain ⟨a, b⟩ := o1 g' w' hU
  obtain ⟨f1, f2, _⟩ := update_playing_fields fuel g w g' w' hS hA hU
  exact ⟨a.trans hB.symm, fun h => b (fun e => h (hB.2 e)), fun _ _ => by rw [f1, hcn], f2⟩

theorem update_gameOver_iff_collides_witness :
    (wallGame.State = .Playing ∧ wallGame.AlertsCollected < wallGame.AlertsNeeded ∧
      Blocked wallGame ⟨20, 10⟩ ∧
      ∃ g' w', Update 0 wallGame tickWorld = some (g', w') ∧ g'.State = .GameOver) ∧
    (freshGame.State = .Playing ∧ freshGame.AlertsCollected < freshGame.AlertsNeeded ∧
      ¬ Blocked freshGame ⟨11, 10⟩ ∧
      ∃ g' w', Update 0 freshGame tickWorld = some (g', w') ∧ g'.State = .Playing ∧
        g'.Commander = ⟨11, 10⟩ ∧ g'.Trail = [⟨10, 10⟩]) := by
  refine ⟨⟨by decide, by decide, by decide, ?_⟩, ⟨by decide, by decide, by decide, ?_⟩⟩
  · have h := update_gameOver_iff_collides 0 wallGame tickWorld ⟨20, 10⟩ (by decide)
      (by decide) (by decide)
    obtain ⟨g', w', hU⟩ := h.2.1 (by decide)
    exact ⟨g', w', hU, (h.1 g' w' hU).1.2 (by decide)⟩
  · have h := update_gameOver_iff_collides 0 freshGame tickWorld ⟨11, 10⟩ (by decide)
      (by decide) (by decide)
    obtain ⟨g', w', hU⟩ := h.2.2.1 (by decide) (by decide)
    obtain ⟨_, b, c, d⟩ := h.1 g' w' hU
    exact ⟨g', w', hU, b (by decide), c (by decide) (by decide), d⟩

/-- The grid on which `nextLevel` returns below level 10 has positive width
and height. -/
theorem nextLevel_pos (fuel : Nat) (g : Game) (w : World) (gn : Game) (wn : World)
    (hL : g.Level < 10) (hn : nextLevel fuel g w = some (gn, wn)) :
    0 < g.Width ∧ 0 < g.Height := by
  rw [nextLevel_eq fuel g w hL] at hn
  cases hs : setupLevel (levelStart g (timeNow w).1) (timeNow w).2 with
  | none => simp [hs] at hn
  | some q =>
    obtain ⟨gs2, ws2⟩ := q
    simp only [hs] at hn
    have hpos2 := spawnAlerts_pos fuel _ _ _ _ hn (Nat.zero_lt_succ 2)
    exact hpos2

/-- The tick that advances the level yields a state once `nextLevel` has
returned and, in case the step of the same tick collects an alert, one free
cell is sampled for the respawn. -/
theorem update_advance_isSome (fuel : Nat) (g : Game) (w : World)
    (hS : g.State = .LevelComplete) (hA : g.AlertsNeeded ≤ g.AlertsCollected)
    (hT : Second ≤ w.clock (w.reads + 1) - g.LevelCompleteTime) (hL : g.Level < 10)
    (gn : Game) (wn : World)
    (hn : nextLevel fuel { g with LastUpdate := w.clock w.reads }
      { w with reads := w.reads + 1 + 1 } = some (gn, wn))
    (hfree : 1 ≤ freeSamples (moveCommander gn) wn fuel) :
    ∃ g' w', Update fuel g w = some (g', w') := by
  obtain ⟨hf, hlen⟩ := nextLevel_frame fuel { g with LastUpdate := w.clock w.reads }
    { w with reads := w.reads + 1 + 1 } gn wn hL hn
  obtain ⟨hW, hH⟩ := nextLevel_pos fuel { g with LastUpdate := w.clock w.reads }
    { w with reads := w.reads + 1 + 1 } gn wn hL hn
  have eW : gn.Width = g.Width := by rw [hf]; rfl
  have eH : gn.Height = g.Height := by rw [hf]; rfl
  rw [update_advance fuel g w hS hA hT hL, hn]
  simp only
  by_cases hit : OutOfBounds (moveCommander gn) (moveCommander gn).Commander ∨
      (moveCommander gn).Commander ∈ (moveCommander gn).Trail ∨
      (moveCommander gn).Commander ∈ (moveCommander gn).Obstacles
  · rw [checkCollisions_hit fuel _ _ hit]
    exact ⟨_, _, rfl⟩
  · rw [checkCollisions_clear fuel _ _ hit]
    have hAl : (moveCommander gn).Alerts = gn.Alerts := by rw [moveCommander_eq]
    cases hfa : findAlert (moveCommander gn).Commander (moveCommander gn).Alerts with
    | none => exact ⟨_, _, rfl⟩
    | some i =>
      simp only
      have hi : i < (moveCommander gn).Alerts.length := findAlert_lt _ _ _ hfa
      refine collectAlert_isSome fuel (moveCommander gn) i wn ?_ ?_ hi ?_
      · rw [moveCommander_eq]
        show 0 < gn.Width
        rw [eW]
        exact hW
      · rw [moveCommander_eq]
        show 0 < gn.Height
        rw [eH]
        exact hH
      · rw [hAl, hlen]
        omega

/-- C5 (amended). Level-advance scenario: for a level-1 game in `LevelComplete`
with 5 of 5 alerts, the tick made one second or more after the completion time
leaves level 2, 6 alerts needed, no obstacle, the centre cell as the only trail
element and the commander one step off the centre in the current direction
(the advancing tick also moves); the state is `GameOver` exactly when that
step leaves the grid or does not move, and `Playing` otherwise. That tick
yields a state: `nextLevel` returns as soon as the sampled cells contain three
cells other than the centre, and the tick returns after it, given one more
free cell for the respawn in case the step collects an alert. A tick made
less than one second after the completion time leaves the game in
`LevelComplete` at level 1. -/
theorem update_level1_advance (fuel : Nat) (g : Game) (w : World)
    (hLv : g.Level = 1) (hS : g.State = .LevelComplete)
    (hC : g.AlertsCollected = 5) (hN : g.AlertsNeeded = 5) :
    (Second ≤ w.clock (w.reads + 1) - g.LevelCompleteTime →
      (∀ g' w', Update fuel g w = some (g', w') →
        g'.Level = 2 ∧ g'.AlertsNeeded = 6 ∧ g'.Obstacles = [] ∧
        g'.Trail = [⟨g.Width.tdiv 2, g.Height.tdiv 2⟩] ∧
        g'.Commander =
          (if g.Direction = Up then ⟨g.Width.tdiv 2, g.Height.tdiv 2 - 1⟩
           else if g.Direction = Down then ⟨g.Width.tdiv 2, g.Height.tdiv 2 + 1⟩
           else if g.Direction = Left then ⟨g.Width.tdiv 2 - 1, g.Height.tdiv 2⟩
           else if g.Direction = Right then ⟨g.Width.tdiv 2 + 1, g.Height.tdiv 2⟩
           else ⟨g.Width.tdiv 2, g.Height.tdiv 2⟩) ∧
        (g'.State = .GameOver ↔ (OutOfBounds g g'.Commander ∨ g'.Commander = centre g)) ∧
        (g'.State ≠ .GameOver → g'.State = .Playing)) ∧
      (0 < g.Width → 0 < g.Height →
        3 ≤ freeSamples (levelStart { g with LastUpdate := w.clock w.reads }
          (w.clock (w.reads + 2))) { w with reads := w.reads + 3 } fuel →
        ∃ gn wn, nextLevel fuel { g with LastUpdate := w.clock w.reads }
          { w with reads := w.reads + 1 + 1 } = some (gn, wn)) ∧
      (∀ gn wn, nextLevel fuel { g with LastUpdate := w.clock w.reads }
          { w with reads := w.reads + 1 + 1 } = some (gn, wn) →
        1 ≤ freeSamples (moveCommander gn) wn fuel →
        ∃ g' w', Update fuel g w = some (g', w'))) ∧
    (w.clock (w.reads + 1) - g.LevelCompleteTime < Second →
      ∃ g' w', Update fuel g w = some (g', w') ∧ g'.State = .LevelComplete ∧ g'.Level = 1 ∧
        g' = { g with LastUpdate := w.clock w.reads }) := by
  have hA : g.AlertsNeeded ≤ g.AlertsCollected := by omega
  have hL : g.Level < 10 := by omega
  constructor
  · intro hT
    refine ⟨?_, ?_, ?_⟩
    · intro g' w' hU
      obtain ⟨h1, h2, h3, h4, h5, h6, _⟩ := update_advance_fields fuel g w g' w' hS hA hT hL hU
      obtain ⟨gn, wn, hn, hc⟩ := update_advance_spec fuel g w g' w' hS hA hT hL hU
      have hO : g'.Obstacles = [] := by
        obtain ⟨_, _, c3, _⟩ := checkCollisions_spec fuel _ _ _ _ hc
        rw [c3, moveCommander_eq]
        show gn.Obstacles = []
        rw [nextLevel_eq fuel { g with LastUpdate := w.clock w.reads }
          { w with reads := w.reads + 1 + 1 } hL, setupLevel_open _ _ (Or.inl (by
          show g.Level + 1 < 3
          omega))] at hn
        simp only at hn
        obtain ⟨s1, _⟩ := spawnAlerts_spec fuel _ _ _ _ hn
        rw [s1]
        rfl
      rw [hO] at h5
      refine ⟨by omega, by omega, hO, h3, ?_, ?_, h6⟩
      · rw [h4, nextCell_eq]
        rfl
      · simpa using h5
    · intro hW hH hfree
      obtain ⟨gs, ws, hs, hret⟩ := nextLevel_isSome fuel { g with LastUpdate := w.clock w.reads }
        { w with reads := w.reads + 1 + 1 } hL hW hH
      rw [setupLevel_open _ _ (Or.inl (by
        show g.Level + 1 < 3
        omega))] at hs
      simp only [Option.some.injEq, Prod.mk.injEq] at hs
      obtain ⟨rfl, rfl⟩ := hs
      exact hret hfree
    · intro gn wn hn hfree
      exact update_advance_isSome fuel g w hS hA hT hL gn wn hn hfree
  · intro hT
    obtain ⟨w', hw⟩ := update_waiting fuel g w hS (Or.inr (Or.inl hT))
    exact ⟨_, w', hw, hS, hLv, rfl⟩

theorem update_level1_advance_witness :
    (frozenGame.Level = 1 ∧ frozenGame.State = .LevelComplete ∧
      frozenGame.AlertsCollected = 5 ∧ frozenGame.AlertsNeeded = 5 ∧
      Second ≤ tickWorld.clock (tickWorld.reads + 1) - frozenGame.LevelCompleteTime) ∧
    ∃ g' w', Update 3 frozenGame tickWorld = some (g', w') ∧
      g'.Level = 2 ∧ g'.AlertsNeeded = 6 ∧ g'.Obstacles = [] ∧ g'.Trail = [⟨10, 10⟩] ∧
      g'.Commander = ⟨11, 10⟩ ∧ g'.State = .Playing := by
  refine ⟨⟨by decide, by decide, by decide, by decide, by decide⟩, ?_⟩
  have h := (update_level1_advance 3 frozenGame tickWorld (by decide) (by decide)
    (by decide) (by decide)).1 (by decide)
  obtain ⟨g', w', hU⟩ := h.2.2
    { (levelStart { frozenGame with LastUpdate := 0 } 2000000000) with
      Alerts := [⟨11, 10⟩, ⟨12, 10⟩, ⟨13, 10⟩] }
    { tickWorld with reads := 3, drawn := 6 } rfl (by decide)
  obtain ⟨a, b, c, d, e, f, k⟩ := h.1 g' w' hU
  have e2 : g'.Commander = ⟨11, 10⟩ := by rw [e]; decide
  refine ⟨g', w', hU, a, b, c, d, e2, k ?_⟩
  intro hgo
  have := f.1 hgo
  rw [e2] at this
  revert this
  decide

/-- The package's `max` is the maximum of the two integers. -/
theorem max_eq (a b : Int) : max a b = Max.max a b := by
  unfold max
  split_ifs with h
  · exact (max_eq_left (le_of_lt h)).symm
  · exact (max_eq_right (not_lt.1 h)).symm

/-- For a duration that is not negative, `seconds` is the number `s` of whole
seconds it contains. -/
theorem seconds_eq (d s : Int) (h0 : 0 ≤ s) (h1 : s * 1000000000 ≤ d)
    (h2 : d < (s + 1) * 1000000000) : seconds d = s := by
  unfold seconds Second
  rw [Int.tdiv_eq_ediv (by omega) (by decide)]
  omega

/-- C4 (amended). Completion bonus: when the quota is met and the state is not
yet `LevelComplete`, the tick returns with `LevelComplete`, adds exactly
`100 * Level + max(0, 60 - s)` to the score, `s ≥ 0` being the whole number of
seconds elapsed since `StartTime`, records the completion time and moves
nothing. No tick made in `LevelComplete` adds a bonus: the score is unchanged
by every such tick that does not advance the level, and the tick that
advances the level changes it by nothing or by the ten points of the first
alert of the new level. A tick in `LevelComplete` that does not advance always
yields a state; the advancing one does as soon as the cells sampled after the
layout contain three free ones (and one more free cell for the respawn when
the step collects an alert). The statement is about games in which the sums
involved fit Go's `int`, so that no addition wraps. -/
theorem update_completion_bonus (fuel : Nat) (g : Game) (w : World) (s : Int)
    (hA : g.AlertsNeeded ≤ g.AlertsCollected) (hS : g.State ≠ .LevelComplete)
    (h0 : 0 ≤ s)
    (hs : s * 1000000000 ≤ w.clock (w.reads + 1) - g.StartTime ∧
      w.clock (w.reads + 1) - g.StartTime < (s + 1) * 1000000000)
    (hfit : FitsInt (100 * g.Level) ∧ FitsInt (100 * g.Level + 60) ∧
      FitsInt (g.Score + 100 * g.Level) ∧ FitsInt (g.Score + (100 * g.Level + 60))) :
    (∃ g1 w1, Update fuel g w = some (g1, w1) ∧ g1.State = .LevelComplete ∧
      g1.Score = g.Score + (100 * g.Level + Max.max 0 (60 - s)) ∧
      FitsInt (100 * g.Level + Max.max 0 (60 - s)) ∧ FitsInt g1.Score ∧
      g1.LevelCompleteTime = w.clock (w.reads + 2) ∧
      g1.Commander = g.Commander ∧ g1.Trail = g.Trail ∧ g1.Alerts = g.Alerts ∧
      g1.Obstacles = g.Obstacles ∧ g1.Level = g.Level ∧
      g1.AlertsCollected = g.AlertsCollected ∧ g1.AlertsNeeded = g.AlertsNeeded ∧
      g1.Direction = g.Direction) ∧
    (∀ (fuel2 : Nat) (g2 : Game) (w2 : World),
      g2.State = .LevelComplete → FitsInt g2.Score → FitsInt (g2.Score + 10) →
      (∀ g' w', Update fuel2 g2 w2 = some (g', w') →
        ((g2.AlertsCollected < g2.AlertsNeeded ∨
            w2.clock (w2.reads + 1) - g2.LevelCompleteTime < Second ∨ 10 ≤ g2.Level) →
          g'.Score = g2.Score) ∧
        (g'.Score = g2.Score ∨
          (g'.Score = g2.Score + 10 ∧ g'.Level = g2.Level + 1 ∧ g'.AlertsCollected = 1))) ∧
      ((g2.AlertsCollected < g2.AlertsNeeded ∨
          w2.clock (w2.reads + 1) - g2.LevelCompleteTime < Second ∨ 10 ≤ g2.Level) →
        ∃ g' w', Update fuel2 g2 w2 = some (g', w') ∧ g'.Score = g2.Score) ∧
      (g2.AlertsNeeded ≤ g2.AlertsCollected →
        Second ≤ w2.clock (w2.reads + 1) - g2.LevelCompleteTime → g2.Level < 10 →
        (0 < g2.Width → 0 < g2.Height →
          ∃ gs ws,
            setupLevel (levelStart { g2 with LastUpdate := w2.clock w2.reads }
              (w2.clock (w2.reads + 2))) { w2 with reads := w2.reads + 3 } = some (gs, ws) ∧
            (3 ≤ freeSamples { (levelStart { g2 with LastUpdate := w2.clock w2.reads }
                  (w2.clock (w2.reads + 2))) with
                Obstacles := gs.Obstacles.filter (fun o => decide (o ≠ centre g2)) } ws fuel2 →
              ∃ gn wn, nextLevel fuel2 { g2 with LastUpdate := w2.clock w2.reads }
                { w2 with reads := w2.reads + 1 + 1 } = some (gn, wn))) ∧
        (∀ gn wn, nextLevel fuel2 { g2 with LastUpdate := w2.clock w2.reads }
            { w2 with reads := w2.reads + 1 + 1 } = some (gn, wn) →
          1 ≤ freeSamples (moveCommander gn) wn fuel2 →
          ∃ g' w', Update fuel2 g2 w2 = some (g', w')))) := by
  constructor
  · have hb : max 0 (60 - seconds (w.clock (w.reads + 1) - g.StartTime)) =
        Max.max 0 (60 - s) := by
      rw [seconds_eq _ s h0 hs.1 hs.2, max_eq]
    have hrange : (0 : Int) ≤ Max.max 0 (60 - s) ∧ Max.max (0 : Int) (60 - s) ≤ 60 :=
      ⟨le_max_left _ _, max_le (by norm_num) (by omega)⟩
    refine ⟨_, _, update_complete fuel g w hA hS, rfl, ?_, ?_, ?_, rfl, rfl, rfl, rfl, rfl, rfl,
      rfl, rfl, rfl⟩
    · show g.Score + (100 * g.Level +
        max 0 (60 - seconds (w.clock (w.reads + 1) - g.StartTime))) = _
      rw [hb]
    · unfold FitsInt at hfit ⊢
      omega
    · show FitsInt (g.Score + (100 * g.Level +
        max 0 (60 - seconds (w.clock (w.reads + 1) - g.StartTime))))
      rw [hb]
      unfold FitsInt at hfit ⊢
      omega
  · intro fuel2 g2 w2 hS2 _ _
    refine ⟨?_, ?_, ?_⟩
    rotate_left
    · intro hwait
      obtain ⟨w3, h3⟩ := update_waiting fuel2 g2 w2 hS2 hwait
      exact ⟨_, w3, h3, rfl⟩
    · intro hA2 hT2 hL2
      refine ⟨fun hW hH => ?_, fun gn wn hn hfree =>
        update_advance_isSome fuel2 g2 w2 hS2 hA2 hT2 hL2 gn wn hn hfree⟩
      exact nextLevel_isSome fuel2 { g2 with LastUpdate := w2.clock w2.reads }
        { w2 with reads := w2.reads + 1 + 1 } hL2 hW hH
    intro g' w' hU
    by_cases hwait : g2.AlertsCollected < g2.AlertsNeeded ∨
        w2.clock (w2.reads + 1) - g2.LevelCompleteTime < Second ∨ 10 ≤ g2.Level
    · obtain ⟨w3, h3⟩ := update_waiting fuel2 g2 w2 hS2 hwait
      rw [h3] at hU
      simp only [Option.some.injEq, Prod.mk.injEq] at hU
      obtain ⟨rfl, _⟩ := hU
      exact ⟨fun _ => rfl, Or.inl rfl⟩
    · have hA2 : g2.AlertsNeeded ≤ g2.AlertsCollected := by
        by_contra hc
        exact hwait (Or.inl (by omega))
      have hT2 : Second ≤ w2.clock (w2.reads + 1) - g2.LevelCompleteTime := by
        by_contra hc
        exact hwait (Or.inr (Or.inl (by omega)))
      have hL2 : g2.Level < 10 := by
        by_contra hc
        exact hwait (Or.inr (Or.inr (by omega)))
      obtain ⟨h1, _, _, _, _, _, h7, _⟩ :=
        update_advance_fields fuel2 g2 w2 g' w' hS2 hA2 hT2 hL2 hU
      refine ⟨fun hw => absurd hw hwait, ?_⟩
      rcases h7 with ⟨a, _⟩ | ⟨a, b⟩
      · exact Or.inl a
      · exact Or.inr ⟨a, h1, b⟩

theorem update_completion_bonus_witness :
    (quotaGame.AlertsNeeded ≤ quotaGame.AlertsCollected ∧ quotaGame.State ≠ .LevelComplete ∧
      (5 : Int) * 1000000000 ≤ 6000000000 - quotaGame.StartTime ∧
      (6000000000 : Int) - quotaGame.StartTime < (5 + 1) * 1000000000) ∧
    (Update 0 quotaGame { tickWorld with reads := 5 }).map
      (fun r => (r.1.State, r.1.Score, r.1.LevelCompleteTime)) =
        some (.LevelComplete, 150 + (100 * 1 + 55), 7000000000) ∧
    (Update 3 frozenGame tickWorld).map (fun r => (r.1.Level, r.1.Score)) =
      some (2, frozenGame.Score + 10) ∧
    ∃ g1 w1, Update 0 quotaGame { tickWorld with reads := 5 } = some (g1, w1) ∧
      g1.State = .LevelComplete ∧
      g1.Score = quotaGame.Score + (100 * quotaGame.Level + Max.max 0 (60 - 5)) :=
  ⟨⟨by decide, by decide, by decide, by decide⟩, by decide, by decide,
    (update_completion_bonus 0 quotaGame { tickWorld with reads := 5 } 5 (by decide)
      (by decide) (by decide) ⟨by decide, by decide⟩
      ⟨by decide, by decide, by decide, by decide⟩).1.imp
      (fun _ h => h.imp (fun _ h2 => ⟨h2.1, h2.2.1, h2.2.2.1⟩))⟩

/-- A loop with step 1 that stays below its bound runs through consecutive
integers. -/
theorem loopFrom_one (hi : Int) : ∀ (n : Nat) (x : Int), (∀ i : Nat, i < n → x + i < hi) →
    loopFrom hi 1 n x = (List.range n).map (fun (i : Nat) => x + (i : Int)) := by
  intro n
  induction n with
  | zero => intro x _; rfl
  | succ k ih =>
    intro x h
    have h0 : x < hi := by
      have := h 0 (Nat.succ_pos k)
      simpa using this
    unfold loopFrom
    rw [if_pos h0, ih (x + 1) (fun i hi2 => by
      have := h (i + 1) (Nat.succ_lt_succ hi2)
      push_cast at this
      omega), List.range_succ_eq_map, List.map_cons, List.map_map]
    congr 1
    · simp
    · apply List.map_congr_left
      intro i _
      simp only [Function.comp_apply, Nat.succ_eq_add_one]
      push_cast
      ring

/-- The values of `for x := lo; x < hi; x++`. -/
theorem forRange_one (lo hi : Int) :
    forRange lo hi 1 = (List.range (hi - lo).toNat).map (fun (i : Nat) => lo + (i : Int)) := by
  unfold forRange
  apply loopFrom_one
  intro i hi2
  have : (i : Int) < ((hi - lo).toNat : Int) := by exact_mod_cast hi2
  omega

/-- A loop whose body only appends obstacles, the same ones whatever the
obstacles so far, appends the obstacles of all its iterations in order. -/
theorem foldl_appends (f : Game → Int → Game) (h : Int → List Position) (W H : Int)
    (hf : ∀ a x, a.Width = W → a.Height = H →
      f a x = { a with Obstacles := a.Obstacles ++ h x }) (l : List Int) :
    ∀ a, a.Width = W → a.Height = H →
      l.foldl f a = { a with Obstacles := a.Obstacles ++ l.flatMap h } := by
  induction l with
  | nil =>
    intro a _ _
    simp
  | cons x xs ih =>
    intro a hW hH
    rw [List.foldl_cons, hf a x hW hH]
    rw [ih { a with Obstacles := a.Obstacles ++ h x } hW hH]
    simp only [List.flatMap_cons, List.append_assoc]

/-- The static barriers are the cross, appended to the obstacles. -/
theorem addStaticBarriers_eq (g : Game) :
    addStaticBarriers g = { g with Obstacles := g.Obstacles ++ crossCells g.Width g.Height } := by
  have key : ∀ (f1 f2 : Game → Int → Game) (h1 h2 : Int → List Position) (l1 : List Int)
      (l2 : Game → List Int),
      (∀ a x, a.Width = g.Width → a.Height = g.Height →
        f1 a x = { a with Obstacles := a.Obstacles ++ h1 x }) →
      (∀ a x, a.Width = g.Width → a.Height = g.Height →
        f2 a x = { a with Obstacles := a.Obstacles ++ h2 x }) →
      (l2 (l1.foldl f1 g)).foldl f2 (l1.foldl f1 g) =
        { g with Obstacles := g.Obstacles ++ (l1.flatMap h1 ++
            (l2 { g with Obstacles := g.Obstacles ++ l1.flatMap h1 }).flatMap h2) } := by
    intro f1 f2 h1 h2 l1 l2 a1 a2
    rw [foldl_appends f1 h1 g.Width g.Height a1 l1 g rfl rfl]
    rw [foldl_appends f2 h2 g.Width g.Height a2 (l2 _)
      { g with Obstacles := g.Obstacles ++ l1.flatMap h1 } rfl rfl]
    simp only [List.append_assoc]
  unfold addStaticBarriers
  simp only
  refine (key _ _
    (fun x => if 2 < |x - g.Width.tdiv 2| then
        (if 0 ≤ g.Height.tdiv 2 - 4 then [(⟨x, g.Height.tdiv 2 - 4⟩ : Position)] else []) ++
          (if g.Height.tdiv 2 + 4 < g.Height then [(⟨x, g.Height.tdiv 2 + 4⟩ : Position)]
            else [])
      else [])
    (fun y => if 2 < |y - g.Height.tdiv 2| then
        (if 0 ≤ g.Width.tdiv 2 - 4 then [(⟨g.Width.tdiv 2 - 4, y⟩ : Position)] else []) ++
          (if g.Width.tdiv 2 + 4 < g.Width then [(⟨g.Width.tdiv 2 + 4, y⟩ : Position)]
            else [])
      else [])
    _ (fun g1 => forRange 2 (g1.Height - 2) 1) ?_ ?_).trans ?_
  · intro a x _ hH
    simp only [abs_eq, gt_iff_lt, ge_iff_le]
    by_cases hx : 2 < |x - g.Width.tdiv 2|
    · rw [if_pos hx, if_pos hx]
      by_cases c1 : 0 ≤ g.Height.tdiv 2 - 4 <;> by_cases c2 : g.Height.tdiv 2 + 4 < g.Height <;>
        (simp [c1, c2, hH]; try rw [← hH])
    · rw [if_neg hx, if_neg hx]
      simp
  · intro a y hW _
    simp only [abs_eq, gt_iff_lt, ge_iff_le]
    by_cases hy : 2 < |y - g.Height.tdiv 2|
    · rw [if_pos hy, if_pos hy]
      by_cases c1 : 0 ≤ g.Width.tdiv 2 - 4 <;> by_cases c2 : g.Width.tdiv 2 + 4 < g.Width <;>
        (simp [c1, c2, hW]; try rw [← hW])
    · rw [if_neg hy, if_neg hy]
      simp
  · unfold crossCells
    rw [forRange_one, forRange_one]
    have e1 : g.Width - 2 - 2 = g.Width - 4 := by ring
    have e2 : g.Height - 2 - 2 = g.Height - 4 := by ring
    simp only [e1, e2]

/-- Levels 3 and 4: the layout is the static cross. -/
theorem setupLevel_cross (g : Game) (w : World) (h : g.Level = 3 ∨ g.Level = 4) :
    setupLevel g w =
      some ({ g with Obstacles := g.Obstacles ++ crossCells g.Width g.Height }, w) := by
  unfold setupLevel
  rw [if_pos h, addStaticBarriers_eq]

/-- Levels 5 and 6: the static cross, then two random obstacles. -/
theorem setupLevel_crossRandom (g : Game) (w : World) (h : g.Level = 5 ∨ g.Level = 6) :
    setupLevel g w =
      addRandomObstacles 2
        { g with Obstacles := g.Obstacles ++ crossCells g.Width g.Height } w := by
  unfold setupLevel
  rw [if_neg (by omega), if_pos h, addStaticBarriers_eq]

/-- Levels 7 and 8: four random obstacles. -/
theorem setupLevel_random (g : Game) (w : World) (h : g.Level = 7 ∨ g.Level = 8) :
    setupLevel g w = addRandomObstacles 4 g w := by
  unfold setupLevel
  rw [if_neg (by omega), if_neg (by omega), if_pos h]

/-- Levels 9 and 10: the maze. -/
theorem setupLevel_maze (g : Game) (w : World) (h : g.Level = 9 ∨ g.Level = 10) :
    setupLevel g w = addMazeLayout g w := by
  unfold setupLevel
  rw [if_neg (by omega), if_neg (by omega), if_neg (by omega), if_pos h]

theorem inSafeZone_iff (g : Game) (p : Position) :
    InSafeZone g p ↔ (|p.X - g.Width.tdiv 2| ≤ 2 ∧ |p.Y - g.Height.tdiv 2| ≤ 2) := by
  unfold InSafeZone
  rw [abs_eq, abs_eq]

/-- What a call `addRandomObstacles(count)` with `count ≥ 0` leaves in the
obstacle list: the old obstacles, then at most `count` new ones, pairwise
distinct and placeable. -/
theorem addRandomObstacles_adds (count : Nat) (g : Game) (w : World) (g' : Game) (w' : World)
    (h : addRandomObstacles count g w = some (g', w')) :
    ∃ added, g'.Obstacles = g.Obstacles ++ added ∧ added.length ≤ count ∧ added.Nodup ∧
      ∀ p ∈ added, Placeable g p := by
  unfold addRandomObstacles at h
  obtain ⟨added, m, a, b, _, _, e, f⟩ := addRandomObstaclesLoop_adds _ g w g' w' h
  refine ⟨added, by rw [a], ?_, e, f⟩
  simpa using b

/-- What one lattice point adds to the maze: nothing, the point, or the point
and the cell to its right or below it. -/
theorem mazeCell_adds (x y : Int) (g : Game) (w : World) (g' : Game) (w' : World)
    (h : mazeCell x y g w = some (g', w')) :
    ∃ added, g' = { g with Obstacles := g.Obstacles ++ added } ∧
      (∀ p ∈ added, p = ⟨x, y⟩ ∨ p = ⟨x + 1, y⟩ ∨ p = ⟨x, y + 1⟩) ∧
      (added ≠ [] → ¬ InSafeZone g ⟨x, y⟩) ∧
      (¬ InSafeZone g ⟨x, y⟩ → isPositionOccupied g ⟨x, y⟩ = false → ⟨x, y⟩ ∈ added) := by
  unfold mazeCell at h
  simp only at h
  split_ifs at h with h1 h2
  · simp only [Option.some.injEq, Prod.mk.injEq] at h
    obtain ⟨rfl, _⟩ := h
    exact ⟨[], by simp, fun p hp => absurd hp (List.not_mem_nil _), fun e => absurd rfl e,
      fun e => absurd h1 e⟩
  · cases hr : randIntn 2 w with
    | none => simp [hr] at h
    | some p =>
      obtain ⟨r, w1⟩ := p
      simp only [hr] at h
      by_cases hr0 : r = 0
      · simp only [hr0, if_true] at h
        split_ifs at h <;>
          (simp only [Option.some.injEq, Prod.mk.injEq] at h
           obtain ⟨rfl, _⟩ := h
           first
             | (refine ⟨[⟨x, y⟩, ⟨x + 1, y⟩], ?_, by simp, fun _ => h1, fun _ _ => by simp⟩
                simp only [List.append_assoc, List.singleton_append])
             | exact ⟨[⟨x, y⟩], rfl, by simp, fun _ => h1, fun _ _ => by simp⟩)
      · simp only [hr0, if_false] at h
        split_ifs at h <;>
          (simp only [Option.some.injEq, Prod.mk.injEq] at h
           obtain ⟨rfl, _⟩ := h
           first
             | (refine ⟨[⟨x, y⟩, ⟨x, y + 1⟩], ?_, by simp, fun _ => h1, fun _ _ => by simp⟩
                simp only [List.append_assoc, List.singleton_append])
             | exact ⟨[⟨x, y⟩], rfl, by simp, fun _ => h1, fun _ _ => by simp⟩)
  · simp only [Option.some.injEq, Prod.mk.injEq] at h
    obtain ⟨rfl, _⟩ := h
    refine ⟨[], by simp, fun p hp => absurd hp (List.not_mem_nil _), fun e => absurd rfl e, ?_⟩
    intro _ hfree
    rw [hfree] at h2
    simp at h2

/-- Visiting one more lattice point keeps the maze invariant. -/
theorem mazeInv_step (g0 : Game) (V : Position → Prop) (x y : Int) (g : Game) (w : World)
    (g' : Game) (w' : World) (hC : InSafeZone g0 g0.Commander) (hT : g0.Trail = [])
    (hI : MazeInv g0 V g) (h : mazeCell x y g w = some (g', w')) :
    MazeInv g0 (fun v => V v ∨ v = ⟨x, y⟩) g' := by
  obtain ⟨i1, i2, i3⟩ := hI
  obtain ⟨added, e, a1, a2, a3⟩ := mazeCell_adds x y g w g' w' h
  have hW : g.Width = g0.Width := ObstaclesOnly.width i1
  have hH : g.Height = g0.Height := ObstaclesOnly.height i1
  have hz : ∀ p, InSafeZone g p ↔ InSafeZone g0 p := by
    intro p
    unfold InSafeZone
    rw [hW, hH]
  have hO : g'.Obstacles = g.Obstacles ++ added := by rw [e]
  refine ⟨ObstaclesOnly.trans i1 (mazeCell_obstaclesOnly x y g w g' w' h), ?_, ?_⟩
  · intro o ho
    rw [hO, List.mem_append] at ho
    rcases ho with ho | ho
    · obtain ⟨v, v1, v2, v3⟩ := i2 o ho
      exact ⟨v, Or.inl v1, v2, v3⟩
    · have hne : added ≠ [] := List.ne_nil_of_mem ho
      exact ⟨⟨x, y⟩, Or.inr rfl, fun hin => a2 hne ((hz _).2 hin), a1 o ho⟩
  · intro v hv hnz
    rw [hO, List.mem_append]
    rcases hv with hv | hv
    · exact Or.inl (i3 v hv hnz)
    · subst hv
      cases hocc : isPositionOccupied g ⟨x, y⟩ with
      | false => exact Or.inr (a3 (fun hin => hnz ((hz _).1 hin)) hocc)
      | true =>
        have hcases := (isPositionOccupied_iff g ⟨x, y⟩).1 hocc
        have hgC : g.Commander = g0.Commander := by rw [i1]
        have hgT : g.Trail = g0.Trail := by rw [i1]
        rw [hgC, hgT, hT] at hcases
        rcases hcases with hc | hc | hc
        · exact absurd (hc ▸ hC) hnz
        · exact absurd hc (List.not_mem_nil _)
        · exact Or.inl hc

theorem mazeInv_congr (g0 : Game) (V V' : Position → Prop) (g : Game)
    (hV : ∀ v, V v ↔ V' v) (h : MazeInv g0 V g) : MazeInv g0 V' g := by
  obtain ⟨i1, i2, i3⟩ := h
  refine ⟨i1, ?_, fun v hv hnz => i3 v ((hV v).2 hv) hnz⟩
  intro o ho
  obtain ⟨v, v1, v2, v3⟩ := i2 o ho
  exact ⟨v, (hV v).1 v1, v2, v3⟩

/-- A loop keeps an invariant that every iteration extends by its own
iteration value. -/
theorem forEach_invariant (body : Int → Game → World → Option (Game × World))
    (I : List Int → Game → Prop)
    (hstep : ∀ seen x g w g' w', I seen g → body x g w = some (g', w') → I (seen ++ [x]) g')
    (l : List Int) :
    ∀ (seen : List Int) (g : Game) (w : World) (g' : Game) (w' : World),
      I seen g → forEach body l g w = some (g', w') → I (seen ++ l) g' := by
  induction l with
  | nil =>
    intro seen g w g' w' hI h
    unfold forEach at h
    simp only [Option.some.injEq, Prod.mk.injEq] at h
    obtain ⟨rfl, _⟩ := h
    rw [List.append_nil]
    exact hI
  | cons x xs ih =>
    intro seen g w g' w' hI h
    unfold forEach at h
    cases hp : body x g w with
    | none => simp [hp] at h
    | some p =>
      obtain ⟨g1, w1⟩ := p
      simp only [hp] at h
      have := ih (seen ++ [x]) g1 w1 g' w' (hstep seen x g w g1 w1 hI hp) h
      rw [List.append_assoc] at this
      exact this

/-- The values of a loop with step 4, given enough iterations. -/
theorem mem_loopFrom_four (hi x' : Int) : ∀ (n : Nat) (x : Int), (hi - x).toNat ≤ n →
    (x' ∈ loopFrom hi 4 n x ↔ x ≤ x' ∧ x' < hi ∧ (x' - x) % 4 = 0) := by
  intro n
  induction n with
  | zero =>
    intro x hn
    unfold loopFrom
    simp only [List.not_mem_nil, false_iff]
    omega
  | succ k ih =>
    intro x hn
    unfold loopFrom
    by_cases hx : x < hi
    · rw [if_pos hx, List.mem_cons, ih (x + 4) (by omega)]
      omega
    · rw [if_neg hx]
      simp only [List.not_mem_nil, false_iff]
      omega

/-- The values of `for x := 2; x < hi; x += 4`. -/
theorem mem_forRange_four (hi x' : Int) :
    x' ∈ forRange 2 hi 4 ↔ 2 ≤ x' ∧ x' < hi ∧ x' % 4 = 2 := by
  unfold forRange
  rw [mem_loopFrom_four hi x' _ 2 (le_refl _)]
  omega

/-- The maze that `addMazeLayout` builds on a game without trail and
obstacles whose commander stands in the safe zone: every lattice point (both
coordinates of the form `2 + 4 * i`, columns below `Width - 2`, rows below
`Height - 2`) outside the safe zone is an obstacle, and every obstacle is such
a point or the cell to its right or below it. -/
theorem addMazeLayout_maze (g : Game) (w : World) (g' : Game) (w' : World)
    (hC : InSafeZone g g.Commander) (hT : g.Trail = []) (hO : g.Obstacles = [])
    (h : addMazeLayout g w = some (g', w')) :
    MazeInv g (fun v => (2 ≤ v.X ∧ v.X < g.Width - 2 ∧ v.X % 4 = 2) ∧
      (2 ≤ v.Y ∧ v.Y < g.Height - 2 ∧ v.Y % 4 = 2)) g' := by
  unfold addMazeLayout at h
  have hout := forEach_invariant
    (fun x g1 w1 =>
      forEach (fun y g2 w2 => mazeCell x y g2 w2) (forRange 2 (g1.Height - 2) 4) g1 w1)
    (fun seen g1 => MazeInv g
      (fun v => v.X ∈ seen ∧ v.Y ∈ forRange 2 (g.Height - 2) 4) g1)
    ?_ (forRange 2 (g.Width - 2) 4) [] g w g' w' ?_ h
  · refine mazeInv_congr g _ _ g' ?_ hout
    intro v
    rw [List.nil_append, mem_forRange_four, mem_forRange_four]
  · intro seen x g1 w1 g2 w2 hI hb
    have hH : g1.Height = g.Height := ObstaclesOnly.height hI.1
    simp only at hb
    rw [hH] at hb
    have hin := forEach_invariant (fun y g2 w2 => mazeCell x y g2 w2)
      (fun seenY g3 => MazeInv g
        (fun v => (v.X ∈ seen ∧ v.Y ∈ forRange 2 (g.Height - 2) 4) ∨
          (v.X = x ∧ v.Y ∈ seenY)) g3)
      ?_ (forRange 2 (g.Height - 2) 4) [] g1 w1 g2 w2 ?_ hb
    · refine mazeInv_congr g _ _ g2 ?_ hin
      intro v
      simp only [List.nil_append, List.mem_append, List.mem_singleton]
      constructor
      · rintro (⟨a, b⟩ | ⟨a, b⟩)
        · exact ⟨Or.inl a, b⟩
        · exact ⟨Or.inr a, b⟩
      · rintro ⟨a | a, b⟩
        · exact Or.inl ⟨a, b⟩
        · exact Or.inr ⟨a, b⟩
    · intro seenY y g3 w3 g4 w4 hI3 hm
      refine mazeInv_congr g _ _ g4 ?_ (mazeInv_step g _ x y g3 w3 g4 w4 hC hT hI3 hm)
      intro v
      simp only [List.mem_append, List.mem_singleton]
      constructor
      · rintro ((a | ⟨a, b⟩) | a)
        · exact Or.inl a
        · exact Or.inr ⟨a, Or.inl b⟩
        · subst a
          exact Or.inr ⟨rfl, Or.inr rfl⟩
      · rintro (a | ⟨a, b | b⟩)
        · exact Or.inl (Or.inl a)
        · exact Or.inl (Or.inr ⟨a, b⟩)
        · right
          cases v
          simp only at a b
          rw [a, b]
    · refine mazeInv_congr g _ _ g1 ?_ hI
      intro v
      simp
  · refine ⟨ObstaclesOnly.refl g, ?_, ?_⟩
    · intro o ho
      rw [hO] at ho
      exact absurd ho (List.not_mem_nil _)
    · intro v hv
      exact absurd hv.1 (List.not_mem_nil _)

/-- On a grid with positive sides every sampled cell lies in the grid. -/
theorem sampleCell_inBounds (g : Game) (w : World) (k : Nat) (hW : 0 < g.Width)
    (hH : 0 < g.Height) :
    0 ≤ (sampleCell g w k).X ∧ (sampleCell g w k).X < g.Width ∧
      0 ≤ (sampleCell g w k).Y ∧ (sampleCell g w k).Y < g.Height := by
  unfold sampleCell
  exact ⟨Int.emod_nonneg _ (by omega), Int.emod_lt_of_pos _ hW,
    Int.emod_nonneg _ (by omega), Int.emod_lt_of_pos _ hH⟩

/-- The inner loop of `addRandomObstacles` places the obstacle on the first
sampled cell that qualifies. -/
theorem placeRandomObstacle_exact (n : Nat) : ∀ (g : Game) (w : World) (g' : Game)
    (w' : World), 0 < g.Width → 0 < g.Height → placeRandomObstacle n g w = some (g', w') →
      PlacedWithin n g w g' w' := by
  induction n with
  | zero =>
    intro g w g' w' _ _ h
    unfold placeRandomObstacle at h
    simp only [Option.some.injEq, Prod.mk.injEq] at h
    obtain ⟨rfl, rfl⟩ := h
    exact Or.inr ⟨fun j hj => absurd hj (Nat.not_lt_zero j), rfl, sampled_zero _⟩
  | succ k ih =>
    intro g w g' w' hW hH h
    unfold placeRandomObstacle at h
    simp only [randIntn_pos hW, randIntn_pos hH] at h
    have hcell : (⟨(w.rand w.drawn : Int) % g.Width,
        (({ w with drawn := w.drawn + 1 } : World).rand
          ({ w with drawn := w.drawn + 1 } : World).drawn : Int) % g.Height⟩ : Position) =
        sampleCell g w 0 := rfl
    have hw2 : ({ ({ w with drawn := w.drawn + 1 } : World) with
        drawn := ({ w with drawn := w.drawn + 1 } : World).drawn + 1 } : World) =
        afterSample w := rfl
    have hb := sampleCell_inBounds g w 0 hW hH
    have shift : ∀ (g1 : Game) (w1 : World), PlacedWithin k g (afterSample w) g1 w1 →
        ¬ Placeable g (sampleCell g w 0) → PlacedWithin (k + 1) g w g1 w1 := by
      intro g1 w1 hp h0
      have hsm : ∀ m, Sampled (afterSample w) w1 m → Sampled w w1 (m + 1) :=
        fun m hm => sampled_succ w rfl hm
      rcases hp with ⟨i, hi, a, b, c, d⟩ | ⟨a, b, c⟩
      · left
        refine ⟨i + 1, by omega, ?_, ?_, ?_, hsm _ d⟩
        · intro j hj
          cases j with
          | zero => exact h0
          | succ j2 =>
            rw [← sampleCell_afterSample]
            exact a j2 (by omega)
        · rw [← sampleCell_afterSample]
          exact b
        · rw [← sampleCell_afterSample]
          exact c
      · right
        refine ⟨?_, b, hsm _ c⟩
        intro j hj
        cases j with
        | zero => exact h0
        | succ j2 =>
          rw [← sampleCell_afterSample]
          exact a j2 (by omega)
    split_ifs at h with hz ho
    · rw [hw2] at h
      refine shift g' w' (ih g _ g' w' hW hH h) ?_
      intro hp
      rw [← hcell] at hp
      exact hp.2.1 hz
    · simp only [Option.some.injEq, Prod.mk.injEq] at h
      obtain ⟨rfl, rfl⟩ := h
      left
      refine ⟨0, by omega, fun j hj => absurd hj (Nat.not_lt_zero j), ?_, ?_, ?_⟩
      · have hfree : isPositionOccupied g (sampleCell g w 0) = false := by
          rw [← hcell]
          simpa using ho
        refine ⟨hb, ?_, (not_occupied_iff g _).1 hfree⟩
        rw [← hcell]
        exact hz
      · rw [← hcell]
      · rw [hw2]
        exact sampled_succ w rfl (sampled_zero _)
    · rw [hw2] at h
      refine shift g' w' (ih g _ g' w' hW hH h) ?_
      intro hp
      have hfree := (not_occupied_iff g _).2 hp.2.2
      rw [← hcell] at hfree
      rw [hfree] at ho
      simp at ho

/-- The outer loop of `addRandomObstacles` is a run of single placements. -/
theorem addRandomObstaclesLoop_exact (n : Nat) : ∀ (g : Game) (w : World) (g' : Game)
    (w' : World), 0 < g.Width → 0 < g.Height → addRandomObstaclesLoop n g w = some (g', w') →
      PlacedRun n g w g' w' := by
  induction n with
  | zero =>
    intro g w g' w' _ _ h
    unfold addRandomObstaclesLoop at h
    simp only [Option.some.injEq, Prod.mk.injEq] at h
    exact ⟨h.1.symm, h.2.symm⟩
  | succ k ih =>
    intro g w g' w' hW hH h
    unfold addRandomObstaclesLoop at h
    cases hp : placeRandomObstacle 50 g w with
    | none => simp [hp] at h
    | some q =>
      obtain ⟨g1, w1⟩ := q
      simp only [hp] at h
      have hoo := placeRandomObstacle_obstaclesOnly 50 g w g1 w1 hp
      exact ⟨g1, w1, placeRandomObstacle_exact 50 g w g1 w1 hW hH hp,
        ih g1 w1 g' w' (by rw [ObstaclesOnly.width hoo]; exact hW)
          (by rw [ObstaclesOnly.height hoo]; exact hH) h⟩

/-- C6. Postcondition of `nextLevel` below level 10 on a grid with positive
sides: level `L + 1`, no alert collected, `5 + L` alerts needed, `Playing`, the
commander on the centre cell, an empty trail, exactly three alerts, and score,
direction, width and height as before. The obstacles are the freshly
generated layout of level `L + 1`, from which the safety loop removes nothing,
and none lies on the commander's cell: no obstacle up to level 2; the static
cross at levels 3 and 4; the cross followed by at most 2 random obstacles at
levels 5 and 6; at most 4 random obstacles at levels 7 and 8 (each random
obstacle goes on the first of up to 50 sampled cells that lies outside the
safe zone and is free; random obstacles are pairwise distinct cells of the
grid outside the safe zone and off the cross); at levels 9 and 10 the maze: every lattice point outside the safe zone,
each possibly with the cell to its right or below it. At every level all
obstacles lie outside the safe zone. The layout is always
produced, and the call returns as soon as the sampled cells contain three
free ones. -/
theorem nextLevel_post (fuel : Nat) (g : Game) (w : World)
    (hL : g.Level < 10) (hW : 0 < g.Width) (hH : 0 < g.Height) :
    ∃ gs ws, setupLevel (levelStart g (timeNow w).1) (timeNow w).2 = some (gs, ws) ∧
      (∀ g' w', nextLevel fuel g w = some (g', w') →
        (g'.Level = g.Level + 1 ∧ g'.AlertsCollected = 0 ∧ g'.AlertsNeeded = 5 + g.Level ∧
          g'.State = .Playing ∧ g'.Commander = ⟨g.Width / 2, g.Height / 2⟩ ∧ g'.Trail = [] ∧
          g'.Obstacles = gs.Obstacles.filter (fun o => decide (o ≠ g'.Commander)) ∧
          g'.Commander ∉ g'.Obstacles ∧ g'.Alerts.length = 3 ∧
          g'.Score = g.Score ∧ g'.Direction = g.Direction ∧
          g'.Width = g.Width ∧ g'.Height = g.Height) ∧
        g'.Obstacles = gs.Obstacles ∧
        (g.Level + 1 < 3 → g'.Obstacles = []) ∧
        (g.Level + 1 = 3 ∨ g.Level + 1 = 4 → g'.Obstacles = crossCells g.Width g.Height) ∧
        (g.Level + 1 = 5 ∨ g.Level + 1 = 6 →
          addRandomObstacles 2
              { (levelStart g (timeNow w).1) with Obstacles := crossCells g.Width g.Height }
              (timeNow w).2 = some (gs, ws) ∧
            PlacedRun 2
              { (levelStart g (timeNow w).1) with Obstacles := crossCells g.Width g.Height }
              (timeNow w).2 gs ws ∧
            ∃ added, g'.Obstacles = crossCells g.Width g.Height ++ added ∧
              added.length ≤ 2 ∧ added.Nodup ∧
              ∀ p ∈ added, (0 ≤ p.X ∧ p.X < g.Width ∧ 0 ≤ p.Y ∧ p.Y < g.Height) ∧
                ¬ (|p.X - g.Width.tdiv 2| ≤ 2 ∧ |p.Y - g.Height.tdiv 2| ≤ 2) ∧
                p ∉ crossCells g.Width g.Height) ∧
        (g.Level + 1 = 7 ∨ g.Level + 1 = 8 →
          addRandomObstacles 4 (levelStart g (timeNow w).1) (timeNow w).2 = some (gs, ws) ∧
            PlacedRun 4 (levelStart g (timeNow w).1) (timeNow w).2 gs ws ∧
            g'.Obstacles.length ≤ 4 ∧ g'.Obstacles.Nodup ∧
            ∀ p ∈ g'.Obstacles, (0 ≤ p.X ∧ p.X < g.Width ∧ 0 ≤ p.Y ∧ p.Y < g.Height) ∧
              ¬ (|p.X - g.Width.tdiv 2| ≤ 2 ∧ |p.Y - g.Height.tdiv 2| ≤ 2)) ∧
        (g.Level + 1 = 9 ∨ g.Level + 1 = 10 →
          addMazeLayout (levelStart g (timeNow w).1) (timeNow w).2 = some (gs, ws) ∧
            (∀ x y, (2 ≤ x ∧ x < g.Width - 2 ∧ x % 4 = 2) →
              (2 ≤ y ∧ y < g.Height - 2 ∧ y % 4 = 2) →
              ¬ (|x - g.Width.tdiv 2| ≤ 2 ∧ |y - g.Height.tdiv 2| ≤ 2) →
              (⟨x, y⟩ : Position) ∈ g'.Obstacles) ∧
            ∀ o ∈ g'.Obstacles, ∃ x y, (2 ≤ x ∧ x < g.Width - 2 ∧ x % 4 = 2) ∧
              (2 ≤ y ∧ y < g.Height - 2 ∧ y % 4 = 2) ∧
              ¬ (|x - g.Width.tdiv 2| ≤ 2 ∧ |y - g.Height.tdiv 2| ≤ 2) ∧
              (o = ⟨x, y⟩ ∨ o = ⟨x + 1, y⟩ ∨ o = ⟨x, y + 1⟩)) ∧
        ∀ o ∈ g'.Obstacles, ¬ (|o.X - g.Width.tdiv 2| ≤ 2 ∧ |o.Y - g.Height.tdiv 2| ≤ 2)) ∧
      (3 ≤ freeSamples { (levelStart g (timeNow w).1) with
            Obstacles := gs.Obstacles.filter (fun o => decide (o ≠ centre g)) } ws fuel →
        ∃ g' w', nextLevel fuel g w = some (g', w')) := by
  obtain ⟨gs, ws, hs⟩ := setupLevel_isSome (levelStart g (timeNow w).1) (timeNow w).2 hW hH
  refine ⟨gs, ws, hs, ?_, ?_⟩
  · intro g' w' h
    obtain ⟨gs2, ws2, hs2, hO2, _, _, hsafe⟩ := nextLevel_obstacles fuel g w g' w' hL h
    obtain ⟨hf, _⟩ := nextLevel_frame fuel g w g' w' hL h
    have hWg : g'.Width = g.Width := by rw [hf]; rfl
    have hHg : g'.Height = g.Height := by rw [hf]; rfl
    rw [hs] at hs2
    simp only [Option.some.injEq, Prod.mk.injEq] at hs2
    obtain ⟨rfl, rfl⟩ := hs2
    have hlv : (levelStart g (timeNow w).1).Level = g.Level + 1 := rfl
    have hz : ∀ p, InSafeZone (levelStart g (timeNow w).1) p ↔
        (|p.X - g.Width.tdiv 2| ≤ 2 ∧ |p.Y - g.Height.tdiv 2| ≤ 2) :=
      fun p => inSafeZone_iff _ p
    refine ⟨?_, hO2, ?_, ?_, ?_, ?_, ?_, ?_⟩
    rotate_right
    · intro o ho hin
      apply hsafe o ho
      rw [inSafeZone_iff, hWg, hHg]
      exact hin
    · rw [nextLevel_eq fuel g w hL, hs] at h
      simp only at h
      obtain ⟨h1, _, h3, _⟩ := spawnAlerts_spec fuel _ _ _ _ h
      have hC : g'.Commander = ⟨g.Width.tdiv 2, g.Height.tdiv 2⟩ := by rw [h1]; rfl
      have hO : g'.Obstacles = gs.Obstacles.filter (fun o => decide (o ≠ g'.Commander)) := by
        rw [hC]
        conv_lhs => rw [h1]
      refine ⟨by rw [h1]; rfl, by rw [h1]; rfl, ?_, by rw [h1]; rfl, ?_, by rw [h1]; rfl, hO, ?_,
        h3 (show (0 : Nat) < 3 by decide), by rw [h1]; rfl, by rw [h1]; rfl, by rw [h1]; rfl,
        by rw [h1]; rfl⟩
      · rw [h1]
        show 5 + (g.Level + 1 - 1) = 5 + g.Level
        ring
      · rw [hC, Int.tdiv_eq_ediv (le_of_lt hW) (by decide),
          Int.tdiv_eq_ediv (le_of_lt hH) (by decide)]
      · intro hmem
        rw [hO] at hmem
        simpa using (List.mem_filter.1 hmem).2
    · intro hlow
      rw [setupLevel_open _ _ (Or.inl (by rw [hlv]; exact hlow))] at hs
      simp only [Option.some.injEq, Prod.mk.injEq] at hs
      rw [hO2, ← hs.1]
      rfl
    · intro h34
      rw [setupLevel_cross _ _ (by rw [hlv]; exact h34)] at hs
      simp only [Option.some.injEq, Prod.mk.injEq] at hs
      rw [hO2, ← hs.1]
      rfl
    · intro h56
      rw [setupLevel_crossRandom _ _ (by rw [hlv]; exact h56)] at hs
      have hs' : addRandomObstacles 2
          { (levelStart g (timeNow w).1) with Obstacles := crossCells g.Width g.Height }
          (timeNow w).2 = some (gs, ws) := hs
      refine ⟨hs', addRandomObstaclesLoop_exact 2 _ _ _ _ hW hH hs', ?_⟩
      obtain ⟨added, a, b, c, d⟩ := addRandomObstacles_adds 2 _ _ _ _ hs'
      refine ⟨added, by rw [hO2, a], b, c, ?_⟩
      intro p hp
      obtain ⟨p1, p2, _, _, p5⟩ := d p hp
      exact ⟨p1, fun e => p2 ((inSafeZone_iff _ p).2 e), p5⟩
    · intro h78
      rw [setupLevel_random _ _ (by rw [hlv]; exact h78)] at hs
      refine ⟨hs, addRandomObstaclesLoop_exact 4 _ _ _ _ hW hH hs, ?_⟩
      obtain ⟨added, a, b, c, d⟩ := addRandomObstacles_adds 4 _ _ _ _ hs
      have e : g'.Obstacles = added := by
        rw [hO2, a]
        rfl
      rw [e]
      refine ⟨b, c, ?_⟩
      intro p hp
      obtain ⟨p1, p2, _⟩ := d p hp
      exact ⟨p1, fun e => p2 ((hz p).2 e)⟩
    · intro h910
      rw [setupLevel_maze _ _ (by rw [hlv]; exact h910)] at hs
      refine ⟨hs, ?_⟩
      obtain ⟨_, m2, m3⟩ := addMazeLayout_maze _ _ _ _
        (centre_inSafeZone (levelStart g (timeNow w).1)) rfl rfl hs
      rw [hO2]
      constructor
      · intro x y hx hy hnz
        exact m3 ⟨x, y⟩ ⟨hx, hy⟩ (fun e => hnz ((hz _).1 e))
      · intro o ho
        obtain ⟨v, ⟨v1, v2⟩, v3, v4⟩ := m2 o ho
        exact ⟨v.X, v.Y, v1, v2, fun e => v3 ((hz _).2 e), v4⟩
  · intro hfree
    rw [nextLevel_eq fuel g w hL, hs]
    simp only
    have hsome := spawnAlerts_isSome fuel _ ws
      (show 0 < ({ (levelStart g (timeNow w).1) with
        Obstacles := gs.Obstacles.filter (fun o => decide (o ≠ centre g)) } : Game).Width from hW)
      hH (le_trans hfree (Nat.le_add_left _ _))
    obtain ⟨r, hr⟩ := Option.isSome_iff_exists.1 hsome
    exact ⟨r.1, r.2, hr⟩

theorem nextLevel_post_witness :
    (({ crossGame with Level := 2, Obstacles := [⟨7, 7⟩], Direction := Up } : Game).Level < 10 ∧
      0 < ({ crossGame with Level := 2, Obstacles := [⟨7, 7⟩], Direction := Up } : Game).Width ∧
      0 < ({ crossGame with Level := 2, Obstacles := [⟨7, 7⟩], Direction := Up } : Game).Height) ∧
    (nextLevel 3 { crossGame with Level := 2, Obstacles := [⟨7, 7⟩], Direction := Up }
        tickWorld).map
      (fun r => (r.1.Level, r.1.AlertsCollected, r.1.AlertsNeeded, r.1.State)) =
        some (3, 0, 7, .Playing) ∧
    (nextLevel 3 { crossGame with Level := 2, Obstacles := [⟨7, 7⟩], Direction := Up }
        tickWorld).map
      (fun r => (r.1.Commander, r.1.Trail)) = some (⟨10, 10⟩, []) ∧
    (nextLevel 3 { crossGame with Level := 2, Obstacles := [⟨7, 7⟩], Direction := Up }
        tickWorld).map
      (fun r => (r.1.Score, r.1.Direction, r.1.Alerts, r.1.Obstacles.length,
        decide (r.1.Obstacles = crossCells 20 20))) =
        some (900, Up, [⟨11, 10⟩, ⟨12, 10⟩, ⟨13, 10⟩], 44, true) ∧
    (nextLevel 3 { crossGame with Level := 8 } tickWorld).map
      (fun r => (r.1.Level, r.1.Obstacles.take 4, r.1.Obstacles.length)) =
        some (9, [⟨2, 2⟩, ⟨2, 3⟩, ⟨2, 6⟩, ⟨3, 6⟩], 30) ∧
    ∃ gs ws,
      setupLevel (levelStart { crossGame with Level := 2, Obstacles := [⟨7, 7⟩], Direction := Up }
        (timeNow tickWorld).1) (timeNow tickWorld).2 = some (gs, ws) ∧
      ∀ g' w', nextLevel 3 { crossGame with Level := 2, Obstacles := [⟨7, 7⟩], Direction := Up }
          tickWorld = some (g', w') →
        g'.Level = 3 ∧ g'.Obstacles = crossCells 20 20 :=
  ⟨⟨by decide, by decide, by decide⟩, by decide, by decide, by decide, by decide,
    (nextLevel_post 3 { crossGame with Level := 2, Obstacles := [⟨7, 7⟩], Direction := Up }
      tickWorld (by decide) (by decide) (by decide)).imp
      (fun _ h => h.imp (fun _ h2 => ⟨h2.1, fun g' w' hn =>
        ⟨(h2.2.1 g' w' hn).1.1, (h2.2.1 g' w' hn).2.2.2.1 (Or.inl rfl)⟩⟩))⟩

end IncidentGame
